import Mathlib

/-!
# VSFS consistency checker (`inode-bitmap.c`)

A shallow embedding of the checker's passes and of the pass sequence of `main`.

* Unsigned 32-bit fields and bitmap bytes are natural numbers.  The only place
  where the width of an integer decides the outcome is the conversion
  `int blk = inodes[i].direct_block` of `check_and_fix_bad_blocks`, modelled by
  `to_int32`.
* A C array is a function from its index; a store is a pointwise override.
* The image file is a `Disk`: superblock, inode bitmap, data bitmap and the
  inode table as records of `INODE_SIZE` = 256 bytes.  The array `inodes[]` has
  the same record type but its slots are `sizeof(inode_t)` = 212 bytes apart.
  `read_inodes` and `write_inodes` copy bytes, so they are modelled on bytes:
  slot `k` holds the table bytes from `212 * k` on, and the bytes that do not fit
  the array belong to `inode_bitmap[]`, the object laid out behind it.  Fields
  are stored least significant byte first.
* `printf` output is not part of the state.
-/

namespace Vsfs

/-! ## Constants -/

def BLOCK_SIZE : Nat := 4096
def TOTAL_BLOCKS : Nat := 64
def SUPERBLOCK_BLOCK : Nat := 0
def INODE_BITMAP_BLOCK : Nat := 1
def DATA_BITMAP_BLOCK : Nat := 2
def INODE_TABLE_START_BLOCK : Nat := 3
def INODE_TABLE_BLOCKS : Nat := 5
def FIRST_DATA_BLOCK : Nat := 8
def INODE_COUNT : Nat := 80
def INODE_SIZE : Nat := 256
def INODES_PER_BLOCK : Nat := BLOCK_SIZE / INODE_SIZE
def TOTAL_INODES : Nat := INODE_TABLE_BLOCKS * INODES_PER_BLOCK
def VSFS_MAGIC : Nat := 0xD34D

/-! ## Records -/

/-- The packed superblock record. -/
structure Superblock where
  magic : Nat
  block_size : Nat
  total_blocks : Nat
  inode_bitmap_block : Nat
  data_bitmap_block : Nat
  inode_table_start : Nat
  data_block_start : Nat
  inode_size : Nat
  inode_count : Nat
  reserved : List Nat
deriving DecidableEq, Repr

/-- The inode record.  In memory `reserved` has 156 entries; a record of the
table has `INODE_SIZE` bytes, that is 200 bytes after the fields. -/
structure inode_t where
  mode : Nat
  uid : Nat
  gid : Nat
  size : Nat
  atime : Nat
  ctime : Nat
  mtime : Nat
  dtime : Nat
  links_count : Nat
  blocks_count : Nat
  direct_block : Nat
  indirect1 : Nat
  indirect2 : Nat
  indirect3 : Nat
  reserved : List Nat
deriving DecidableEq, Repr

/-- Widths in bytes of the members of `inode_t`, in declaration order: fourteen
`uint32_t` fields and `uint8_t reserved[156]`. -/
def inode_t_members : List Nat := [4, 4, 4, 4, 4, 4, 4, 4, 4, 4, 4, 4, 4, 4, 156]

/-- Value of `sizeof(inode_t)`: every member is 4-byte aligned at its natural
offset and the total is a multiple of 4, so the size is the sum of the widths. -/
def sizeof_inode_t : Nat := inode_t_members.sum

/-- Byte offset, from the start of the array `inodes`, of `inodes[i]`. -/
def inodes_slot_offset (i : Nat) : Nat := i * sizeof_inode_t

/-- Byte offset, from the start of the inode table in the image, of record `i`,
as `check_and_fix_inode_bitmap` seeks it (`i * INODE_SIZE`). -/
def disk_record_offset (i : Nat) : Nat := i * INODE_SIZE

/-- Number of bytes `read_inodes` copies from the image into `inodes`. -/
def read_inodes_bytes : Nat := INODE_SIZE * TOTAL_INODES

abbrev Bitmap := Nat → Nat
abbrev InodeTable := Nat → inode_t

/-- The image file. -/
structure Disk where
  sb : Superblock
  inode_bitmap : Bitmap
  data_bitmap : Bitmap
  inodes : InodeTable

/-- The global variables of the program together with the open image `fp`. -/
structure State where
  sb : Superblock
  inodes : InodeTable
  inode_bitmap : Bitmap
  data_bitmap : Bitmap
  block_usage_count : Nat → Int
  fp : Disk

/-! ## Bitmap utilities -/

/-- `(bitmap[index / 8] >> (index % 8)) & 1`. -/
def is_bitmap_set (bitmap : Bitmap) (index : Nat) : Nat :=
  (bitmap (index / 8) >>> (index % 8)) &&& 1

/-- Store into one element of an array. -/
def store {α : Type} (a : Nat → α) (k : Nat) (v : α) : Nat → α :=
  fun n => if n = k then v else a n

/-- `bitmap[index / 8] |= (1 << (index % 8))` when `value` is non-zero, else
`bitmap[index / 8] &= ~(1 << (index % 8))`.  On a byte the complement of the
one-bit mask is `0xFF` with that bit removed. -/
def set_bitmap (bitmap : Bitmap) (index : Nat) (value : Nat) : Bitmap :=
  if value ≠ 0 then
    store bitmap (index / 8) (bitmap (index / 8) ||| (1 <<< (index % 8)))
  else
    store bitmap (index / 8) (bitmap (index / 8) &&& (0xFF ^^^ (1 <<< (index % 8))))

/-- Conversion of a `uint32_t` to `int` (two's complement). -/
def to_int32 (v : Nat) : Int :=
  if v % 2 ^ 32 < 2 ^ 31 then ((v % 2 ^ 32 : Nat) : Int) else ((v % 2 ^ 32 : Nat) : Int) - 2 ^ 32

/-- The liveness test `links_count > 0 && dtime == 0`. -/
def live (x : inode_t) : Bool := decide (x.links_count > 0) && decide (x.dtime = 0)

/-! ## Image access -/

/-- Globals at program start (zero-initialised) with the image opened. -/
def zero_superblock : Superblock := ⟨0, 0, 0, 0, 0, 0, 0, 0, 0, List.replicate 4058 0⟩

def zero_inode : inode_t := ⟨0, 0, 0, 0, 0, 0, 0, 0, 0, 0, 0, 0, 0, 0, List.replicate 156 0⟩

def fopen (img : Disk) : State :=
  { sb := zero_superblock, inodes := fun _ => zero_inode, inode_bitmap := fun _ => 0,
    data_bitmap := fun _ => 0, block_usage_count := fun _ => 0, fp := img }

def read_superblock (s : State) : State := { s with sb := s.fp.sb }

def write_superblock (s : State) : State := { s with fp := { s.fp with sb := s.sb } }

def read_bitmaps (s : State) : State :=
  { s with inode_bitmap := s.fp.inode_bitmap, data_bitmap := s.fp.data_bitmap }

def write_bitmaps (s : State) : State :=
  { s with fp := { s.fp with inode_bitmap := s.inode_bitmap, data_bitmap := s.data_bitmap } }

/-! ### Bytes of an inode record

`fread` and `fwrite` move bytes.  A record is fourteen 4-byte fields (stored
least significant byte first) followed by its reserved bytes; an entry missing
from `reserved` reads as a zero byte. -/

/-- Byte `b` of a 4-byte field holding `v`, least significant first. -/
def byte_of (v b : Nat) : Nat := (v / 256 ^ b) % 256

/-- The 4-byte field made of the bytes `b0` (least significant) to `b3`. -/
def le32 (b0 b1 b2 b3 : Nat) : Nat := b0 + 256 * b1 + 65536 * b2 + 16777216 * b3

/-- The `f`-th 4-byte member of `inode_t`, in declaration order. -/
def inode_field (x : inode_t) (f : Nat) : Nat :=
  match f with
  | 0 => x.mode
  | 1 => x.uid
  | 2 => x.gid
  | 3 => x.size
  | 4 => x.atime
  | 5 => x.ctime
  | 6 => x.mtime
  | 7 => x.dtime
  | 8 => x.links_count
  | 9 => x.blocks_count
  | 10 => x.direct_block
  | 11 => x.indirect1
  | 12 => x.indirect2
  | 13 => x.indirect3
  | _ => 0

/-- The byte at offset `o` of a record: the fields fill offsets 0..55, the
reserved bytes follow. -/
def inode_byte (x : inode_t) (o : Nat) : Nat :=
  if o < 56 then byte_of (inode_field x (o / 4)) (o % 4) else x.reserved.getD (o - 56) 0 % 256

/-- The 4-byte field stored at offset `p` of the byte sequence `B`. -/
def read_u32 (B : Nat → Nat) (p : Nat) : Nat := le32 (B p) (B (p + 1)) (B (p + 2)) (B (p + 3))

/-- The record stored at offset `base` of the byte sequence `B`, with `n`
reserved bytes. -/
def inode_of_bytes (n : Nat) (B : Nat → Nat) (base : Nat) : inode_t :=
  { mode := read_u32 B base
    uid := read_u32 B (base + 4)
    gid := read_u32 B (base + 8)
    size := read_u32 B (base + 12)
    atime := read_u32 B (base + 16)
    ctime := read_u32 B (base + 20)
    mtime := read_u32 B (base + 24)
    dtime := read_u32 B (base + 28)
    links_count := read_u32 B (base + 32)
    blocks_count := read_u32 B (base + 36)
    direct_block := read_u32 B (base + 40)
    indirect1 := read_u32 B (base + 44)
    indirect2 := read_u32 B (base + 48)
    indirect3 := read_u32 B (base + 52)
    reserved := (List.range n).map (fun r => B (base + 56 + r)) }

/-- Byte `p` of the inode table of the image: record `j` starts at byte
`INODE_SIZE * j`. -/
def table_bytes (t : InodeTable) (p : Nat) : Nat := inode_byte (t (p / INODE_SIZE)) (p % INODE_SIZE)

/-- Byte `p` of the array `inodes[]` in memory: slot `k` starts at byte
`sizeof(inode_t) * k`. -/
def array_bytes (t : InodeTable) (p : Nat) : Nat :=
  inode_byte (t (p / sizeof_inode_t)) (p % sizeof_inode_t)

/-- Byte `p` of memory counted from the start of `inodes[]`: the
`TOTAL_INODES * sizeof(inode_t)` bytes of the array, then `inode_bitmap[]`, the
global declared next, which the linker places right behind the array. -/
def memory_bytes (t : InodeTable) (ib : Bitmap) (p : Nat) : Nat :=
  if p < TOTAL_INODES * sizeof_inode_t then array_bytes t p
  else ib (p - TOTAL_INODES * sizeof_inode_t) % 256

/-- `fread(inodes, INODE_SIZE, TOTAL_INODES, fp)`: the `INODE_SIZE * TOTAL_INODES`
bytes of the table are copied to the address of `inodes[]`.  Slot `k` receives
the table bytes from `sizeof(inode_t) * k` on, and the bytes beyond the end of
the array land in `inode_bitmap[]`. -/
def read_inodes (s : State) : State :=
  { s with
    inodes := fun k =>
      if k < TOTAL_INODES then
        inode_of_bytes (sizeof_inode_t - 56) (table_bytes s.fp.inodes) (k * sizeof_inode_t)
      else s.inodes k
    inode_bitmap := fun i =>
      if i < read_inodes_bytes - TOTAL_INODES * sizeof_inode_t then
        table_bytes s.fp.inodes (TOTAL_INODES * sizeof_inode_t + i)
      else s.inode_bitmap i }

/-- `fwrite(inodes, INODE_SIZE, TOTAL_INODES, fp)`: `INODE_SIZE * TOTAL_INODES`
bytes are copied from the address of `inodes[]` to the table, so record `j` is
made of the memory bytes from `INODE_SIZE * j` on. -/
def write_inodes (s : State) : State :=
  { s with
    fp := { s.fp with
      inodes := fun j =>
        if j < TOTAL_INODES then
          inode_of_bytes (INODE_SIZE - 56) (memory_bytes s.inodes s.inode_bitmap) (j * INODE_SIZE)
        else s.fp.inodes j } }

/-! ## Superblock validator -/

/-- `if (sb.magic != VSFS_MAGIC) sb.magic = VSFS_MAGIC;` -/
def fix_magic (sb : Superblock) : Superblock :=
  if sb.magic ≠ VSFS_MAGIC then { sb with magic := VSFS_MAGIC } else sb

def fix_block_size (sb : Superblock) : Superblock :=
  if sb.block_size ≠ BLOCK_SIZE then { sb with block_size := BLOCK_SIZE } else sb

def fix_total_blocks (sb : Superblock) : Superblock :=
  if sb.total_blocks ≠ TOTAL_BLOCKS then { sb with total_blocks := TOTAL_BLOCKS } else sb

def fix_inode_bitmap_block (sb : Superblock) : Superblock :=
  if sb.inode_bitmap_block ≠ INODE_BITMAP_BLOCK then
    { sb with inode_bitmap_block := INODE_BITMAP_BLOCK } else sb

def fix_data_bitmap_block (sb : Superblock) : Superblock :=
  if sb.data_bitmap_block ≠ DATA_BITMAP_BLOCK then
    { sb with data_bitmap_block := DATA_BITMAP_BLOCK } else sb

def fix_inode_table_start (sb : Superblock) : Superblock :=
  if sb.inode_table_start ≠ INODE_TABLE_START_BLOCK then
    { sb with inode_table_start := INODE_TABLE_START_BLOCK } else sb

def fix_data_block_start (sb : Superblock) : Superblock :=
  if sb.data_block_start ≠ FIRST_DATA_BLOCK then
    { sb with data_block_start := FIRST_DATA_BLOCK } else sb

def fix_inode_size (sb : Superblock) : Superblock :=
  if sb.inode_size ≠ INODE_SIZE then { sb with inode_size := INODE_SIZE } else sb

/-- `if (sb.inode_count > TOTAL_INODES) sb.inode_count = TOTAL_INODES;` -/
def fix_inode_count (sb : Superblock) : Superblock :=
  if sb.inode_count > TOTAL_INODES then { sb with inode_count := TOTAL_INODES } else sb

/-- The nine field checks of `validate_superblock`, in source order. -/
def fix_superblock (sb : Superblock) : Superblock :=
  fix_inode_count (fix_inode_size (fix_data_block_start (fix_inode_table_start
    (fix_data_bitmap_block (fix_inode_bitmap_block (fix_total_blocks (fix_block_size
      (fix_magic sb))))))))

def validate_superblock (s : State) : State :=
  write_superblock { s with sb := fix_superblock s.sb }

/-! ## Inode-bitmap reconciler -/

/-- One iteration of the loop of `check_and_fix_inode_bitmap`, on the local
bitmap, reading record `i` from the image. -/
def inode_bitmap_step (disk_inodes : InodeTable) (bm : Bitmap) (i : Nat) : Bitmap :=
  let inode := disk_inodes i
  let byte_index := i / 8
  let bit_index := i % 8
  let bit_set := (bm byte_index >>> bit_index) &&& 1
  let valid_inode := live inode
  let bm := if bit_set ≠ 0 ∧ valid_inode = false then
    store bm byte_index (bm byte_index &&& (0xFF ^^^ (1 <<< bit_index))) else bm
  let bm := if bit_set = 0 ∧ valid_inode = true then
    store bm byte_index (bm byte_index ||| (1 <<< bit_index)) else bm
  bm

def check_and_fix_inode_bitmap (s : State) : State :=
  let local_bitmap := (List.range INODE_COUNT).foldl (inode_bitmap_step s.fp.inodes) s.fp.inode_bitmap
  { s with fp := { s.fp with inode_bitmap := local_bitmap } }

/-! ## Data-bitmap reconciler -/

/-- One iteration of the normalization loop. -/
def normalize_step (inodes : InodeTable) (i : Nat) : InodeTable :=
  if (inodes i).direct_block < FIRST_DATA_BLOCK ∨ (inodes i).direct_block ≥ TOTAL_BLOCKS then
    store inodes i { inodes i with links_count := 0, dtime := 1 }
  else inodes

def normalize (inodes : InodeTable) : InodeTable :=
  (List.range 56).foldl normalize_step inodes

/-- The inner scan `for (j = 0; j < TOTAL_INODES; j++)` up to its `break`: the
first slot holding a live inode whose direct block is `block_num`. -/
def find_owner (inodes : InodeTable) (block_num : Nat) : Option Nat :=
  (List.range TOTAL_INODES).find?
    (fun j => live (inodes j) && decide ((inodes j).direct_block = block_num))

/-- The cursor loop `while (inode_index < TOTAL_INODES && live) inode_index++`,
with the number of remaining iterations as the recursion argument. -/
def skip_live_from (inodes : InodeTable) : Nat → Nat → Nat
  | 0, inode_index => inode_index
  | n + 1, inode_index =>
    if inode_index < TOTAL_INODES ∧ live (inodes inode_index) = true then
      skip_live_from inodes n (inode_index + 1)
    else inode_index

def skip_live (inodes : InodeTable) (inode_index : Nat) : Nat :=
  skip_live_from inodes (TOTAL_INODES - inode_index) inode_index

/-- The three inode stores of an adoption. -/
def adopt (inodes : InodeTable) (inode_index block_num : Nat) : InodeTable :=
  store inodes inode_index
    { inodes inode_index with links_count := 1, dtime := 0, direct_block := block_num }

/-- The variables of the block loop of the two data-bitmap passes. -/
structure Scan where
  inodes : InodeTable
  inode_bitmap : Bitmap
  data_bitmap : Bitmap
  inode_index : Nat

/-- Body of the block loop of `fix_data_bitmap`. -/
def fix_block (s : Scan) (i : Nat) : Scan :=
  let block_num := i + FIRST_DATA_BLOCK
  match find_owner s.inodes block_num with
  | some _ =>
    if is_bitmap_set s.data_bitmap i ≠ 0 then
      { s with data_bitmap := set_bitmap s.data_bitmap i 1 }
    else s
  | none =>
    if is_bitmap_set s.data_bitmap i ≠ 0 then
      let inode_index := skip_live s.inodes s.inode_index
      if inode_index < TOTAL_INODES then
        { inodes := adopt s.inodes inode_index block_num
          inode_bitmap := set_bitmap s.inode_bitmap inode_index 1
          data_bitmap := s.data_bitmap
          inode_index := inode_index + 1 }
      else { s with inode_index := inode_index }
    else
      let inode_index := skip_live s.inodes s.inode_index
      if inode_index < TOTAL_INODES then
        { inodes := adopt s.inodes inode_index block_num
          inode_bitmap := set_bitmap s.inode_bitmap inode_index 1
          data_bitmap := set_bitmap s.data_bitmap i 1
          inode_index := inode_index + 1 }
      else { s with inode_index := inode_index }

/-- Body of the block loop of `check_data_bitmap`. -/
def check_block (s : Scan) (i : Nat) : Scan :=
  let block_num := i + FIRST_DATA_BLOCK
  match find_owner s.inodes block_num with
  | some _ => s
  | none =>
    if is_bitmap_set s.data_bitmap i ≠ 0 then
      let inode_index := skip_live s.inodes s.inode_index
      if inode_index < TOTAL_INODES then
        { s with inodes := adopt s.inodes inode_index block_num, inode_index := inode_index + 1 }
      else { s with inode_index := inode_index }
    else
      let inode_index := skip_live s.inodes s.inode_index
      if inode_index < TOTAL_INODES then
        { s with inode_index := inode_index + 1 }
      else { s with inode_index := inode_index }

def scan_start (s : State) : Scan :=
  { inodes := normalize s.inodes, inode_bitmap := s.inode_bitmap,
    data_bitmap := s.data_bitmap, inode_index := 0 }

def scan_finish (s : State) (r : Scan) : State :=
  { s with inodes := r.inodes, inode_bitmap := r.inode_bitmap, data_bitmap := r.data_bitmap }

def fix_data_bitmap (s : State) : State :=
  scan_finish s ((List.range (TOTAL_BLOCKS - FIRST_DATA_BLOCK)).foldl fix_block (scan_start s))

def check_data_bitmap (s : State) : State :=
  scan_finish s ((List.range (TOTAL_BLOCKS - FIRST_DATA_BLOCK)).foldl check_block (scan_start s))

/-! ## Duplicate and bad references -/

/-- One iteration of the inner loop of `check_and_fix_duplicate_blocks`. -/
def clear_reference (i : Nat) (inodes : InodeTable) (j : Nat) : InodeTable :=
  if (inodes j).direct_block = i then store inodes j { inodes j with direct_block := 0 }
  else inodes

/-- One iteration of the outer loop of `check_and_fix_duplicate_blocks`; `k`
counts from zero, the block is `i = FIRST_DATA_BLOCK + k`. -/
def duplicate_step (s : State) (k : Nat) : State :=
  let i := FIRST_DATA_BLOCK + k
  if s.block_usage_count i > 1 then
    { s with
      inodes := (List.range TOTAL_INODES).foldl (clear_reference i) s.inodes
      data_bitmap := set_bitmap s.data_bitmap (i - FIRST_DATA_BLOCK) 0 }
  else s

def check_and_fix_duplicate_blocks (s : State) : State :=
  (List.range (TOTAL_BLOCKS - FIRST_DATA_BLOCK)).foldl duplicate_step s

/-- One iteration of the loop of `check_and_fix_bad_blocks`. -/
def bad_block_step (inodes : InodeTable) (i : Nat) : InodeTable :=
  let blk := to_int32 (inodes i).direct_block
  if blk ≥ (TOTAL_BLOCKS : Int) then store inodes i { inodes i with direct_block := 0 }
  else inodes

def check_and_fix_bad_blocks (s : State) : State :=
  { s with inodes := (List.range TOTAL_INODES).foldl bad_block_step s.inodes }

/-! ## Orchestrator -/

/-- The calls of `main` after the image is opened, in order. -/
def main_steps : List (State → State) :=
  [read_superblock, validate_superblock, read_bitmaps, read_inodes, check_data_bitmap,
   check_and_fix_inode_bitmap, fix_data_bitmap, check_and_fix_duplicate_blocks,
   check_and_fix_bad_blocks, write_bitmaps, write_inodes]

/-- State after the first `n` calls of `main` on the image `img`. -/
def main_upto (n : Nat) (img : Disk) : State :=
  (main_steps.take n).foldl (fun s f => f s) (fopen img)

/-- The whole of `main`. -/
def main (img : Disk) : State := main_upto main_steps.length img

/-- The image left on disk by one run of the checker. -/
def run (img : Disk) : Disk := (main img).fp

/-! ## Predicates and quantities used in the statements -/

/-- What normalization does to one record. -/
def normalize_inode (x : inode_t) : inode_t :=
  if x.direct_block < FIRST_DATA_BLOCK ∨ x.direct_block ≥ TOTAL_BLOCKS then
    { x with links_count := 0, dtime := 1 }
  else x

/-- What the bad-block pass does to one record. -/
def bad_block_inode (x : inode_t) : inode_t :=
  if to_int32 x.direct_block ≥ (TOTAL_BLOCKS : Int) then { x with direct_block := 0 } else x

/-- Block `b` is the direct block of some live inode of the table. -/
def owned (t : InodeTable) (b : Nat) : Prop :=
  ∃ j, j < TOTAL_INODES ∧ live (t j) = true ∧ (t j).direct_block = b

/-- Record `y` is record `x` after an adoption: `x` was not live and received
a data block. -/
def Adopted (x y : inode_t) : Prop :=
  live x = false ∧ ∃ b, FIRST_DATA_BLOCK ≤ b ∧ b < TOTAL_BLOCKS ∧
    y = { x with links_count := 1, dtime := 0, direct_block := b }

/-- Table `u` comes from table `t` by adoptions only. -/
def Evolves (t u : InodeTable) : Prop :=
  ∀ j, u j = t j ∨ (j < TOTAL_INODES ∧ Adopted (t j) (u j))

/-- The array `inodes[]` once `read_inodes` has run on `img`. -/
def memory_inodes (img : Disk) : InodeTable := (read_inodes (read_bitmaps (fopen img))).inodes

/-- The array `inode_bitmap[]` once `read_inodes` has run on `img`. -/
def memory_bitmap (img : Disk) : Bitmap := (read_inodes (read_bitmaps (fopen img))).inode_bitmap

/-- The loop variables at the end of `check_data_bitmap` entered with table `t`
and bitmaps `ib`, `db`. -/
def check_from (t : InodeTable) (ib db : Bitmap) : Scan :=
  (List.range (TOTAL_BLOCKS - FIRST_DATA_BLOCK)).foldl check_block
    { inodes := normalize t, inode_bitmap := ib, data_bitmap := db, inode_index := 0 }

/-- The loop variables at the end of `fix_data_bitmap` when `check_data_bitmap`
was entered with table `t` and bitmaps `ib`, `db`. -/
def fix_from (t : InodeTable) (ib db : Bitmap) : Scan :=
  (List.range (TOTAL_BLOCKS - FIRST_DATA_BLOCK)).foldl fix_block
    { inodes := normalize (check_from t ib db).inodes,
      inode_bitmap := (check_from t ib db).inode_bitmap,
      data_bitmap := (check_from t ib db).data_bitmap, inode_index := 0 }

/-- The array `inodes[]` after `check_and_fix_bad_blocks`, when
`check_data_bitmap` was entered with table `t` and bitmaps `ib`, `db`. -/
def final_from (t : InodeTable) (ib db : Bitmap) : InodeTable :=
  (List.range TOTAL_INODES).foldl bad_block_step (fix_from t ib db).inodes

/-- The loop variables at the end of `check_data_bitmap` in a run on `img`. -/
def check_result (img : Disk) : Scan :=
  check_from (memory_inodes img) (memory_bitmap img) img.data_bitmap

/-- The loop variables at the end of `fix_data_bitmap` in a run on `img`. -/
def fix_result (img : Disk) : Scan :=
  fix_from (memory_inodes img) (memory_bitmap img) img.data_bitmap

/-- The array `inodes[]` when the run on `img` reaches `write_bitmaps`. -/
def final_inodes (img : Disk) : InodeTable :=
  final_from (memory_inodes img) (memory_bitmap img) img.data_bitmap

/-- No block loop has anything to adopt on this table: every slot is live, or
every data block has a live owner. -/
def Quiet (t : InodeTable) : Prop :=
  (∀ j, j < TOTAL_INODES → live (t j) = true) ∨
  (∀ i, i < TOTAL_BLOCKS - FIRST_DATA_BLOCK → owned t (i + FIRST_DATA_BLOCK))

/-- Normalization leaves the record alone. -/
def Normal (x : inode_t) : Prop :=
  (x.direct_block < FIRST_DATA_BLOCK ∨ x.direct_block ≥ TOTAL_BLOCKS) →
    x.links_count = 0 ∧ x.dtime = 1

/-- Loop invariant of the block loop of `fix_data_bitmap` before block slot `k`:
every slot behind the cursor is live, and either every block slot below `k` has a
live owner or the cursor is exhausted. -/
def CursorInv (k : Nat) (r : Scan) : Prop :=
  (∀ j, j < r.inode_index → j < TOTAL_INODES → live (r.inodes j) = true) ∧
  ((∀ i, i < k → owned r.inodes (i + FIRST_DATA_BLOCK)) ∨ TOTAL_INODES ≤ r.inode_index)

/-- A table on which every pass of a run is the identity. -/
def Stable (t : InodeTable) : Prop :=
  (∀ j, j < 56 → Normal (t j)) ∧ Quiet t ∧
  (∀ j, j < TOTAL_INODES → to_int32 (t j).direct_block < (TOTAL_BLOCKS : Int))

/-- Normalization as it acts on slot `j`. -/
def normalize_slot (j : Nat) (x : inode_t) : inode_t :=
  if j < 56 then normalize_inode x else x

/-- Record `y` agrees with record `x` outside `links_count`, `dtime` and
`direct_block`. -/
def SameFrame (x y : inode_t) : Prop :=
  y.mode = x.mode ∧ y.uid = x.uid ∧ y.gid = x.gid ∧ y.size = x.size ∧ y.atime = x.atime ∧
  y.ctime = x.ctime ∧ y.mtime = x.mtime ∧ y.blocks_count = x.blocks_count ∧
  y.indirect1 = x.indirect1 ∧ y.indirect2 = x.indirect2 ∧ y.indirect3 = x.indirect3 ∧
  y.reserved = x.reserved

/-- Record `y` is `x` or comes from `x` by an adoption. -/
def KeptOrAdopted (x y : inode_t) : Prop := y = x ∨ Adopted x y

/-! ## Concrete images -/

/-- A superblock that already holds every expected value. -/
def good_superblock : Superblock :=
  ⟨0xD34D, 4096, 64, 1, 2, 3, 8, 256, 80, List.replicate 4058 0⟩

/-- A live inode (one link, not deleted) whose direct block is `b`. -/
def file_inode (b : Nat) : inode_t := { zero_inode with links_count := 1, direct_block := b }

/-- Every data block is owned: slots 0..4 own blocks 8..12 and slots 6..56 own
blocks 13..63.  Slot 5 is free (link count 0) but its inode-bitmap bit is set. -/
def stale_bit_image : Disk :=
  { sb := good_superblock
    inode_bitmap := fun k => if k < 7 then 0xFF else if k = 7 then 1 else 0
    data_bitmap := fun k => if k < 7 then 0xFF else 0
    inodes := fun j =>
      if j < 5 then file_inode (j + 8) else if 6 ≤ j ∧ j ≤ 56 then file_inode (j + 7)
      else zero_inode }

/-- Inodes 0 and 1 both have one link and direct block 20; every other slot is
zero.  Both bitmaps agree with that. -/
def shared_block_image : Disk :=
  { sb := good_superblock
    inode_bitmap := fun k => if k = 0 then 0x03 else 0
    data_bitmap := fun k => if k = 1 then 0x10 else 0
    inodes := fun j => if j < 2 then file_inode 20 else zero_inode }

/-- Inode 10 is live and references block 9999. -/
def far_pointer_image : Disk :=
  { sb := good_superblock
    inode_bitmap := fun k => if k = 1 then 0x04 else 0
    data_bitmap := fun _ => 0
    inodes := fun j => if j = 10 then file_inode 9999 else zero_inode }

/-- Slots 1..55 own blocks 9..63 and the bitmaps agree with that, except that
block 8 is marked allocated in the data bitmap while no inode references it.
Slots 0 and 56..79 are free. -/
def orphan_block_image : Disk :=
  { sb := good_superblock
    inode_bitmap := fun k => if k = 0 then 0xFE else if k < 7 then 0xFF else 0
    data_bitmap := fun k => if k < 7 then 0xFF else 0
    inodes := fun j => if 1 ≤ j ∧ j ≤ 55 then file_inode (j + 8) else zero_inode }

/-- A good superblock except that `inode_count` is 5. -/
def few_inodes_image : Disk :=
  { sb := { good_superblock with inode_count := 5 }
    inode_bitmap := fun _ => 0
    data_bitmap := fun _ => 0
    inodes := fun _ => zero_inode }

/-- An image whose superblock magic is `0x0000`. -/
def zero_magic_image : Disk :=
  { sb := { good_superblock with magic := 0 }
    inode_bitmap := fun _ => 0
    data_bitmap := fun _ => 0
    inodes := fun _ => zero_inode }

/-! ## Predicates, quantities and inputs for the single passes -/

/-- The liveness of a record as a bit. -/
def live_bit (x : inode_t) : Nat := if live x = true then 1 else 0

/-- The all-blocks-owned table of `stale_bit_image` under a data bitmap that marks
no block allocated. -/
def unmarked_blocks_image : Disk :=
  { sb := good_superblock
    inode_bitmap := stale_bit_image.inode_bitmap
    data_bitmap := fun _ => 0
    inodes := stale_bit_image.inodes }

/-- Inode 0 is live and its direct block is `0x80000000`. -/
def huge_pointer_image : Disk :=
  { sb := good_superblock
    inode_bitmap := fun k => if k = 0 then 0x01 else 0
    data_bitmap := fun _ => 0
    inodes := fun j => if j = 0 then file_inode 0x80000000 else zero_inode }

/-- All 80 inodes are live and reference block 20. -/
def crowded_image : Disk :=
  { sb := good_superblock
    inode_bitmap := fun k => if k < 10 then 0xFF else 0
    data_bitmap := fun k => if k = 1 then 0x10 else 0
    inodes := fun _ => file_inode 20 }

/-- An in-memory input state for a single pass: the globals with the records of
`img` in the slots of `inodes[]` and the two bitmaps of `img` in memory. -/
def loaded (img : Disk) : State :=
  { sb := zero_superblock, inodes := img.inodes, inode_bitmap := img.inode_bitmap,
    data_bitmap := img.data_bitmap, block_usage_count := fun _ => 0, fp := img }

/-- A record that is the content of `56 + n` bytes: every field fits 32 bits and
there are `n` reserved bytes. -/
def WellFormed (n : Nat) (x : inode_t) : Prop :=
  (∀ f, inode_field x f < 2 ^ 32) ∧ x.reserved.length = n ∧ ∀ b ∈ x.reserved, b < 256

/-- No inode is in use and no block is allocated, but inode-bitmap bits 5 and 79
are set. -/
def blank_image : Disk :=
  { sb := good_superblock
    inode_bitmap := fun k => if k = 0 then 0x20 else if k = 9 then 0x80 else 0
    data_bitmap := fun _ => 0
    inodes := fun _ => zero_inode }

/-- The `dtime` and `links_count` of `y` are those of `x`, or at most 1. -/
def Touched (x y : inode_t) : Prop :=
  (y.dtime = x.dtime ∨ y.dtime ≤ 1) ∧ (y.links_count = x.links_count ∨ y.links_count ≤ 1)

/-- The loop variables when `fix_data_bitmap` leaves its block loop. -/
def fix_scan (s : State) : Scan :=
  (List.range (TOTAL_BLOCKS - FIRST_DATA_BLOCK)).foldl fix_block
    { inodes := normalize s.inodes, inode_bitmap := s.inode_bitmap,
      data_bitmap := s.data_bitmap, inode_index := 0 }

/-- Loop invariant of the block loop of `fix_data_bitmap` for the inode bitmap:
started from table `t` and bitmap `ib`, the bits set so far are those of `ib`
and those of the slots adopted so far. -/
def BitmapInv (t : InodeTable) (ib : Bitmap) (r : Scan) : Prop :=
  Evolves t r.inodes ∧
  ∀ k, is_bitmap_set r.inode_bitmap k =
    if k < TOTAL_INODES ∧ live (t k) = false ∧ live (r.inodes k) = true then 1
    else is_bitmap_set ib k

/-- Loop variables with every slot live, all pointing at block 20, and the cursor
at the start. -/
def crowded_scan : Scan :=
  { inodes := crowded_image.inodes, inode_bitmap := crowded_image.inode_bitmap,
    data_bitmap := crowded_image.data_bitmap, inode_index := 0 }

/-- What the inner loop of `check_and_fix_duplicate_blocks` does to one record
for block `i`. -/
def clear_if_references (i : Nat) (x : inode_t) : inode_t :=
  if x.direct_block = i then { x with direct_block := 0 } else x

/-- The pointer of a record of `s` is one of the first `n` data blocks and its
usage count is above one. -/
abbrev revoked (s : State) (n j : Nat) : Prop :=
  j < TOTAL_INODES ∧ FIRST_DATA_BLOCK ≤ (s.inodes j).direct_block ∧
    (s.inodes j).direct_block < FIRST_DATA_BLOCK + n ∧
    s.block_usage_count (s.inodes j).direct_block > 1

/-- Loop invariant of the outer loop of `check_and_fix_duplicate_blocks` after `n`
blocks, from the state `s`: the counters are those of `s`, a record is cleared
exactly when its pointer in `s` was one of the first `n` data blocks with a count
above one, and the data-bitmap bits of those blocks are 0. -/
def DuplicateInv (s : State) (n : Nat) (r : State) : Prop :=
  r.block_usage_count = s.block_usage_count ∧ r.inode_bitmap = s.inode_bitmap ∧
  (∀ j, r.inodes j =
    if revoked s n j then { s.inodes j with direct_block := 0 } else s.inodes j) ∧
  (∀ k, is_bitmap_set r.data_bitmap k =
    if k < n ∧ s.block_usage_count (FIRST_DATA_BLOCK + k) > 1 then 0
    else is_bitmap_set s.data_bitmap k)

/-- The loaded `shared_block_image` with a usage count of 2 for block 20. -/
def counted_state : State :=
  { loaded shared_block_image with block_usage_count := fun b => if b = 20 then 2 else 0 }

/-- Number of slots at or after the cursor `c` that hold no live inode. -/
def free_slots_from (t : InodeTable) (c : Nat) : Nat :=
  (List.range TOTAL_INODES).countP (fun j => decide (c ≤ j) && !live (t j))

/-- Number of data-block slots at or after `k` whose block has no live owner. -/
def orphan_blocks_from (t : InodeTable) (k : Nat) : Nat :=
  (List.range (TOTAL_BLOCKS - FIRST_DATA_BLOCK)).countP
    (fun i => decide (k ≤ i) && (find_owner t (i + FIRST_DATA_BLOCK)).isNone)

/-- Number of inode slots that hold no live inode. -/
def free_slots (t : InodeTable) : Nat := free_slots_from t 0

/-- Number of data blocks (8..63) that no live inode references. -/
def orphan_blocks (t : InodeTable) : Nat := orphan_blocks_from t 0

/-- Slot `j` was adopted: not live in the table `t` the block loop started from,
live in the current table `u`. -/
def adopted_slot (t u : InodeTable) (j : Nat) : Prop :=
  live (t j) = false ∧ live (u j) = true

/-- Loop invariant of the block loop of `fix_data_bitmap` before block slot `k`,
started from the table `t` with enough free slots: adopted slots lie behind the
cursor and hold blocks below `k + 8` in increasing order, the free slots from the
cursor on still cover the orphan blocks from `k` on, and every orphan block below
`k + 8` has been adopted. -/
def AdoptionInv (t : InodeTable) (k : Nat) (r : Scan) : Prop :=
  Evolves t r.inodes ∧
  (∀ j, adopted_slot t r.inodes j →
    j < r.inode_index ∧ (r.inodes j).direct_block < k + FIRST_DATA_BLOCK) ∧
  orphan_blocks_from t k ≤ free_slots_from r.inodes r.inode_index ∧
  (∀ i, i < k → ¬ owned t (i + FIRST_DATA_BLOCK) →
    ∃ j, j < TOTAL_INODES ∧ live (t j) = false ∧
      r.inodes j = { t j with links_count := 1, dtime := 0,
                              direct_block := i + FIRST_DATA_BLOCK } ∧
      is_bitmap_set r.inode_bitmap j = 1 ∧ is_bitmap_set r.data_bitmap i = 1) ∧
  (∀ j1 j2, adopted_slot t r.inodes j1 → adopted_slot t r.inodes j2 → j1 < j2 →
    (r.inodes j1).direct_block < (r.inodes j2).direct_block)

/-! ## Arrays and loops -/

theorem store_same {α : Type} (a : Nat → α) (k : Nat) (v : α) : store a k v k = v := by
  simp [store]

theorem store_other {α : Type} (a : Nat → α) (k : Nat) (v : α) (n : Nat) (h : n ≠ k) :
    store a k v n = a n := by
  simp [store, h]

theorem store_self {α : Type} (a : Nat → α) (k : Nat) : store a k (a k) = a := by
  funext n
  by_cases h : n = k
  · subst h; simp [store]
  · simp [store, h]

/-- Loop invariant rule for a `for` loop over a list of indices. -/
theorem foldl_invariant {σ : Type} (P : σ → Prop) (f : σ → Nat → σ) (l : List Nat)
    (hstep : ∀ s i, i ∈ l → P s → P (f s i)) : ∀ s, P s → P (l.foldl f s) := by
  induction l with
  | nil => intro s hs; exact hs
  | cons a l ih =>
    intro s hs
    simp only [List.foldl_cons]
    apply ih
    · intro s i hi hP
      exact hstep s i (List.mem_cons_of_mem _ hi) hP
    · exact hstep s a (List.mem_cons_self _ _) hs

/-- A loop whose iteration `i` rewrites slot `i` from its own content is a
pointwise map on the slots below the bound. -/
theorem foldl_range_pointwise {α : Type} (g : α → α) (f : (Nat → α) → Nat → (Nat → α))
    (hf : ∀ t i, f t i = store t i (g (t i))) (n : Nat) (t : Nat → α) (j : Nat) :
    (List.range n).foldl f t j = if j < n then g (t j) else t j := by
  induction n generalizing j with
  | zero => simp
  | succ n ih =>
    rw [List.range_succ, List.foldl_append]
    simp only [List.foldl_cons, List.foldl_nil]
    rw [hf]
    by_cases hj : j = n
    · subst hj
      rw [store_same, ih]
      simp
    · rw [store_other _ _ _ _ hj, ih]
      by_cases h1 : j < n
      · have : j < n + 1 := by omega
        simp [h1, this]
      · have : ¬ j < n + 1 := by omega
        simp [h1, this]

theorem normalize_apply (t : InodeTable) (j : Nat) :
    normalize t j = if j < 56 then normalize_inode (t j) else t j := by
  unfold normalize
  apply foldl_range_pointwise normalize_inode normalize_step
  intro t i
  unfold normalize_step normalize_inode
  split_ifs with h
  · rfl
  · exact (store_self t i).symm

theorem bad_blocks_apply (t : InodeTable) (j : Nat) :
    (List.range TOTAL_INODES).foldl bad_block_step t j
      = if j < TOTAL_INODES then bad_block_inode (t j) else t j := by
  apply foldl_range_pointwise bad_block_inode bad_block_step
  intro t i
  unfold bad_block_step bad_block_inode
  simp only []
  split_ifs with h
  · rfl
  · exact (store_self t i).symm

/-- The duplicate pass does nothing while no usage count exceeds one. -/
theorem duplicate_blocks_idle (s : State) (h : ∀ i, s.block_usage_count i ≤ 1) :
    check_and_fix_duplicate_blocks s = s := by
  unfold check_and_fix_duplicate_blocks
  apply foldl_invariant (fun r => r = s) duplicate_step
  · intro r i _ hr
    subst hr
    unfold duplicate_step
    have := h (FIRST_DATA_BLOCK + i)
    simp only []
    rw [if_neg (by omega)]
  · rfl

/-! ## The cursor -/

theorem skip_live_from_spec (t : InodeTable) (n : Nat) :
    ∀ c, TOTAL_INODES - c ≤ n →
      c ≤ skip_live_from t n c ∧
      (∀ j, c ≤ j → j < skip_live_from t n c → j < TOTAL_INODES ∧ live (t j) = true) ∧
      (skip_live_from t n c < TOTAL_INODES → live (t (skip_live_from t n c)) = false) := by
  induction n with
  | zero =>
    intro c hc
    simp only [skip_live_from]
    refine ⟨le_refl _, ?_, ?_⟩
    · intro j h1 h2; omega
    · intro h; omega
  | succ n ih =>
    intro c hc
    simp only [skip_live_from]
    split_ifs with h
    · obtain ⟨h1, h2, h3⟩ := ih (c + 1) (by omega)
      refine ⟨by omega, ?_, h3⟩
      intro j hj1 hj2
      by_cases hjc : j = c
      · subst hjc; exact h
      · exact h2 j (by omega) hj2
    · refine ⟨le_refl _, ?_, ?_⟩
      · intro j h1 h2; omega
      · intro hlt
        by_contra hl
        apply h
        exact ⟨hlt, by simpa using hl⟩

theorem skip_live_ge (t : InodeTable) (c : Nat) : c ≤ skip_live t c :=
  (skip_live_from_spec t _ c (le_refl _)).1

theorem skip_live_skipped (t : InodeTable) (c j : Nat) (h1 : c ≤ j) (h2 : j < skip_live t c) :
    j < TOTAL_INODES ∧ live (t j) = true :=
  (skip_live_from_spec t _ c (le_refl _)).2.1 j h1 h2

theorem skip_live_stop (t : InodeTable) (c : Nat) (h : skip_live t c < TOTAL_INODES) :
    live (t (skip_live t c)) = false :=
  (skip_live_from_spec t _ c (le_refl _)).2.2 h

/-! ## The block loops -/

theorem find_owner_none (t : InodeTable) (b : Nat) : find_owner t b = none ↔ ¬ owned t b := by
  unfold find_owner owned
  rw [List.find?_eq_none]
  constructor
  · rintro h ⟨j, hj, hl, hb⟩
    exact h j (List.mem_range.mpr hj) (by simp [hl, hb])
  · intro h j hj hp
    apply h
    refine ⟨j, List.mem_range.mp hj, ?_⟩
    simpa using hp

theorem find_owner_some (t : InodeTable) (b j : Nat) (h : find_owner t b = some j) :
    owned t b := by
  by_contra hn
  rw [← find_owner_none] at hn
  rw [hn] at h
  cases h

theorem lor_bit_of_set (b k : Nat) (h : (b >>> k) &&& 1 ≠ 0) : b ||| (1 <<< k) = b := by
  have hk : b.testBit k = true := by
    unfold Nat.testBit
    rw [Nat.land_comm]
    simpa using h
  apply Nat.eq_of_testBit_eq
  intro i
  rw [Nat.testBit_lor, Nat.one_shiftLeft, Nat.testBit_two_pow]
  by_cases hik : k = i
  · subst hik; simp [hk]
  · simp [hik]

theorem set_bitmap_of_set (bm : Bitmap) (i : Nat) (h : is_bitmap_set bm i ≠ 0) :
    set_bitmap bm i 1 = bm := by
  unfold set_bitmap
  unfold is_bitmap_set at h
  rw [if_pos (by decide), lor_bit_of_set _ _ h]
  exact store_self bm _

/-- The three ways an iteration of the block loop of `fix_data_bitmap` ends. -/
theorem fix_block_cases (s : Scan) (i : Nat) :
    (owned s.inodes (i + FIRST_DATA_BLOCK) ∧ fix_block s i = s) ∨
    (¬ owned s.inodes (i + FIRST_DATA_BLOCK) ∧ skip_live s.inodes s.inode_index < TOTAL_INODES ∧
      fix_block s i =
        { inodes := adopt s.inodes (skip_live s.inodes s.inode_index) (i + FIRST_DATA_BLOCK)
          inode_bitmap := set_bitmap s.inode_bitmap (skip_live s.inodes s.inode_index) 1
          data_bitmap := set_bitmap s.data_bitmap i 1
          inode_index := skip_live s.inodes s.inode_index + 1 }) ∨
    (¬ owned s.inodes (i + FIRST_DATA_BLOCK) ∧ ¬ skip_live s.inodes s.inode_index < TOTAL_INODES ∧
      fix_block s i = { s with inode_index := skip_live s.inodes s.inode_index }) := by
  unfold fix_block
  simp only []
  cases hf : find_owner s.inodes (i + FIRST_DATA_BLOCK) with
  | some j =>
    left
    refine ⟨find_owner_some _ _ _ hf, ?_⟩
    simp only []
    split_ifs with hb
    · rw [set_bitmap_of_set _ _ hb]
    · rfl
  | none =>
    right
    have hno := (find_owner_none _ _).mp hf
    simp only []
    by_cases hc : skip_live s.inodes s.inode_index < TOTAL_INODES
    · left
      refine ⟨hno, hc, ?_⟩
      split_ifs with hb
      · rw [set_bitmap_of_set _ _ hb]
      · rfl
    · right
      refine ⟨hno, hc, ?_⟩
      split_ifs <;> rfl

/-- The four ways an iteration of the block loop of `check_data_bitmap` ends. -/
theorem check_block_cases (s : Scan) (i : Nat) :
    (owned s.inodes (i + FIRST_DATA_BLOCK) ∧ check_block s i = s) ∨
    (¬ owned s.inodes (i + FIRST_DATA_BLOCK) ∧ skip_live s.inodes s.inode_index < TOTAL_INODES ∧
      is_bitmap_set s.data_bitmap i ≠ 0 ∧
      check_block s i =
        { s with
          inodes := adopt s.inodes (skip_live s.inodes s.inode_index) (i + FIRST_DATA_BLOCK)
          inode_index := skip_live s.inodes s.inode_index + 1 }) ∨
    (¬ owned s.inodes (i + FIRST_DATA_BLOCK) ∧ skip_live s.inodes s.inode_index < TOTAL_INODES ∧
      is_bitmap_set s.data_bitmap i = 0 ∧
      check_block s i = { s with inode_index := skip_live s.inodes s.inode_index + 1 }) ∨
    (¬ owned s.inodes (i + FIRST_DATA_BLOCK) ∧ ¬ skip_live s.inodes s.inode_index < TOTAL_INODES ∧
      check_block s i = { s with inode_index := skip_live s.inodes s.inode_index }) := by
  unfold check_block
  simp only []
  cases hf : find_owner s.inodes (i + FIRST_DATA_BLOCK) with
  | some j =>
    left
    exact ⟨find_owner_some _ _ _ hf, rfl⟩
  | none =>
    right
    have hno := (find_owner_none _ _).mp hf
    simp only []
    by_cases hc : skip_live s.inodes s.inode_index < TOTAL_INODES
    · by_cases hb : is_bitmap_set s.data_bitmap i = 0
      · right; left
        refine ⟨hno, hc, hb, ?_⟩
        rw [if_neg (by simpa using hb), if_pos hc]
      · left
        refine ⟨hno, hc, hb, ?_⟩
        rw [if_pos hb, if_pos hc]
    · right; right
      refine ⟨hno, hc, ?_⟩
      split_ifs <;> rfl

theorem live_of_adopted (x y : inode_t) (h : Adopted x y) : live y = true := by
  obtain ⟨_, b, _, _, rfl⟩ := h
  simp [live]

theorem evolves_refl (t : InodeTable) : Evolves t t := fun _ => Or.inl rfl

theorem evolves_trans (t u v : InodeTable) (h1 : Evolves t u) (h2 : Evolves u v) :
    Evolves t v := by
  intro j
  rcases h2 j with h | ⟨hj, h⟩
  · rw [h]; exact h1 j
  · rcases h1 j with h' | ⟨_, h'⟩
    · rw [← h']; exact Or.inr ⟨hj, h⟩
    · have := live_of_adopted _ _ h'
      rw [h.1] at this
      cases this

theorem evolves_adopt (t : InodeTable) (c i : Nat) (hc : c < TOTAL_INODES)
    (hl : live (t c) = false) (hi : i < TOTAL_BLOCKS - FIRST_DATA_BLOCK) :
    Evolves t (adopt t c (i + FIRST_DATA_BLOCK)) := by
  intro j
  unfold adopt
  by_cases hj : j = c
  · subst hj
    right
    rw [store_same]
    refine ⟨hc, hl, i + FIRST_DATA_BLOCK, ?_, ?_, rfl⟩
    · unfold FIRST_DATA_BLOCK; omega
    · unfold FIRST_DATA_BLOCK TOTAL_BLOCKS at *; omega
  · left
    exact store_other _ _ _ _ hj

theorem fix_block_evolves (s : Scan) (i : Nat) (hi : i < TOTAL_BLOCKS - FIRST_DATA_BLOCK) :
    Evolves s.inodes (fix_block s i).inodes := by
  rcases fix_block_cases s i with ⟨_, h⟩ | ⟨_, hc, h⟩ | ⟨_, _, h⟩
  · rw [h]; exact evolves_refl _
  · rw [h]; exact evolves_adopt _ _ _ hc (skip_live_stop _ _ hc) hi
  · rw [h]; exact evolves_refl _

theorem check_block_evolves (s : Scan) (i : Nat) (hi : i < TOTAL_BLOCKS - FIRST_DATA_BLOCK) :
    Evolves s.inodes (check_block s i).inodes := by
  rcases check_block_cases s i with ⟨_, h⟩ | ⟨_, hc, _, h⟩ | ⟨_, _, _, h⟩ | ⟨_, _, h⟩
  · rw [h]; exact evolves_refl _
  · rw [h]; exact evolves_adopt _ _ _ hc (skip_live_stop _ _ hc) hi
  · rw [h]; exact evolves_refl _
  · rw [h]; exact evolves_refl _

theorem fix_loop_evolves (l : List Nat) (hl : ∀ i ∈ l, i < TOTAL_BLOCKS - FIRST_DATA_BLOCK)
    (s : Scan) : Evolves s.inodes (l.foldl fix_block s).inodes := by
  apply foldl_invariant (fun r => Evolves s.inodes r.inodes) fix_block l
  · intro r i hi hr
    exact evolves_trans _ _ _ hr (fix_block_evolves r i (hl i hi))
  · exact evolves_refl _

theorem check_loop_evolves (l : List Nat) (hl : ∀ i ∈ l, i < TOTAL_BLOCKS - FIRST_DATA_BLOCK)
    (s : Scan) : Evolves s.inodes (l.foldl check_block s).inodes := by
  apply foldl_invariant (fun r => Evolves s.inodes r.inodes) check_block l
  · intro r i hi hr
    exact evolves_trans _ _ _ hr (check_block_evolves r i (hl i hi))
  · exact evolves_refl _

theorem check_loop_bitmaps (l : List Nat) (s : Scan) :
    (l.foldl check_block s).inode_bitmap = s.inode_bitmap ∧
    (l.foldl check_block s).data_bitmap = s.data_bitmap := by
  apply foldl_invariant
    (fun r => r.inode_bitmap = s.inode_bitmap ∧ r.data_bitmap = s.data_bitmap) check_block l
  · intro r i _ hr
    rcases check_block_cases r i with ⟨_, h⟩ | ⟨_, _, _, h⟩ | ⟨_, _, _, h⟩ | ⟨_, _, h⟩ <;>
      rw [h] <;> exact hr
  · exact ⟨rfl, rfl⟩

/-! ## Quiet tables -/

theorem skip_live_all_live (t : InodeTable) (c : Nat)
    (h : ∀ j, j < TOTAL_INODES → live (t j) = true) : ¬ skip_live t c < TOTAL_INODES := by
  intro hc
  have h1 := skip_live_stop t c hc
  rw [h _ hc] at h1
  cases h1

theorem fix_block_quiet (s : Scan) (i : Nat) (hi : i < TOTAL_BLOCKS - FIRST_DATA_BLOCK)
    (hq : Quiet s.inodes) :
    (fix_block s i).inodes = s.inodes ∧ (fix_block s i).inode_bitmap = s.inode_bitmap ∧
      (fix_block s i).data_bitmap = s.data_bitmap := by
  rcases fix_block_cases s i with ⟨_, h⟩ | ⟨hno, hc, _⟩ | ⟨_, _, h⟩
  · rw [h]; exact ⟨rfl, rfl, rfl⟩
  · rcases hq with hq | hq
    · exact absurd hc (skip_live_all_live _ _ hq)
    · exact absurd (hq i hi) hno
  · rw [h]; exact ⟨rfl, rfl, rfl⟩

theorem check_block_quiet (s : Scan) (i : Nat) (hi : i < TOTAL_BLOCKS - FIRST_DATA_BLOCK)
    (hq : Quiet s.inodes) : (check_block s i).inodes = s.inodes := by
  rcases check_block_cases s i with ⟨_, h⟩ | ⟨hno, hc, _, _⟩ | ⟨_, _, _, h⟩ | ⟨_, _, h⟩
  · rw [h]
  · rcases hq with hq | hq
    · exact absurd hc (skip_live_all_live _ _ hq)
    · exact absurd (hq i hi) hno
  · rw [h]
  · rw [h]

theorem fix_loop_quiet (l : List Nat) (hl : ∀ i ∈ l, i < TOTAL_BLOCKS - FIRST_DATA_BLOCK)
    (s : Scan) (hq : Quiet s.inodes) :
    (l.foldl fix_block s).inodes = s.inodes ∧ (l.foldl fix_block s).inode_bitmap = s.inode_bitmap ∧
      (l.foldl fix_block s).data_bitmap = s.data_bitmap := by
  apply foldl_invariant (fun r => r.inodes = s.inodes ∧ r.inode_bitmap = s.inode_bitmap ∧
    r.data_bitmap = s.data_bitmap) fix_block l
  · intro r i hi hr
    obtain ⟨h1, h2, h3⟩ := fix_block_quiet r i (hl i hi) (by rw [hr.1]; exact hq)
    exact ⟨h1.trans hr.1, h2.trans hr.2.1, h3.trans hr.2.2⟩
  · exact ⟨rfl, rfl, rfl⟩

theorem check_loop_quiet (l : List Nat) (hl : ∀ i ∈ l, i < TOTAL_BLOCKS - FIRST_DATA_BLOCK)
    (s : Scan) (hq : Quiet s.inodes) : (l.foldl check_block s).inodes = s.inodes := by
  apply foldl_invariant (fun r => r.inodes = s.inodes) check_block l
  · intro r i hi hr
    exact (check_block_quiet r i (hl i hi) (by rw [hr]; exact hq)).trans hr
  · rfl

theorem mem_range_blocks : ∀ i ∈ List.range (TOTAL_BLOCKS - FIRST_DATA_BLOCK),
    i < TOTAL_BLOCKS - FIRST_DATA_BLOCK := fun _ hi => List.mem_range.mp hi

/-! ## The cursor invariant of `fix_data_bitmap` -/

theorem owned_adopt_of_owned (t : InodeTable) (c b b0 : Nat) (hl : live (t c) = false)
    (h : owned t b0) : owned (adopt t c b) b0 := by
  obtain ⟨j, hj, hlive, hb⟩ := h
  have hjc : j ≠ c := by
    intro e; subst e; rw [hl] at hlive; cases hlive
  refine ⟨j, hj, ?_, ?_⟩
  · unfold adopt; rw [store_other _ _ _ _ hjc]; exact hlive
  · unfold adopt; rw [store_other _ _ _ _ hjc]; exact hb

theorem owned_adopt_self (t : InodeTable) (c b : Nat) (hc : c < TOTAL_INODES) :
    owned (adopt t c b) b := by
  refine ⟨c, hc, ?_, ?_⟩
  · unfold adopt; rw [store_same]; simp [live]
  · unfold adopt; rw [store_same]

theorem fix_block_cursor (k : Nat) (r : Scan) (h : CursorInv k r) :
    CursorInv (k + 1) (fix_block r k) := by
  obtain ⟨hlive, hown⟩ := h
  rcases fix_block_cases r k with ⟨ho, he⟩ | ⟨_, hc, he⟩ | ⟨_, hc, he⟩
  · rw [he]
    refine ⟨hlive, ?_⟩
    rcases hown with hown | hown
    · left
      intro i hi
      by_cases hik : i = k
      · subst hik; exact ho
      · exact hown i (by omega)
    · right; exact hown
  · rw [he]
    have hstop := skip_live_stop _ _ hc
    have hge := skip_live_ge r.inodes r.inode_index
    constructor
    · intro j hj hj80
      simp only at hj
      by_cases hjc : j = skip_live r.inodes r.inode_index
      · subst hjc
        simp only [adopt]
        rw [store_same]; simp [live]
      · simp only [adopt]
        rw [store_other _ _ _ _ hjc]
        by_cases hjlt : j < r.inode_index
        · exact hlive j hjlt hj80
        · exact (skip_live_skipped r.inodes r.inode_index j (by omega) (by omega)).2
    · rcases hown with hown | hown
      · left
        intro i hi
        by_cases hik : i = k
        · subst hik
          exact owned_adopt_self _ _ _ hc
        · exact owned_adopt_of_owned _ _ _ _ hstop (hown i (by omega))
      · exfalso; omega
  · rw [he]
    have hge := skip_live_ge r.inodes r.inode_index
    constructor
    · intro j hj hj80
      simp only at hj
      by_cases hjlt : j < r.inode_index
      · exact hlive j hjlt hj80
      · exact (skip_live_skipped r.inodes r.inode_index j (by omega) hj).2
    · right
      simp only
      omega

theorem fix_loop_cursor (s : Scan) (h0 : s.inode_index = 0) (k : Nat) :
    CursorInv k ((List.range k).foldl fix_block s) := by
  induction k with
  | zero =>
    simp only [List.range_zero, List.foldl_nil]
    refine ⟨?_, Or.inl ?_⟩
    · intro j hj; omega
    · intro i hi; omega
  | succ k ih =>
    rw [List.range_succ, List.foldl_append]
    simp only [List.foldl_cons, List.foldl_nil]
    exact fix_block_cursor k _ ih

/-- When `fix_data_bitmap` returns, nothing is left to adopt. -/
theorem fix_loop_result_quiet (s : Scan) (h0 : s.inode_index = 0) :
    Quiet ((List.range (TOTAL_BLOCKS - FIRST_DATA_BLOCK)).foldl fix_block s).inodes := by
  obtain ⟨hlive, hown⟩ := fix_loop_cursor s h0 (TOTAL_BLOCKS - FIRST_DATA_BLOCK)
  rcases hown with hown | hown
  · exact Or.inr hown
  · left
    intro j hj
    exact hlive j (by omega) hj

/-! ## The block loops from explicit loop variables -/

theorem fix_loop_evolves_at (t : InodeTable) (ib db : Bitmap) (c : Nat) :
    Evolves t ((List.range (TOTAL_BLOCKS - FIRST_DATA_BLOCK)).foldl fix_block
      { inodes := t, inode_bitmap := ib, data_bitmap := db, inode_index := c }).inodes :=
  fix_loop_evolves _ mem_range_blocks
    { inodes := t, inode_bitmap := ib, data_bitmap := db, inode_index := c }

theorem check_loop_evolves_at (t : InodeTable) (ib db : Bitmap) (c : Nat) :
    Evolves t ((List.range (TOTAL_BLOCKS - FIRST_DATA_BLOCK)).foldl check_block
      { inodes := t, inode_bitmap := ib, data_bitmap := db, inode_index := c }).inodes :=
  check_loop_evolves _ mem_range_blocks
    { inodes := t, inode_bitmap := ib, data_bitmap := db, inode_index := c }

theorem check_loop_bitmaps_at (t : InodeTable) (ib db : Bitmap) (c : Nat) :
    ((List.range (TOTAL_BLOCKS - FIRST_DATA_BLOCK)).foldl check_block
      { inodes := t, inode_bitmap := ib, data_bitmap := db, inode_index := c }).inode_bitmap = ib ∧
    ((List.range (TOTAL_BLOCKS - FIRST_DATA_BLOCK)).foldl check_block
      { inodes := t, inode_bitmap := ib, data_bitmap := db, inode_index := c }).data_bitmap = db :=
  check_loop_bitmaps _ { inodes := t, inode_bitmap := ib, data_bitmap := db, inode_index := c }

theorem fix_loop_quiet_at (t : InodeTable) (ib db : Bitmap) (c : Nat) (hq : Quiet t) :
    ((List.range (TOTAL_BLOCKS - FIRST_DATA_BLOCK)).foldl fix_block
      { inodes := t, inode_bitmap := ib, data_bitmap := db, inode_index := c }).inodes = t ∧
    ((List.range (TOTAL_BLOCKS - FIRST_DATA_BLOCK)).foldl fix_block
      { inodes := t, inode_bitmap := ib, data_bitmap := db, inode_index := c }).inode_bitmap = ib ∧
    ((List.range (TOTAL_BLOCKS - FIRST_DATA_BLOCK)).foldl fix_block
      { inodes := t, inode_bitmap := ib, data_bitmap := db, inode_index := c }).data_bitmap = db :=
  fix_loop_quiet _ mem_range_blocks
    { inodes := t, inode_bitmap := ib, data_bitmap := db, inode_index := c } hq

theorem check_loop_quiet_at (t : InodeTable) (ib db : Bitmap) (c : Nat) (hq : Quiet t) :
    ((List.range (TOTAL_BLOCKS - FIRST_DATA_BLOCK)).foldl check_block
      { inodes := t, inode_bitmap := ib, data_bitmap := db, inode_index := c }).inodes = t :=
  check_loop_quiet _ mem_range_blocks
    { inodes := t, inode_bitmap := ib, data_bitmap := db, inode_index := c } hq

theorem fix_loop_result_quiet_at (t : InodeTable) (ib db : Bitmap) :
    Quiet ((List.range (TOTAL_BLOCKS - FIRST_DATA_BLOCK)).foldl fix_block
      { inodes := t, inode_bitmap := ib, data_bitmap := db, inode_index := 0 }).inodes :=
  fix_loop_result_quiet { inodes := t, inode_bitmap := ib, data_bitmap := db, inode_index := 0 } rfl

/-! ## Superblock -/

theorem fix_superblock_eq (sb : Superblock) :
    fix_superblock sb =
      { magic := VSFS_MAGIC, block_size := BLOCK_SIZE, total_blocks := TOTAL_BLOCKS,
        inode_bitmap_block := INODE_BITMAP_BLOCK, data_bitmap_block := DATA_BITMAP_BLOCK,
        inode_table_start := INODE_TABLE_START_BLOCK, data_block_start := FIRST_DATA_BLOCK,
        inode_size := INODE_SIZE,
        inode_count := if sb.inode_count > TOTAL_INODES then TOTAL_INODES else sb.inode_count,
        reserved := sb.reserved } := by
  obtain ⟨m, bs, tb, ib, db, its, dbs, isz, ic, rs⟩ := sb
  have e1 : ∀ x : Superblock, fix_magic x = { x with magic := VSFS_MAGIC } := by
    intro x; unfold fix_magic; split_ifs with h
    · rfl
    · cases x; simp_all
  have e2 : ∀ x : Superblock, fix_block_size x = { x with block_size := BLOCK_SIZE } := by
    intro x; unfold fix_block_size; split_ifs with h
    · rfl
    · cases x; simp_all
  have e3 : ∀ x : Superblock, fix_total_blocks x = { x with total_blocks := TOTAL_BLOCKS } := by
    intro x; unfold fix_total_blocks; split_ifs with h
    · rfl
    · cases x; simp_all
  have e4 : ∀ x : Superblock,
      fix_inode_bitmap_block x = { x with inode_bitmap_block := INODE_BITMAP_BLOCK } := by
    intro x; unfold fix_inode_bitmap_block; split_ifs with h
    · rfl
    · cases x; simp_all
  have e5 : ∀ x : Superblock,
      fix_data_bitmap_block x = { x with data_bitmap_block := DATA_BITMAP_BLOCK } := by
    intro x; unfold fix_data_bitmap_block; split_ifs with h
    · rfl
    · cases x; simp_all
  have e6 : ∀ x : Superblock,
      fix_inode_table_start x = { x with inode_table_start := INODE_TABLE_START_BLOCK } := by
    intro x; unfold fix_inode_table_start; split_ifs with h
    · rfl
    · cases x; simp_all
  have e7 : ∀ x : Superblock,
      fix_data_block_start x = { x with data_block_start := FIRST_DATA_BLOCK } := by
    intro x; unfold fix_data_block_start; split_ifs with h
    · rfl
    · cases x; simp_all
  have e8 : ∀ x : Superblock, fix_inode_size x = { x with inode_size := INODE_SIZE } := by
    intro x; unfold fix_inode_size; split_ifs with h
    · rfl
    · cases x; simp_all
  simp only [fix_superblock, e1, e2, e3, e4, e5, e6, e7, e8, fix_inode_count]
  split_ifs <;> rfl

theorem fix_superblock_idem (sb : Superblock) :
    fix_superblock (fix_superblock sb) = fix_superblock sb := by
  rw [fix_superblock_eq (fix_superblock sb), fix_superblock_eq sb]
  simp only [Superblock.mk.injEq, true_and, and_true]
  split_ifs <;> simp_all

/-! ## Normal records and stable tables -/

theorem total_inodes_eq : TOTAL_INODES = 80 := rfl

theorem to_int32_of_lt (v : Nat) (h : v < 2 ^ 31) : to_int32 v = (v : Int) := by
  unfold to_int32
  have h1 : v % 2 ^ 32 = v := Nat.mod_eq_of_lt (by omega)
  rw [h1, if_pos h]

theorem to_int32_le (v : Nat) : to_int32 v ≤ (v : Int) := by
  unfold to_int32
  have h1 : v % 2 ^ 32 ≤ v := Nat.mod_le _ _
  split_ifs <;> omega

theorem normalize_inode_of_normal (x : inode_t) (h : Normal x) : normalize_inode x = x := by
  unfold normalize_inode
  split_ifs with hb
  · obtain ⟨h1, h2⟩ := h hb
    cases x
    simp_all
  · rfl

theorem normal_normalize_inode (x : inode_t) : Normal (normalize_inode x) := by
  unfold normalize_inode
  split_ifs with hb
  · intro _; exact ⟨rfl, rfl⟩
  · intro h; exact absurd h hb

theorem normal_of_adopted (x y : inode_t) (h : Adopted x y) : Normal y := by
  obtain ⟨_, b, hb1, hb2, rfl⟩ := h
  intro hbad
  simp only at hbad
  omega

theorem normal_bad_block_inode (x : inode_t) (h : Normal x) : Normal (bad_block_inode x) := by
  unfold bad_block_inode
  split_ifs with hb
  · intro _
    have hle := to_int32_le x.direct_block
    have hx : x.direct_block ≥ TOTAL_BLOCKS := by
      unfold TOTAL_BLOCKS at *; omega
    exact h (Or.inr hx)
  · exact h

theorem live_bad_block_inode (x : inode_t) : live (bad_block_inode x) = live x := by
  unfold bad_block_inode
  split_ifs <;> rfl

theorem bad_block_inode_small (x : inode_t) :
    to_int32 (bad_block_inode x).direct_block < (TOTAL_BLOCKS : Int) := by
  unfold bad_block_inode
  split_ifs with hb
  · simp [to_int32, TOTAL_BLOCKS]
  · omega

theorem bad_block_inode_of_small (x : inode_t)
    (h : to_int32 x.direct_block < (TOTAL_BLOCKS : Int)) : bad_block_inode x = x := by
  unfold bad_block_inode
  rw [if_neg (by omega)]

theorem bad_block_inode_of_block (x : inode_t) (h : x.direct_block < TOTAL_BLOCKS) :
    bad_block_inode x = x := by
  apply bad_block_inode_of_small
  rw [to_int32_of_lt _ (by unfold TOTAL_BLOCKS at h; omega)]
  exact_mod_cast h

theorem quiet_bad_blocks (t : InodeTable) (h : Quiet t) :
    Quiet ((List.range TOTAL_INODES).foldl bad_block_step t) := by
  rcases h with h | h
  · left
    intro j hj
    rw [bad_blocks_apply, if_pos hj, live_bad_block_inode]
    exact h j hj
  · right
    intro i hi
    obtain ⟨j, hj, hl, hb⟩ := h i hi
    have hlt : (t j).direct_block < TOTAL_BLOCKS := by
      rw [hb]; unfold TOTAL_BLOCKS FIRST_DATA_BLOCK at *; omega
    refine ⟨j, hj, ?_, ?_⟩
    · rw [bad_blocks_apply, if_pos hj, bad_block_inode_of_block _ hlt]; exact hl
    · rw [bad_blocks_apply, if_pos hj, bad_block_inode_of_block _ hlt]; exact hb

theorem normalize_of_normal (t : InodeTable) (h : ∀ j, j < 56 → Normal (t j)) :
    normalize t = t := by
  funext j
  rw [normalize_apply]
  split_ifs with hj
  · exact normalize_inode_of_normal _ (h j hj)
  · rfl

theorem bad_blocks_of_small (t : InodeTable)
    (h : ∀ j, j < TOTAL_INODES → to_int32 (t j).direct_block < (TOTAL_BLOCKS : Int)) :
    (List.range TOTAL_INODES).foldl bad_block_step t = t := by
  funext j
  rw [bad_blocks_apply]
  split_ifs with hj
  · exact bad_block_inode_of_small _ (h j hj)
  · rfl

/-! ## One slot through the passes -/

/-! ### Frame -/

theorem sameFrame_refl (x : inode_t) : SameFrame x x :=
  ⟨rfl, rfl, rfl, rfl, rfl, rfl, rfl, rfl, rfl, rfl, rfl, rfl⟩

theorem sameFrame_trans (x y z : inode_t) (h1 : SameFrame x y) (h2 : SameFrame y z) :
    SameFrame x z := by
  obtain ⟨a1, a2, a3, a4, a5, a6, a7, a8, a9, a10, a11, a12⟩ := h1
  obtain ⟨b1, b2, b3, b4, b5, b6, b7, b8, b9, b10, b11, b12⟩ := h2
  exact ⟨b1.trans a1, b2.trans a2, b3.trans a3, b4.trans a4, b5.trans a5, b6.trans a6,
    b7.trans a7, b8.trans a8, b9.trans a9, b10.trans a10, b11.trans a11, b12.trans a12⟩

theorem sameFrame_normalize_slot (j : Nat) (x : inode_t) : SameFrame x (normalize_slot j x) := by
  unfold normalize_slot normalize_inode
  split_ifs <;> exact sameFrame_refl _

theorem sameFrame_keptOrAdopted (x y : inode_t) (h : KeptOrAdopted x y) : SameFrame x y := by
  rcases h with h | ⟨_, b, _, _, h⟩
  · rw [h]; exact sameFrame_refl _
  · rw [h]; exact sameFrame_refl _

theorem sameFrame_bad_block_inode (x : inode_t) : SameFrame x (bad_block_inode x) := by
  unfold bad_block_inode
  split_ifs <;> exact sameFrame_refl _

/-! ### The direct block -/

theorem pointer_normalize_slot (j : Nat) (x : inode_t) :
    (normalize_slot j x).direct_block = x.direct_block := by
  unfold normalize_slot normalize_inode
  split_ifs <;> rfl

/-! ### Live inodes with a usable pointer -/

theorem normalize_slot_of_valid (j : Nat) (x : inode_t)
    (h : 56 ≤ j ∨ (FIRST_DATA_BLOCK ≤ x.direct_block ∧ x.direct_block < TOTAL_BLOCKS)) :
    normalize_slot j x = x := by
  unfold normalize_slot normalize_inode
  split_ifs with h1 h2
  · exfalso
    rcases h with h | h
    · omega
    · omega
  · rfl
  · rfl

theorem keptOrAdopted_of_live (x y : inode_t) (hl : live x = true) (h : KeptOrAdopted x y) :
    y = x := by
  rcases h with h | ⟨h, _⟩
  · exact h
  · rw [hl] at h; cases h

/-! ## Normalization twice -/

theorem normalize_idem (t : InodeTable) : normalize (normalize t) = normalize t := by
  apply normalize_of_normal
  intro j hj
  rw [normalize_apply, if_pos hj]
  exact normal_normalize_inode _

theorem skip_live_of_dead (t : InodeTable) (c : Nat) (h : live (t c) = false) : skip_live t c = c := by
  have hge := skip_live_ge t c
  by_contra hne
  have := (skip_live_skipped t c c (le_refl _) (by omega)).2
  rw [h] at this
  cases this

/-! ## The stale bit image -/

theorem owned_normalize (t : InodeTable) (b j : Nat) (hj : j < TOTAL_INODES)
    (hb : FIRST_DATA_BLOCK ≤ b ∧ b < TOTAL_BLOCKS) (ht : t j = file_inode b) :
    owned (normalize t) b := by
  have e : normalize t j = file_inode b := by
    rw [normalize_apply, ht]
    exact normalize_slot_of_valid j _ (Or.inr hb)
  exact ⟨j, hj, by rw [e]; rfl, by rw [e]; rfl⟩

theorem stale_bit_image_quiet : Quiet (normalize stale_bit_image.inodes) := by
  right
  intro i hi
  have hi56 : i < 56 := hi
  have hb : FIRST_DATA_BLOCK ≤ i + FIRST_DATA_BLOCK ∧ i + FIRST_DATA_BLOCK < TOTAL_BLOCKS := by
    unfold FIRST_DATA_BLOCK TOTAL_BLOCKS; omega
  by_cases h5 : i < 5
  · apply owned_normalize _ _ i (by rw [total_inodes_eq]; omega) hb
    simp [stale_bit_image, h5, FIRST_DATA_BLOCK]
  · apply owned_normalize _ _ (i + 1) (by rw [total_inodes_eq]; omega) hb
    have h6 : 6 ≤ i + 1 ∧ i + 1 ≤ 56 := by omega
    have h5b : ¬ i + 1 < 5 := by omega
    simp only [stale_bit_image, h5b, h6, if_false, if_true, and_self, FIRST_DATA_BLOCK]

/-! ## The orphan block image -/

theorem orphan_block_unowned :
    ¬ owned (normalize orphan_block_image.inodes) (0 + FIRST_DATA_BLOCK) := by
  rintro ⟨j, hj, hl, hb⟩
  rw [normalize_apply] at hl hb
  by_cases hjr : 1 ≤ j ∧ j ≤ 55
  · have e : orphan_block_image.inodes j = file_inode (j + 8) := by
      simp only [orphan_block_image, hjr, and_self, if_true]
    have hj56 : j < 56 := by omega
    have hp := pointer_normalize_slot j (orphan_block_image.inodes j)
    unfold normalize_slot at hp
    rw [hp, e] at hb
    have : j + 8 = 0 + FIRST_DATA_BLOCK := hb
    unfold FIRST_DATA_BLOCK at this
    omega
  · have e : orphan_block_image.inodes j = zero_inode := by
      simp only [orphan_block_image, hjr, if_false]
    rw [e] at hl
    split_ifs at hl
    · revert hl; decide
    · revert hl; decide

/-! ## Bits of a bitmap -/

theorem is_bitmap_set_eq (bm : Bitmap) (k : Nat) :
    is_bitmap_set bm k = ((bm (k / 8)).testBit (k % 8)).toNat := by
  unfold is_bitmap_set Nat.testBit
  rw [Nat.land_comm, Nat.one_and_eq_mod_two]
  rcases Nat.mod_two_eq_zero_or_one (bm (k / 8) >>> (k % 8)) with h | h <;> rw [h] <;> rfl

theorem testBit_lor_bit (b s j : Nat) :
    (b ||| (1 <<< s)).testBit j = (b.testBit j || decide (s = j)) := by
  rw [Nat.testBit_lor, Nat.one_shiftLeft, Nat.testBit_two_pow]

theorem is_bitmap_set_set_bitmap_one (bm : Bitmap) (i k : Nat) :
    is_bitmap_set (set_bitmap bm i 1) k = if k = i then 1 else is_bitmap_set bm k := by
  rw [is_bitmap_set_eq, is_bitmap_set_eq]
  unfold set_bitmap
  rw [if_pos (by decide)]
  by_cases hk : k = i
  · subst hk
    rw [store_same, testBit_lor_bit, if_pos rfl]
    simp
  · rw [if_neg hk]
    by_cases hb : k / 8 = i / 8
    · have hm : i % 8 ≠ k % 8 := by omega
      rw [hb, store_same, testBit_lor_bit]
      simp [hm]
    · rw [store_other _ _ _ _ hb]

theorem set_bitmap_one_keeps (bm : Bitmap) (i k : Nat) (h : is_bitmap_set bm k = 1) :
    is_bitmap_set (set_bitmap bm i 1) k = 1 := by
  rw [is_bitmap_set_set_bitmap_one]
  split_ifs
  · rfl
  · exact h

theorem fix_block_keeps_bits (s : Scan) (i : Nat) :
    (∀ k, is_bitmap_set s.inode_bitmap k = 1 → is_bitmap_set (fix_block s i).inode_bitmap k = 1) ∧
    (∀ k, is_bitmap_set s.data_bitmap k = 1 → is_bitmap_set (fix_block s i).data_bitmap k = 1) := by
  rcases fix_block_cases s i with ⟨_, h⟩ | ⟨_, _, h⟩ | ⟨_, _, h⟩
  · rw [h]; exact ⟨fun _ hk => hk, fun _ hk => hk⟩
  · rw [h]
    exact ⟨fun k hk => set_bitmap_one_keeps _ _ k hk, fun k hk => set_bitmap_one_keeps _ _ k hk⟩
  · rw [h]; exact ⟨fun _ hk => hk, fun _ hk => hk⟩

theorem fix_loop_keeps_bits (l : List Nat) (s : Scan) :
    (∀ k, is_bitmap_set s.inode_bitmap k = 1 →
      is_bitmap_set (l.foldl fix_block s).inode_bitmap k = 1) ∧
    (∀ k, is_bitmap_set s.data_bitmap k = 1 →
      is_bitmap_set (l.foldl fix_block s).data_bitmap k = 1) := by
  apply foldl_invariant
    (fun r => (∀ k, is_bitmap_set s.inode_bitmap k = 1 → is_bitmap_set r.inode_bitmap k = 1) ∧
      (∀ k, is_bitmap_set s.data_bitmap k = 1 → is_bitmap_set r.data_bitmap k = 1)) fix_block l
  · intro r i _ hr
    obtain ⟨h1, h2⟩ := fix_block_keeps_bits r i
    exact ⟨fun k hk => h1 k (hr.1 k hk), fun k hk => h2 k (hr.2 k hk)⟩
  · exact ⟨fun _ hk => hk, fun _ hk => hk⟩

theorem fix_loop_keeps_bits_at (t : InodeTable) (ib db : Bitmap) (c : Nat) :
    (∀ k, is_bitmap_set ib k = 1 →
      is_bitmap_set ((List.range (TOTAL_BLOCKS - FIRST_DATA_BLOCK)).foldl fix_block
        { inodes := t, inode_bitmap := ib, data_bitmap := db, inode_index := c }).inode_bitmap k
        = 1) ∧
    (∀ k, is_bitmap_set db k = 1 →
      is_bitmap_set ((List.range (TOTAL_BLOCKS - FIRST_DATA_BLOCK)).foldl fix_block
        { inodes := t, inode_bitmap := ib, data_bitmap := db, inode_index := c }).data_bitmap k
        = 1) :=
  fix_loop_keeps_bits _ { inodes := t, inode_bitmap := ib, data_bitmap := db, inode_index := c }

/-! ## Passes and the image file -/

theorem check_data_bitmap_fp (s : State) : (check_data_bitmap s).fp = s.fp := by
  simp only [check_data_bitmap, scan_finish]

theorem fix_data_bitmap_fp (s : State) : (fix_data_bitmap s).fp = s.fp := by
  simp only [fix_data_bitmap, scan_finish]

theorem check_and_fix_duplicate_blocks_fp (s : State) :
    (check_and_fix_duplicate_blocks s).fp = s.fp := by
  unfold check_and_fix_duplicate_blocks
  apply foldl_invariant (fun r => r.fp = s.fp) duplicate_step
  · intro r k _ hr
    unfold duplicate_step
    simp only
    split_ifs
    · exact hr
    · exact hr
  · rfl

theorem check_and_fix_bad_blocks_fp (s : State) : (check_and_fix_bad_blocks s).fp = s.fp := by
  simp only [check_and_fix_bad_blocks]

/-! ## The size of an inode record -/

/-- C7 (defect in the code).  The members of `inode_t` add up to 212 bytes, not
to `INODE_SIZE` = 256.  So `inodes[1]` starts at byte 212 of what `read_inodes`
copied while record 1 of the image starts at byte 256, and `read_inodes` copies
20480 bytes into an array of 16960. -/
theorem inode_record_size :
    sizeof_inode_t = 212 ∧ INODE_SIZE = 256 ∧ sizeof_inode_t ≠ INODE_SIZE ∧
    inodes_slot_offset 1 = 212 ∧ disk_record_offset 1 = 256 ∧
    read_inodes_bytes = 20480 ∧ TOTAL_INODES * sizeof_inode_t = 16960 := by
  decide

/-! ## Clearing a bit -/

theorem testBit_land_mask (b s j : Nat) (hj : j < 8) :
    (b &&& (0xFF ^^^ (1 <<< s))).testBit j = (b.testBit j && !decide (s = j)) := by
  have h255 : (0xFF : Nat) = 2 ^ 8 - 1 := by decide
  rw [Nat.testBit_land, Nat.testBit_xor, Nat.one_shiftLeft, Nat.testBit_two_pow, h255,
    Nat.testBit_two_pow_sub_one]
  by_cases hs : s = j <;> simp [hs, hj]

theorem is_bitmap_set_set_bitmap_zero (bm : Bitmap) (i k : Nat) :
    is_bitmap_set (set_bitmap bm i 0) k = if k = i then 0 else is_bitmap_set bm k := by
  rw [is_bitmap_set_eq, is_bitmap_set_eq]
  unfold set_bitmap
  rw [if_neg (by decide)]
  have hk8 : k % 8 < 8 := Nat.mod_lt _ (by decide)
  by_cases hk : k = i
  · subst hk
    rw [store_same, testBit_land_mask _ _ _ hk8, if_pos rfl]
    simp
  · rw [if_neg hk]
    by_cases hb : k / 8 = i / 8
    · have hm : i % 8 ≠ k % 8 := by omega
      rw [hb, store_same, testBit_land_mask _ _ _ hk8]
      simp [hm]
    · rw [store_other _ _ _ _ hb]

theorem is_bitmap_set_le_one (bm : Bitmap) (k : Nat) : is_bitmap_set bm k ≤ 1 := by
  rw [is_bitmap_set_eq]
  cases (bm (k / 8)).testBit (k % 8) <;> decide

/-! ## The inode-bitmap reconciler -/

theorem inode_bitmap_step_eq (t : InodeTable) (bm : Bitmap) (i : Nat) :
    inode_bitmap_step t bm i =
      if is_bitmap_set bm i ≠ 0 ∧ live (t i) = false then set_bitmap bm i 0
      else if is_bitmap_set bm i = 0 ∧ live (t i) = true then set_bitmap bm i 1
      else bm := by
  unfold inode_bitmap_step
  simp only []
  by_cases h1 : is_bitmap_set bm i ≠ 0 ∧ live (t i) = false
  · have h1b : (bm (i / 8) >>> (i % 8)) &&& 1 ≠ 0 ∧ live (t i) = false := h1
    have h2 : ¬ ((bm (i / 8) >>> (i % 8)) &&& 1 = 0 ∧ live (t i) = true) := fun h => h1b.1 h.1
    rw [if_pos h1, if_pos h1b, if_neg h2]
    unfold set_bitmap
    rw [if_neg (by decide)]
  · have h1b : ¬ ((bm (i / 8) >>> (i % 8)) &&& 1 ≠ 0 ∧ live (t i) = false) := h1
    rw [if_neg h1, if_neg h1b]
    by_cases h2 : is_bitmap_set bm i = 0 ∧ live (t i) = true
    · have h2b : (bm (i / 8) >>> (i % 8)) &&& 1 = 0 ∧ live (t i) = true := h2
      rw [if_pos h2, if_pos h2b]
      unfold set_bitmap
      rw [if_pos (by decide)]
    · have h2b : ¬ ((bm (i / 8) >>> (i % 8)) &&& 1 = 0 ∧ live (t i) = true) := h2
      rw [if_neg h2, if_neg h2b]

theorem inode_bitmap_step_bit (t : InodeTable) (bm : Bitmap) (i k : Nat) :
    is_bitmap_set (inode_bitmap_step t bm i) k
      = if k = i then live_bit (t i) else is_bitmap_set bm k := by
  rw [inode_bitmap_step_eq]
  have hle := is_bitmap_set_le_one bm i
  unfold live_bit
  by_cases hl : live (t i) = true
  · have hl2 : ¬ live (t i) = false := by rw [hl]; decide
    rw [if_neg (fun h => hl2 h.2)]
    by_cases hb : is_bitmap_set bm i = 0
    · rw [if_pos ⟨hb, hl⟩, is_bitmap_set_set_bitmap_one]
      split_ifs <;> rfl
    · rw [if_neg (fun h => hb h.1)]
      split_ifs with hk
      · subst hk; omega
      · rfl
  · have hl2 : live (t i) = false := by simpa using hl
    by_cases hb : is_bitmap_set bm i = 0
    · rw [if_neg (fun h => h.1 hb), if_neg (fun h => hl h.2)]
      split_ifs with hk
      · subst hk; exact hb
      · rfl
    · rw [if_pos ⟨hb, hl2⟩, is_bitmap_set_set_bitmap_zero]
      split_ifs <;> rfl

theorem inode_bitmap_loop_bit (t : InodeTable) (bm : Bitmap) (n k : Nat) :
    is_bitmap_set ((List.range n).foldl (inode_bitmap_step t) bm) k
      = if k < n then live_bit (t k) else is_bitmap_set bm k := by
  induction n with
  | zero => simp
  | succ n ih =>
    rw [List.range_succ, List.foldl_append]
    simp only [List.foldl_cons, List.foldl_nil]
    rw [inode_bitmap_step_bit, ih]
    by_cases hk : k = n
    · subst hk; simp
    · by_cases h1 : k < n
      · have : k < n + 1 := by omega
        simp [hk, h1, this]
      · have : ¬ k < n + 1 := by omega
        simp [hk, h1, this]

theorem fix_data_bitmap_eq (s : State) :
    (fix_data_bitmap s).inodes = (fix_scan s).inodes ∧
    (fix_data_bitmap s).inode_bitmap = (fix_scan s).inode_bitmap ∧
    (fix_data_bitmap s).data_bitmap = (fix_scan s).data_bitmap := by
  simp only [fix_data_bitmap, scan_finish, scan_start, fix_scan, and_self]

theorem fix_scan_evolves (s : State) : Evolves (normalize s.inodes) (fix_scan s).inodes := by
  unfold fix_scan
  exact fix_loop_evolves_at _ _ _ _

theorem fix_scan_of_quiet (s : State) (hq : Quiet (normalize s.inodes)) :
    (fix_scan s).inodes = normalize s.inodes ∧ (fix_scan s).inode_bitmap = s.inode_bitmap ∧
      (fix_scan s).data_bitmap = s.data_bitmap := by
  unfold fix_scan
  exact fix_loop_quiet_at _ _ _ _ hq

theorem loaded_fields (img : Disk) :
    (loaded img).inodes = img.inodes ∧ (loaded img).inode_bitmap = img.inode_bitmap ∧
      (loaded img).data_bitmap = img.data_bitmap ∧ (loaded img).fp = img := by
  simp only [loaded, and_self]

/-! ## The single passes -/

/-- C11.  `check_and_fix_inode_bitmap` taken alone is correct on the image: for
every slot `i < 80` the bit written for `i` is 1 exactly when record `i` of the
image is live, a bit differs from its old value only at a slot below 80 whose old
bit disagreed with liveness, bits at index 80 and above are as before, and neither
the inode table of the image nor the one in memory is modified. -/
theorem inode_bitmap_pass_correct (s : State) (i : Nat) (hi : i < INODE_COUNT) :
    is_bitmap_set (check_and_fix_inode_bitmap s).fp.inode_bitmap i = live_bit (s.fp.inodes i) ∧
    (is_bitmap_set (check_and_fix_inode_bitmap s).fp.inode_bitmap i = 1 ↔
      ((s.fp.inodes i).links_count > 0 ∧ (s.fp.inodes i).dtime = 0)) ∧
    (∀ k, is_bitmap_set (check_and_fix_inode_bitmap s).fp.inode_bitmap k
        ≠ is_bitmap_set s.fp.inode_bitmap k →
      k < INODE_COUNT ∧ is_bitmap_set s.fp.inode_bitmap k ≠ live_bit (s.fp.inodes k)) ∧
    (∀ k, INODE_COUNT ≤ k →
      is_bitmap_set (check_and_fix_inode_bitmap s).fp.inode_bitmap k
        = is_bitmap_set s.fp.inode_bitmap k) ∧
    (check_and_fix_inode_bitmap s).fp.inodes = s.fp.inodes ∧
    (check_and_fix_inode_bitmap s).inodes = s.inodes := by
  have hbit : ∀ k, is_bitmap_set (check_and_fix_inode_bitmap s).fp.inode_bitmap k
      = if k < INODE_COUNT then live_bit (s.fp.inodes k) else is_bitmap_set s.fp.inode_bitmap k := by
    intro k
    simp only [check_and_fix_inode_bitmap]
    exact inode_bitmap_loop_bit _ _ _ _
  refine ⟨?_, ?_, ?_, ?_, ?_, ?_⟩
  · rw [hbit, if_pos hi]
  · rw [hbit, if_pos hi]
    unfold live_bit live
    by_cases h : (s.fp.inodes i).links_count > 0 ∧ (s.fp.inodes i).dtime = 0
    · simp [h]
    · simp only [h, iff_false]
      have : ¬ ((decide ((s.fp.inodes i).links_count > 0) &&
          decide ((s.fp.inodes i).dtime = 0)) = true) := by
        simpa using h
      simp [this]
  · intro k hk
    rw [hbit] at hk
    by_cases hlt : k < INODE_COUNT
    · rw [if_pos hlt] at hk
      exact ⟨hlt, fun h => hk h.symm⟩
    · rw [if_neg hlt] at hk
      exact absurd rfl hk
  · intro k hk
    rw [hbit, if_neg (by omega)]
  · simp only [check_and_fix_inode_bitmap]
  · simp only [check_and_fix_inode_bitmap]

theorem inode_bitmap_pass_correct_witness :
    5 < INODE_COUNT ∧
    (is_bitmap_set (check_and_fix_inode_bitmap (fopen stale_bit_image)).fp.inode_bitmap 5
      = live_bit ((fopen stale_bit_image).fp.inodes 5) ∧
    (is_bitmap_set (check_and_fix_inode_bitmap (fopen stale_bit_image)).fp.inode_bitmap 5 = 1 ↔
      (((fopen stale_bit_image).fp.inodes 5).links_count > 0 ∧
        ((fopen stale_bit_image).fp.inodes 5).dtime = 0)) ∧
    (∀ k, is_bitmap_set (check_and_fix_inode_bitmap (fopen stale_bit_image)).fp.inode_bitmap k
        ≠ is_bitmap_set (fopen stale_bit_image).fp.inode_bitmap k →
      k < INODE_COUNT ∧ is_bitmap_set (fopen stale_bit_image).fp.inode_bitmap k
        ≠ live_bit ((fopen stale_bit_image).fp.inodes k)) ∧
    (∀ k, INODE_COUNT ≤ k →
      is_bitmap_set (check_and_fix_inode_bitmap (fopen stale_bit_image)).fp.inode_bitmap k
        = is_bitmap_set (fopen stale_bit_image).fp.inode_bitmap k) ∧
    (check_and_fix_inode_bitmap (fopen stale_bit_image)).fp.inodes
      = (fopen stale_bit_image).fp.inodes ∧
    (check_and_fix_inode_bitmap (fopen stale_bit_image)).inodes
      = (fopen stale_bit_image).inodes) :=
  ⟨by decide, inode_bitmap_pass_correct (fopen stale_bit_image) 5 (by decide)⟩

/-- C13 (defect in the code).  On the loaded `unmarked_blocks_image` block 8 is
the direct block of live inode 0 and its data-bitmap bit is 0.  After
`fix_data_bitmap` inode 0 is still live with direct block 8 and the bit is still
0: the pass rewrites the bit of an owned block only when it is already set. -/
theorem owned_block_left_unmarked :
    live ((fix_data_bitmap (loaded unmarked_blocks_image)).inodes 0) = true ∧
    ((fix_data_bitmap (loaded unmarked_blocks_image)).inodes 0).direct_block
      = 0 + FIRST_DATA_BLOCK ∧
    is_bitmap_set (fix_data_bitmap (loaded unmarked_blocks_image)).data_bitmap 0 = 0 := by
  obtain ⟨e1, _, e3⟩ := fix_data_bitmap_eq (loaded unmarked_blocks_image)
  obtain ⟨l1, _, l3, _⟩ := loaded_fields unmarked_blocks_image
  have hq : Quiet (normalize (loaded unmarked_blocks_image).inodes) := by
    rw [l1]; exact stale_bit_image_quiet
  obtain ⟨f1, _, f3⟩ := fix_scan_of_quiet _ hq
  rw [e1, e3, f1, f3, l1, l3, normalize_apply]
  decide

/-- C15 (defect in the code).  On the loaded `huge_pointer_image` inode 0 has
direct block `0x80000000`, which is at least 64.  After
`check_and_fix_bad_blocks` the pointer is still `0x80000000`, not 0: as an `int`
the value is negative and the test `blk >= TOTAL_BLOCKS` fails. -/
theorem huge_pointer_not_cleared :
    TOTAL_BLOCKS ≤ ((loaded huge_pointer_image).inodes 0).direct_block ∧
    ((loaded huge_pointer_image).inodes 0).direct_block < 2 ^ 32 ∧
    ((check_and_fix_bad_blocks (loaded huge_pointer_image)).inodes 0).direct_block
      = 0x80000000 := by
  obtain ⟨l1, _, _, _⟩ := loaded_fields huge_pointer_image
  simp only [check_and_fix_bad_blocks]
  rw [bad_blocks_apply, l1]
  decide

theorem live_of_evolves_dead (t u : InodeTable) (h : Evolves t u) (j : Nat)
    (hd : live (u j) = false) : live (t j) = false := by
  rcases h j with e | ⟨_, ha⟩
  · rw [← e]; exact hd
  · have := live_of_adopted _ _ ha
    rw [hd] at this
    cases this

theorem fix_block_bitmapInv (t : InodeTable) (ib : Bitmap) (r : Scan) (i : Nat)
    (hi : i < TOTAL_BLOCKS - FIRST_DATA_BLOCK) (h : BitmapInv t ib r) :
    BitmapInv t ib (fix_block r i) := by
  obtain ⟨hev, hbits⟩ := h
  rcases fix_block_cases r i with ⟨_, he⟩ | ⟨_, hc, he⟩ | ⟨_, _, he⟩
  · rw [he]; exact ⟨hev, hbits⟩
  · rw [he]
    have hstop := skip_live_stop _ _ hc
    have hdead := live_of_evolves_dead _ _ hev _ hstop
    refine ⟨evolves_trans _ _ _ hev (evolves_adopt _ _ _ hc hstop hi), ?_⟩
    intro k
    simp only
    rw [is_bitmap_set_set_bitmap_one]
    by_cases hk : k = skip_live r.inodes r.inode_index
    · subst hk
      have hl : live (adopt r.inodes (skip_live r.inodes r.inode_index)
          (i + FIRST_DATA_BLOCK) (skip_live r.inodes r.inode_index)) = true := by
        unfold adopt; rw [store_same]; rfl
      rw [if_pos rfl, if_pos ⟨hc, hdead, hl⟩]
    · have hsame : adopt r.inodes (skip_live r.inodes r.inode_index)
          (i + FIRST_DATA_BLOCK) k = r.inodes k := by
        unfold adopt; exact store_other _ _ _ _ hk
      rw [if_neg hk]
      simp only [hsame]
      exact hbits k
  · rw [he]; exact ⟨hev, hbits⟩

theorem fix_loop_bitmapInv (t : InodeTable) (ib db : Bitmap) (c : Nat) :
    BitmapInv t ib ((List.range (TOTAL_BLOCKS - FIRST_DATA_BLOCK)).foldl fix_block
      { inodes := t, inode_bitmap := ib, data_bitmap := db, inode_index := c }) := by
  apply foldl_invariant (BitmapInv t ib) fix_block
  · intro r i hi hr
    exact fix_block_bitmapInv t ib r i (mem_range_blocks i hi) hr
  · refine ⟨evolves_refl _, ?_⟩
    intro k
    simp only
    by_cases hl : live (t k) = true
    · rw [if_neg (fun h => by rw [hl] at h; cases h.2.1)]
    · have hl2 : live (t k) = false := by simpa using hl
      rw [if_neg (fun h => by rw [hl2] at h; cases h.2.2)]

theorem fix_scan_bits (s : State) (k : Nat) :
    is_bitmap_set (fix_scan s).inode_bitmap k =
      if k < TOTAL_INODES ∧ live (normalize s.inodes k) = false ∧
        live ((fix_scan s).inodes k) = true then 1
      else is_bitmap_set s.inode_bitmap k := by
  unfold fix_scan
  exact (fix_loop_bitmapInv _ _ _ _).2 k

theorem live_normalize_inode (x : inode_t) (h : live (normalize_inode x) = true) :
    FIRST_DATA_BLOCK ≤ x.direct_block ∧ x.direct_block < TOTAL_BLOCKS ∧
      normalize_inode x = x := by
  unfold normalize_inode at h ⊢
  split_ifs at h ⊢ with hb
  · revert h; simp [live]
  · exact ⟨by omega, by omega, rfl⟩

/-- C16.  After `fix_data_bitmap` every live inode in slots 0..55 has its direct
block in 8..63.  Normalization sets `links_count` to 0 and `dtime` to 1 in every
slot below 56 whose direct block is below 8 or at least 64, and leaves slots 56
and above as they are. -/
theorem live_slot_points_to_data_block (s : State) (j : Nat) (hj : j < 56)
    (hl : live ((fix_data_bitmap s).inodes j) = true) :
    (FIRST_DATA_BLOCK ≤ ((fix_data_bitmap s).inodes j).direct_block ∧
      ((fix_data_bitmap s).inodes j).direct_block ≤ 63) ∧
    (∀ k, k < 56 →
      ((s.inodes k).direct_block < FIRST_DATA_BLOCK ∨ (s.inodes k).direct_block ≥ TOTAL_BLOCKS) →
      (normalize s.inodes k).links_count = 0 ∧ (normalize s.inodes k).dtime = 1 ∧
        live (normalize s.inodes k) = false) ∧
    (∀ k, 56 ≤ k → normalize s.inodes k = s.inodes k) := by
  obtain ⟨e1, _, _⟩ := fix_data_bitmap_eq s
  rw [e1] at hl ⊢
  refine ⟨?_, ?_, ?_⟩
  · rcases fix_scan_evolves s j with e | ⟨_, _, b, hb1, hb2, e⟩
    · rw [e] at hl ⊢
      rw [normalize_apply, if_pos hj] at hl ⊢
      obtain ⟨h1, h2, h3⟩ := live_normalize_inode _ hl
      rw [h3]
      unfold TOTAL_BLOCKS at h2
      exact ⟨h1, by omega⟩
    · rw [e]
      unfold TOTAL_BLOCKS at hb2
      exact ⟨hb1, by simp only; omega⟩
  · intro k hk hbad
    rw [normalize_apply, if_pos hk]
    unfold normalize_inode
    rw [if_pos hbad]
    exact ⟨rfl, rfl, rfl⟩
  · intro k hk
    rw [normalize_apply, if_neg (by omega)]

theorem loaded_stale_fix (j : Nat) :
    (fix_data_bitmap (loaded stale_bit_image)).inodes j = normalize stale_bit_image.inodes j := by
  obtain ⟨e1, _, _⟩ := fix_data_bitmap_eq (loaded stale_bit_image)
  obtain ⟨l1, _, _, _⟩ := loaded_fields stale_bit_image
  have hq : Quiet (normalize (loaded stale_bit_image).inodes) := by
    rw [l1]; exact stale_bit_image_quiet
  rw [e1, (fix_scan_of_quiet _ hq).1, l1]

theorem live_slot_points_to_data_block_witness :
    0 < 56 ∧ live ((fix_data_bitmap (loaded stale_bit_image)).inodes 0) = true ∧
    ((FIRST_DATA_BLOCK ≤ ((fix_data_bitmap (loaded stale_bit_image)).inodes 0).direct_block ∧
      ((fix_data_bitmap (loaded stale_bit_image)).inodes 0).direct_block ≤ 63) ∧
    (∀ k, k < 56 →
      (((loaded stale_bit_image).inodes k).direct_block < FIRST_DATA_BLOCK ∨
        ((loaded stale_bit_image).inodes k).direct_block ≥ TOTAL_BLOCKS) →
      (normalize (loaded stale_bit_image).inodes k).links_count = 0 ∧
        (normalize (loaded stale_bit_image).inodes k).dtime = 1 ∧
        live (normalize (loaded stale_bit_image).inodes k) = false) ∧
    (∀ k, 56 ≤ k →
      normalize (loaded stale_bit_image).inodes k = (loaded stale_bit_image).inodes k)) :=
  have hl : live ((fix_data_bitmap (loaded stale_bit_image)).inodes 0) = true := by
    rw [loaded_stale_fix, normalize_apply]; decide
  ⟨by decide, hl, live_slot_points_to_data_block (loaded stale_bit_image) 0 (by decide) hl⟩

theorem skip_live_exhausted (t : InodeTable) (c : Nat)
    (h : ∀ j, c ≤ j → j < TOTAL_INODES → live (t j) = true) : ¬ skip_live t c < TOTAL_INODES := by
  intro hc
  have h1 := skip_live_stop t c hc
  rw [h _ (skip_live_ge t c) hc] at h1
  cases h1

/-- C17.  An exhausted cursor causes no state change.  When the block of an
iteration of `fix_data_bitmap` has no live owner and every slot from the cursor on
is live, the iteration leaves the inode table and both bitmaps as they are.  When
all 80 slots are live after normalization, the block loop of `fix_data_bitmap`
leaves the normalized table and both bitmaps as they are. -/
theorem exhausted_cursor_changes_nothing (r : Scan) (i : Nat) (s : State)
    (horphan : find_owner r.inodes (i + FIRST_DATA_BLOCK) = none)
    (hfull : ∀ j, r.inode_index ≤ j → j < TOTAL_INODES → live (r.inodes j) = true)
    (hall : ∀ j, j < TOTAL_INODES → live (normalize s.inodes j) = true) :
    ((fix_block r i).inodes = r.inodes ∧ (fix_block r i).inode_bitmap = r.inode_bitmap ∧
      (fix_block r i).data_bitmap = r.data_bitmap) ∧
    ((fix_data_bitmap s).inodes = normalize s.inodes ∧
      (fix_data_bitmap s).inode_bitmap = s.inode_bitmap ∧
      (fix_data_bitmap s).data_bitmap = s.data_bitmap) := by
  constructor
  · have hno := (find_owner_none _ _).mp horphan
    rcases fix_block_cases r i with ⟨ho, _⟩ | ⟨_, hc, _⟩ | ⟨_, _, he⟩
    · exact absurd ho hno
    · exact absurd hc (skip_live_exhausted _ _ hfull)
    · rw [he]; exact ⟨rfl, rfl, rfl⟩
  · obtain ⟨e1, e2, e3⟩ := fix_data_bitmap_eq s
    rw [e1, e2, e3]
    exact fix_scan_of_quiet s (Or.inl hall)

theorem crowded_all_live (j : Nat) : live (normalize (loaded crowded_image).inodes j) = true := by
  rw [(loaded_fields crowded_image).1, normalize_apply]
  split_ifs
  · show live (normalize_inode (file_inode 20)) = true
    decide
  · rfl

theorem exhausted_cursor_changes_nothing_witness :
    find_owner crowded_scan.inodes (0 + FIRST_DATA_BLOCK) = none ∧
    (∀ j, crowded_scan.inode_index ≤ j → j < TOTAL_INODES →
      live (crowded_scan.inodes j) = true) ∧
    (∀ j, j < TOTAL_INODES → live (normalize (loaded crowded_image).inodes j) = true) ∧
    (((fix_block crowded_scan 0).inodes = crowded_scan.inodes ∧
      (fix_block crowded_scan 0).inode_bitmap = crowded_scan.inode_bitmap ∧
      (fix_block crowded_scan 0).data_bitmap = crowded_scan.data_bitmap) ∧
    ((fix_data_bitmap (loaded crowded_image)).inodes = normalize (loaded crowded_image).inodes ∧
      (fix_data_bitmap (loaded crowded_image)).inode_bitmap
        = (loaded crowded_image).inode_bitmap ∧
      (fix_data_bitmap (loaded crowded_image)).data_bitmap
        = (loaded crowded_image).data_bitmap)) :=
  ⟨by decide, fun _ _ _ => rfl, fun j _ => crowded_all_live j,
    exhausted_cursor_changes_nothing crowded_scan 0 (loaded crowded_image) (by decide)
      (fun _ _ _ => rfl) (fun j _ => crowded_all_live j)⟩

/-- C18.  `validate_superblock` overwrites exactly the deviating fields: after the
call the eight geometry fields hold their expected values, `inode_count` is the
smaller of the old count and 80, the reserved bytes are the old ones, the record
on disk is the record in memory, and the record is unchanged exactly when it
already had the eight expected values and a count of at most 80. -/
theorem validate_superblock_exact (s : State) :
    (validate_superblock s).sb.magic = VSFS_MAGIC ∧
    (validate_superblock s).sb.block_size = BLOCK_SIZE ∧
    (validate_superblock s).sb.total_blocks = TOTAL_BLOCKS ∧
    (validate_superblock s).sb.inode_bitmap_block = INODE_BITMAP_BLOCK ∧
    (validate_superblock s).sb.data_bitmap_block = DATA_BITMAP_BLOCK ∧
    (validate_superblock s).sb.inode_table_start = INODE_TABLE_START_BLOCK ∧
    (validate_superblock s).sb.data_block_start = FIRST_DATA_BLOCK ∧
    (validate_superblock s).sb.inode_size = INODE_SIZE ∧
    (validate_superblock s).sb.inode_count = min s.sb.inode_count 80 ∧
    (validate_superblock s).sb.inode_count ≤ 80 ∧
    (validate_superblock s).sb.reserved = s.sb.reserved ∧
    (validate_superblock s).fp.sb = (validate_superblock s).sb ∧
    ((validate_superblock s).sb = s.sb ↔
      (s.sb.magic = VSFS_MAGIC ∧ s.sb.block_size = BLOCK_SIZE ∧
        s.sb.total_blocks = TOTAL_BLOCKS ∧ s.sb.inode_bitmap_block = INODE_BITMAP_BLOCK ∧
        s.sb.data_bitmap_block = DATA_BITMAP_BLOCK ∧
        s.sb.inode_table_start = INODE_TABLE_START_BLOCK ∧
        s.sb.data_block_start = FIRST_DATA_BLOCK ∧ s.sb.inode_size = INODE_SIZE ∧
        s.sb.inode_count ≤ 80)) := by
  have hsb : (validate_superblock s).sb = fix_superblock s.sb := by
    simp only [validate_superblock, write_superblock]
  have hfp : (validate_superblock s).fp.sb = fix_superblock s.sb := by
    simp only [validate_superblock, write_superblock]
  rw [hfp, hsb, fix_superblock_eq, total_inodes_eq]
  refine ⟨rfl, rfl, rfl, rfl, rfl, rfl, rfl, rfl, ?_, ?_, rfl, rfl, ?_⟩
  · simp only
    split_ifs <;> omega
  · simp only
    split_ifs <;> omega
  · obtain ⟨m, bs, tb, ib, db, its, dbs, isz, ic, rs⟩ := s.sb
    simp only [Superblock.mk.injEq, and_true]
    constructor
    · rintro ⟨h1, h2, h3, h4, h5, h6, h7, h8, h9⟩
      refine ⟨h1.symm, h2.symm, h3.symm, h4.symm, h5.symm, h6.symm, h7.symm, h8.symm, ?_⟩
      split_ifs at h9 <;> omega
    · rintro ⟨h1, h2, h3, h4, h5, h6, h7, h8, h9⟩
      refine ⟨h1.symm, h2.symm, h3.symm, h4.symm, h5.symm, h6.symm, h7.symm, h8.symm, ?_⟩
      rw [if_neg (by omega)]

/-- C20.  Adoption never overwrites a live inode.  An inode that is live once the
normalization step of `fix_data_bitmap` is done has the same record when
`fix_data_bitmap` returns, and its inode-bitmap bit is as it was.  A slot whose
record differs from the normalized one was not live after normalization and now
holds that record with a link count of 1, a delete time of 0 and a data block. -/
theorem adoption_spares_live_inodes (s : State) (j : Nat)
    (hl : live (normalize s.inodes j) = true) :
    (fix_data_bitmap s).inodes j = normalize s.inodes j ∧
    is_bitmap_set (fix_data_bitmap s).inode_bitmap j = is_bitmap_set s.inode_bitmap j ∧
    (∀ k, (fix_data_bitmap s).inodes k ≠ normalize s.inodes k →
      k < TOTAL_INODES ∧ live (normalize s.inodes k) = false ∧
        Adopted (normalize s.inodes k) ((fix_data_bitmap s).inodes k)) := by
  obtain ⟨e1, e2, _⟩ := fix_data_bitmap_eq s
  rw [e1, e2]
  refine ⟨?_, ?_, ?_⟩
  · exact keptOrAdopted_of_live _ _ hl (by
      rcases fix_scan_evolves s j with e | ⟨_, ha⟩
      · exact Or.inl e
      · exact Or.inr ha)
  · rw [fix_scan_bits, if_neg (fun h => by rw [hl] at h; cases h.2.1)]
  · intro k hk
    rcases fix_scan_evolves s k with e | ⟨hlt, ha⟩
    · exact absurd e hk
    · exact ⟨hlt, ha.1, ha⟩

theorem adoption_spares_live_inodes_witness :
    live (normalize (loaded stale_bit_image).inodes 0) = true ∧
    ((fix_data_bitmap (loaded stale_bit_image)).inodes 0
      = normalize (loaded stale_bit_image).inodes 0 ∧
    is_bitmap_set (fix_data_bitmap (loaded stale_bit_image)).inode_bitmap 0
      = is_bitmap_set (loaded stale_bit_image).inode_bitmap 0 ∧
    (∀ k, (fix_data_bitmap (loaded stale_bit_image)).inodes k
        ≠ normalize (loaded stale_bit_image).inodes k →
      k < TOTAL_INODES ∧ live (normalize (loaded stale_bit_image).inodes k) = false ∧
        Adopted (normalize (loaded stale_bit_image).inodes k)
          ((fix_data_bitmap (loaded stale_bit_image)).inodes k))) :=
  have hl : live (normalize (loaded stale_bit_image).inodes 0) = true := by
    rw [(loaded_fields stale_bit_image).1, normalize_apply]; decide
  ⟨hl, adoption_spares_live_inodes (loaded stale_bit_image) 0 hl⟩

theorem clear_references_apply (i : Nat) (t : InodeTable) (j : Nat) :
    (List.range TOTAL_INODES).foldl (clear_reference i) t j
      = if j < TOTAL_INODES then clear_if_references i (t j) else t j := by
  apply foldl_range_pointwise (clear_if_references i) (clear_reference i)
  intro t k
  unfold clear_reference clear_if_references
  split_ifs with h
  · rfl
  · exact (store_self t k).symm

theorem duplicate_step_fields (r : State) (n : Nat) :
    (duplicate_step r n).block_usage_count = r.block_usage_count ∧
    (duplicate_step r n).inode_bitmap = r.inode_bitmap ∧
    (duplicate_step r n).inodes =
      (if r.block_usage_count (FIRST_DATA_BLOCK + n) > 1 then
        (List.range TOTAL_INODES).foldl (clear_reference (FIRST_DATA_BLOCK + n)) r.inodes
      else r.inodes) ∧
    (duplicate_step r n).data_bitmap =
      (if r.block_usage_count (FIRST_DATA_BLOCK + n) > 1 then
        set_bitmap r.data_bitmap (FIRST_DATA_BLOCK + n - FIRST_DATA_BLOCK) 0
      else r.data_bitmap) := by
  unfold duplicate_step
  simp only
  by_cases h : r.block_usage_count (FIRST_DATA_BLOCK + n) > 1
  · simp only [h, if_true, and_self]
  · simp only [h, if_false, and_self]

theorem revoked_succ (s : State) (n j : Nat) :
    revoked s (n + 1) j ↔
      revoked s n j ∨ (j < TOTAL_INODES ∧ (s.inodes j).direct_block = FIRST_DATA_BLOCK + n ∧
        s.block_usage_count (FIRST_DATA_BLOCK + n) > 1) := by
  unfold revoked
  constructor
  · rintro ⟨h0, h1, h2, h3⟩
    by_cases hd : (s.inodes j).direct_block = FIRST_DATA_BLOCK + n
    · right; exact ⟨h0, hd, by rw [← hd]; exact h3⟩
    · left; exact ⟨h0, h1, by omega, h3⟩
  · rintro (⟨h0, h1, h2, h3⟩ | ⟨h0, hd, h3⟩)
    · exact ⟨h0, h1, by omega, h3⟩
    · exact ⟨h0, by omega, by omega, by rw [hd]; exact h3⟩

theorem duplicate_step_inodes (s : State) (n : Nat) (r : State)
    (hc : r.block_usage_count = s.block_usage_count)
    (hin : ∀ j, r.inodes j = if revoked s n j then { s.inodes j with direct_block := 0 }
      else s.inodes j) (j : Nat) :
    (duplicate_step r n).inodes j
      = if revoked s (n + 1) j then { s.inodes j with direct_block := 0 } else s.inodes j := by
  rw [(duplicate_step_fields r n).2.2.1, hc]
  by_cases hcnt : s.block_usage_count (FIRST_DATA_BLOCK + n) > 1
  · rw [if_pos hcnt, clear_references_apply, hin j]
    by_cases hj : j < TOTAL_INODES
    · rw [if_pos hj]
      by_cases hold : revoked s n j
      · have hnew : revoked s (n + 1) j := (revoked_succ s n j).mpr (Or.inl hold)
        rw [if_pos hold, if_pos hnew]
        unfold clear_if_references
        rw [if_neg]
        simp only
        unfold FIRST_DATA_BLOCK
        omega
      · rw [if_neg hold]
        unfold clear_if_references
        by_cases hd : (s.inodes j).direct_block = FIRST_DATA_BLOCK + n
        · have hnew : revoked s (n + 1) j := (revoked_succ s n j).mpr (Or.inr ⟨hj, hd, hcnt⟩)
          rw [if_pos hd, if_pos hnew]
        · have hnew : ¬ revoked s (n + 1) j := by
            rw [revoked_succ]
            rintro (h | ⟨_, h, _⟩)
            · exact hold h
            · exact hd h
          rw [if_neg hd, if_neg hnew]
    · have h1 : ¬ revoked s n j := fun h => hj h.1
      have h2 : ¬ revoked s (n + 1) j := fun h => hj h.1
      rw [if_neg hj, if_neg h1, if_neg h2]
  · rw [if_neg hcnt, hin j]
    by_cases hold : revoked s n j
    · have hnew : revoked s (n + 1) j := (revoked_succ s n j).mpr (Or.inl hold)
      rw [if_pos hold, if_pos hnew]
    · have hnew : ¬ revoked s (n + 1) j := by
        rw [revoked_succ]
        rintro (h | ⟨_, _, h⟩)
        · exact hold h
        · exact hcnt h
      rw [if_neg hold, if_neg hnew]

theorem duplicate_step_bits (s : State) (n : Nat) (r : State)
    (hc : r.block_usage_count = s.block_usage_count)
    (hbit : ∀ k, is_bitmap_set r.data_bitmap k =
      if k < n ∧ s.block_usage_count (FIRST_DATA_BLOCK + k) > 1 then 0
      else is_bitmap_set s.data_bitmap k) (k : Nat) :
    is_bitmap_set (duplicate_step r n).data_bitmap k =
      if k < n + 1 ∧ s.block_usage_count (FIRST_DATA_BLOCK + k) > 1 then 0
      else is_bitmap_set s.data_bitmap k := by
  rw [(duplicate_step_fields r n).2.2.2, hc]
  by_cases hcnt : s.block_usage_count (FIRST_DATA_BLOCK + n) > 1
  · have hsub : FIRST_DATA_BLOCK + n - FIRST_DATA_BLOCK = n := by omega
    rw [if_pos hcnt, hsub, is_bitmap_set_set_bitmap_zero, hbit k]
    by_cases hk : k = n
    · subst hk
      have hnew : k < k + 1 ∧ s.block_usage_count (FIRST_DATA_BLOCK + k) > 1 :=
        ⟨by omega, hcnt⟩
      rw [if_pos rfl, if_pos hnew]
    · rw [if_neg hk]
      by_cases hold : k < n ∧ s.block_usage_count (FIRST_DATA_BLOCK + k) > 1
      · have hnew : k < n + 1 ∧ s.block_usage_count (FIRST_DATA_BLOCK + k) > 1 :=
          ⟨by omega, hold.2⟩
        rw [if_pos hold, if_pos hnew]
      · have hnew : ¬ (k < n + 1 ∧ s.block_usage_count (FIRST_DATA_BLOCK + k) > 1) := by
          rintro ⟨h1, h2⟩
          exact hold ⟨by omega, h2⟩
        rw [if_neg hold, if_neg hnew]
  · rw [if_neg hcnt, hbit k]
    by_cases hold : k < n ∧ s.block_usage_count (FIRST_DATA_BLOCK + k) > 1
    · have hnew : k < n + 1 ∧ s.block_usage_count (FIRST_DATA_BLOCK + k) > 1 :=
        ⟨by omega, hold.2⟩
      rw [if_pos hold, if_pos hnew]
    · have hnew : ¬ (k < n + 1 ∧ s.block_usage_count (FIRST_DATA_BLOCK + k) > 1) := by
        rintro ⟨h1, h2⟩
        by_cases hk : k = n
        · subst hk; exact hcnt h2
        · exact hold ⟨by omega, h2⟩
      rw [if_neg hold, if_neg hnew]

theorem duplicate_step_inv (s : State) (n : Nat) (r : State) (h : DuplicateInv s n r) :
    DuplicateInv s (n + 1) (duplicate_step r n) := by
  obtain ⟨hc, hib, hin, hbit⟩ := h
  obtain ⟨f1, f2, _, _⟩ := duplicate_step_fields r n
  exact ⟨f1.trans hc, f2.trans hib, duplicate_step_inodes s n r hc hin,
    duplicate_step_bits s n r hc hbit⟩

theorem duplicate_loop_inv (s : State) (n : Nat) :
    DuplicateInv s n ((List.range n).foldl duplicate_step s) := by
  induction n with
  | zero =>
    simp only [List.range_zero, List.foldl_nil]
    refine ⟨rfl, rfl, ?_, ?_⟩
    · intro j
      have h0 : ¬ revoked s 0 j := by
        rintro ⟨_, h1, h2, _⟩
        omega
      rw [if_neg h0]
    · intro k
      have h0 : ¬ (k < 0 ∧ s.block_usage_count (FIRST_DATA_BLOCK + k) > 1) := by
        rintro ⟨h1, _⟩
        omega
      rw [if_neg h0]
  | succ n ih =>
    rw [List.range_succ, List.foldl_append]
    simp only [List.foldl_cons, List.foldl_nil]
    exact duplicate_step_inv s n _ ih

/-- C14.  Given a usage counter, `check_and_fix_duplicate_blocks` revokes every
claimant: for a block `b` in 8..63 whose count is above one, afterwards no inode
of the table has direct block `b` and data-bitmap bit `b - 8` is 0.  An inode whose
direct block is not such a block is unchanged, one whose direct block is such a
block has it set to 0, the data-bitmap bits of all other blocks are unchanged, and
so is the inode bitmap. -/
theorem duplicate_pass_revokes (s : State) (b : Nat) (h1 : FIRST_DATA_BLOCK ≤ b)
    (h2 : b < TOTAL_BLOCKS) (h3 : s.block_usage_count b > 1) :
    (∀ j, j < TOTAL_INODES → ((check_and_fix_duplicate_blocks s).inodes j).direct_block ≠ b) ∧
    is_bitmap_set (check_and_fix_duplicate_blocks s).data_bitmap (b - FIRST_DATA_BLOCK) = 0 ∧
    (∀ j, ¬ (j < TOTAL_INODES ∧ FIRST_DATA_BLOCK ≤ (s.inodes j).direct_block ∧
        (s.inodes j).direct_block < TOTAL_BLOCKS ∧
        s.block_usage_count (s.inodes j).direct_block > 1) →
      (check_and_fix_duplicate_blocks s).inodes j = s.inodes j) ∧
    (∀ j, j < TOTAL_INODES → FIRST_DATA_BLOCK ≤ (s.inodes j).direct_block →
      (s.inodes j).direct_block < TOTAL_BLOCKS →
      s.block_usage_count (s.inodes j).direct_block > 1 →
      (check_and_fix_duplicate_blocks s).inodes j = { s.inodes j with direct_block := 0 }) ∧
    (∀ k, ¬ (k < TOTAL_BLOCKS - FIRST_DATA_BLOCK ∧
        s.block_usage_count (FIRST_DATA_BLOCK + k) > 1) →
      is_bitmap_set (check_and_fix_duplicate_blocks s).data_bitmap k
        = is_bitmap_set s.data_bitmap k) ∧
    (check_and_fix_duplicate_blocks s).inode_bitmap = s.inode_bitmap := by
  obtain ⟨_, hib, hin, hbit⟩ := duplicate_loop_inv s (TOTAL_BLOCKS - FIRST_DATA_BLOCK)
  have hsum : FIRST_DATA_BLOCK + (TOTAL_BLOCKS - FIRST_DATA_BLOCK) = TOTAL_BLOCKS := by
    unfold FIRST_DATA_BLOCK TOTAL_BLOCKS; omega
  unfold revoked at hin
  rw [hsum] at hin
  unfold check_and_fix_duplicate_blocks
  refine ⟨?_, ?_, ?_, ?_, ?_, hib⟩
  · intro j hj
    rw [hin j]
    by_cases hc : j < TOTAL_INODES ∧ FIRST_DATA_BLOCK ≤ (s.inodes j).direct_block ∧
        (s.inodes j).direct_block < TOTAL_BLOCKS ∧
        s.block_usage_count (s.inodes j).direct_block > 1
    · rw [if_pos hc]
      simp only
      unfold FIRST_DATA_BLOCK at h1
      omega
    · rw [if_neg hc]
      intro hb
      exact hc ⟨hj, by omega, by omega, by rw [hb]; exact h3⟩
  · have hb : b - FIRST_DATA_BLOCK < TOTAL_BLOCKS - FIRST_DATA_BLOCK ∧
        s.block_usage_count (FIRST_DATA_BLOCK + (b - FIRST_DATA_BLOCK)) > 1 := by
      have : FIRST_DATA_BLOCK + (b - FIRST_DATA_BLOCK) = b := by omega
      rw [this]
      exact ⟨by omega, h3⟩
    rw [hbit, if_pos hb]
  · intro j hj
    rw [hin j, if_neg hj]
  · intro j hj ha hb hc
    have hall : j < TOTAL_INODES ∧ FIRST_DATA_BLOCK ≤ (s.inodes j).direct_block ∧
        (s.inodes j).direct_block < TOTAL_BLOCKS ∧
        s.block_usage_count (s.inodes j).direct_block > 1 := ⟨hj, ha, hb, hc⟩
    rw [hin j, if_pos hall]
  · intro k hk
    rw [hbit, if_neg hk]

theorem duplicate_pass_revokes_witness :
    FIRST_DATA_BLOCK ≤ 20 ∧ 20 < TOTAL_BLOCKS ∧ counted_state.block_usage_count 20 > 1 ∧
    ((∀ j, j < TOTAL_INODES →
      ((check_and_fix_duplicate_blocks counted_state).inodes j).direct_block ≠ 20) ∧
    is_bitmap_set (check_and_fix_duplicate_blocks counted_state).data_bitmap
      (20 - FIRST_DATA_BLOCK) = 0 ∧
    (∀ j, ¬ (j < TOTAL_INODES ∧ FIRST_DATA_BLOCK ≤ (counted_state.inodes j).direct_block ∧
        (counted_state.inodes j).direct_block < TOTAL_BLOCKS ∧
        counted_state.block_usage_count (counted_state.inodes j).direct_block > 1) →
      (check_and_fix_duplicate_blocks counted_state).inodes j = counted_state.inodes j) ∧
    (∀ j, j < TOTAL_INODES → FIRST_DATA_BLOCK ≤ (counted_state.inodes j).direct_block →
      (counted_state.inodes j).direct_block < TOTAL_BLOCKS →
      counted_state.block_usage_count (counted_state.inodes j).direct_block > 1 →
      (check_and_fix_duplicate_blocks counted_state).inodes j
        = { counted_state.inodes j with direct_block := 0 }) ∧
    (∀ k, ¬ (k < TOTAL_BLOCKS - FIRST_DATA_BLOCK ∧
        counted_state.block_usage_count (FIRST_DATA_BLOCK + k) > 1) →
      is_bitmap_set (check_and_fix_duplicate_blocks counted_state).data_bitmap k
        = is_bitmap_set counted_state.data_bitmap k) ∧
    (check_and_fix_duplicate_blocks counted_state).inode_bitmap = counted_state.inode_bitmap) :=
  ⟨by decide, by decide, by decide,
    duplicate_pass_revokes counted_state 20 (by decide) (by decide) (by decide)⟩

/-! ## Counting slots and blocks -/

theorem countP_from_ge (p : Nat → Bool) (n c : Nat) (h : n ≤ c) :
    (List.range n).countP (fun j => decide (c ≤ j) && p j) = 0 := by
  rw [List.countP_eq_zero]
  intro j hj
  have := List.mem_range.mp hj
  have hc : ¬ c ≤ j := by omega
  simp [hc]

theorem countP_from_split (p : Nat → Bool) (n c : Nat) (h : c < n) :
    (List.range n).countP (fun j => decide (c ≤ j) && p j)
      = (if p c = true then 1 else 0)
        + (List.range n).countP (fun j => decide (c + 1 ≤ j) && p j) := by
  induction n with
  | zero => omega
  | succ n ih =>
    rw [List.range_succ, List.countP_append, List.countP_append]
    by_cases hcn : c < n
    · rw [ih hcn]
      have h1 : c ≤ n := by omega
      have h2 : c + 1 ≤ n := by omega
      simp only [List.countP_cons, List.countP_nil, h1, h2, decide_True, Bool.true_and]
      omega
    · have hcn2 : c = n := by omega
      subst hcn2
      rw [countP_from_ge p c c (le_refl _), countP_from_ge p c (c + 1) (by omega)]
      have h2 : ¬ c + 1 ≤ c := by omega
      simp only [List.countP_cons, List.countP_nil, le_refl, h2, decide_True, decide_False,
        Bool.true_and, Bool.false_and]
      by_cases hp : p c = true <;> simp [hp]

theorem countP_from_congr (p q : Nat → Bool) (n c d : Nat)
    (h : ∀ j, j < n → (decide (c ≤ j) && p j) = (decide (d ≤ j) && q j)) :
    (List.range n).countP (fun j => decide (c ≤ j) && p j)
      = (List.range n).countP (fun j => decide (d ≤ j) && q j) := by
  apply List.countP_congr
  intro j hj
  rw [h j (List.mem_range.mp hj)]

theorem free_slots_from_adopt (t : InodeTable) (c b : Nat) :
    free_slots_from (adopt t c b) (c + 1) = free_slots_from t (c + 1) := by
  unfold free_slots_from
  apply countP_from_congr
  intro j _
  by_cases hj : c + 1 ≤ j
  · have : j ≠ c := by omega
    unfold adopt
    rw [store_other _ _ _ _ this]
  · simp [hj]

theorem free_slots_from_skip (t : InodeTable) (c : Nat)
    (h : skip_live t c < TOTAL_INODES) :
    free_slots_from t c = 1 + free_slots_from t (skip_live t c + 1) := by
  have hstop := skip_live_stop t c h
  have hge := skip_live_ge t c
  have h1 : free_slots_from t c = free_slots_from t (skip_live t c) := by
    unfold free_slots_from
    apply countP_from_congr
    intro j _
    by_cases hj : skip_live t c ≤ j
    · have : c ≤ j := by omega
      simp [hj, this]
    · by_cases hcj : c ≤ j
      · have := (skip_live_skipped t c j hcj (by omega)).2
        simp [hj, this]
      · simp [hj, hcj]
  rw [h1]
  unfold free_slots_from
  rw [countP_from_split (fun j => !live (t j)) TOTAL_INODES (skip_live t c) h]
  simp [hstop]

theorem free_slots_from_exhausted (t : InodeTable) (c : Nat)
    (h : ¬ skip_live t c < TOTAL_INODES) : free_slots_from t c = 0 := by
  unfold free_slots_from
  rw [List.countP_eq_zero]
  intro j hj
  have hj80 := List.mem_range.mp hj
  by_cases hcj : c ≤ j
  · have := (skip_live_skipped t c j hcj (by omega)).2
    simp [this]
  · simp [hcj]

theorem orphan_blocks_from_split (t : InodeTable) (k : Nat)
    (h : k < TOTAL_BLOCKS - FIRST_DATA_BLOCK) :
    orphan_blocks_from t k
      = (if (find_owner t (k + FIRST_DATA_BLOCK)).isNone = true then 1 else 0)
        + orphan_blocks_from t (k + 1) := by
  unfold orphan_blocks_from
  exact countP_from_split (fun i => (find_owner t (i + FIRST_DATA_BLOCK)).isNone) _ k h

theorem kept_of_evolves_live (t u : InodeTable) (h : Evolves t u) (j : Nat)
    (hl : live (t j) = true) : u j = t j := by
  rcases h j with e | ⟨_, ha⟩
  · exact e
  · have := ha.1
    rw [hl] at this
    cases this

theorem kept_of_evolves_dead (t u : InodeTable) (h : Evolves t u) (j : Nat)
    (hd : live (u j) = false) : u j = t j := by
  rcases h j with e | ⟨_, ha⟩
  · exact e
  · have := live_of_adopted _ _ ha
    rw [hd] at this
    cases this

/-- Blocks not yet reached by the loop have a live owner now exactly when they had
one at the start. -/
theorem owned_iff_of_inv (t : InodeTable) (k : Nat) (r : Scan) (h : AdoptionInv t k r)
    (b : Nat) (hb : k + FIRST_DATA_BLOCK ≤ b) : owned r.inodes b ↔ owned t b := by
  obtain ⟨hev, hbehind, _, _, _⟩ := h
  constructor
  · rintro ⟨j, hj, hl, hdb⟩
    by_cases hlt : live (t j) = true
    · have e := kept_of_evolves_live _ _ hev j hlt
      exact ⟨j, hj, hlt, by rw [← e]; exact hdb⟩
    · have hd : live (t j) = false := by simpa using hlt
      have := (hbehind j ⟨hd, hl⟩).2
      omega
  · rintro ⟨j, hj, hl, hdb⟩
    have e := kept_of_evolves_live _ _ hev j hl
    exact ⟨j, hj, by rw [e]; exact hl, by rw [e]; exact hdb⟩

theorem orphan_blocks_from_owned (t : InodeTable) (k : Nat)
    (hk : k < TOTAL_BLOCKS - FIRST_DATA_BLOCK) (ho : owned t (k + FIRST_DATA_BLOCK)) :
    orphan_blocks_from t k = orphan_blocks_from t (k + 1) := by
  rw [orphan_blocks_from_split t k hk]
  cases hf : find_owner t (k + FIRST_DATA_BLOCK) with
  | none => exact absurd ho ((find_owner_none _ _).mp hf)
  | some j => simp

theorem orphan_blocks_from_orphan (t : InodeTable) (k : Nat)
    (hk : k < TOTAL_BLOCKS - FIRST_DATA_BLOCK) (ho : ¬ owned t (k + FIRST_DATA_BLOCK)) :
    orphan_blocks_from t k = 1 + orphan_blocks_from t (k + 1) := by
  rw [orphan_blocks_from_split t k hk, (find_owner_none _ _).mpr ho]
  simp

theorem adoption_step (t : InodeTable) (k : Nat) (r : Scan)
    (hk : k < TOTAL_BLOCKS - FIRST_DATA_BLOCK) (h : AdoptionInv t k r) :
    AdoptionInv t (k + 1) (fix_block r k) := by
  have hiff := owned_iff_of_inv t k r h (k + FIRST_DATA_BLOCK) (le_refl _)
  obtain ⟨hev, hbehind, hcount, hdone, hmono⟩ := h
  rcases fix_block_cases r k with ⟨ho, he⟩ | ⟨hno, hc, he⟩ | ⟨hno, hc, he⟩
  · rw [he]
    refine ⟨hev, ?_, ?_, ?_, hmono⟩
    · intro j hj
      have := hbehind j hj
      exact ⟨this.1, by omega⟩
    · rw [← orphan_blocks_from_owned t k hk (hiff.mp ho)]
      exact hcount
    · intro i hi horph
      by_cases hik : i = k
      · subst hik
        exact absurd (hiff.mp ho) horph
      · exact hdone i (by omega) horph
  · rw [he]
    have hstop := skip_live_stop _ _ hc
    have hge := skip_live_ge r.inodes r.inode_index
    have hsame := kept_of_evolves_dead _ _ hev _ hstop
    have hdead : live (t (skip_live r.inodes r.inode_index)) = false := by
      rw [← hsame]; exact hstop
    have hnew : ∀ j, j ≠ skip_live r.inodes r.inode_index →
        adopt r.inodes (skip_live r.inodes r.inode_index) (k + FIRST_DATA_BLOCK) j
          = r.inodes j := by
      intro j hj
      unfold adopt
      exact store_other _ _ _ _ hj
    have hat : adopt r.inodes (skip_live r.inodes r.inode_index) (k + FIRST_DATA_BLOCK)
        (skip_live r.inodes r.inode_index)
        = { t (skip_live r.inodes r.inode_index) with
            links_count := 1, dtime := 0, direct_block := k + FIRST_DATA_BLOCK } := by
      unfold adopt
      rw [store_same, hsame]
    refine ⟨evolves_trans _ _ _ hev (evolves_adopt _ _ _ hc hstop hk), ?_, ?_, ?_, ?_⟩
    · intro j hj
      simp only at hj ⊢
      by_cases hjc : j = skip_live r.inodes r.inode_index
      · subst hjc
        rw [hat]
        exact ⟨by omega, by simp only; omega⟩
      · rw [hnew j hjc]
        have := hbehind j ⟨hj.1, by rw [← hnew j hjc]; exact hj.2⟩
        exact ⟨by omega, by omega⟩
    · simp only
      rw [free_slots_from_adopt]
      have h1 := free_slots_from_skip r.inodes r.inode_index hc
      have h2 := orphan_blocks_from_orphan t k hk (fun ho => hno (hiff.mpr ho))
      omega
    · intro i hi horph
      simp only
      by_cases hik : i = k
      · subst hik
        refine ⟨skip_live r.inodes r.inode_index, hc, hdead, hat, ?_, ?_⟩
        · rw [is_bitmap_set_set_bitmap_one, if_pos rfl]
        · rw [is_bitmap_set_set_bitmap_one, if_pos rfl]
      · obtain ⟨j, hj, hjd, hrec, hb1, hb2⟩ := hdone i (by omega) horph
        have hjl : live (r.inodes j) = true := by rw [hrec]; rfl
        have hjc : j ≠ skip_live r.inodes r.inode_index := by
          intro e
          rw [e, hstop] at hjl
          cases hjl
        refine ⟨j, hj, hjd, by rw [hnew j hjc]; exact hrec,
          set_bitmap_one_keeps _ _ _ hb1, set_bitmap_one_keeps _ _ _ hb2⟩
    · intro j1 j2 h1 h2 hlt
      unfold adopted_slot at h1 h2
      simp only at h1 h2 ⊢
      by_cases e2 : j2 = skip_live r.inodes r.inode_index
      · have e1 : j1 ≠ skip_live r.inodes r.inode_index := by omega
        rw [hnew j1 e1] at h1 ⊢
        have := (hbehind j1 h1).2
        rw [e2, hat]
        simp only
        exact this
      · rw [hnew j2 e2] at h2 ⊢
        have hb2 := (hbehind j2 h2).1
        by_cases e1 : j1 = skip_live r.inodes r.inode_index
        · omega
        · rw [hnew j1 e1] at h1 ⊢
          exact hmono j1 j2 h1 h2 hlt
  · exfalso
    have h1 := free_slots_from_exhausted r.inodes r.inode_index hc
    have h2 := orphan_blocks_from_orphan t k hk (fun ho => hno (hiff.mpr ho))
    omega

theorem adoption_loop (t : InodeTable) (ib db : Bitmap)
    (h : orphan_blocks t ≤ free_slots t) (k : Nat) (hk : k ≤ TOTAL_BLOCKS - FIRST_DATA_BLOCK) :
    AdoptionInv t k ((List.range k).foldl fix_block
      { inodes := t, inode_bitmap := ib, data_bitmap := db, inode_index := 0 }) := by
  induction k with
  | zero =>
    simp only [List.range_zero, List.foldl_nil]
    refine ⟨evolves_refl _, ?_, h, ?_, ?_⟩
    · rintro j ⟨h1, h2⟩
      rw [h1] at h2
      cases h2
    · intro i hi
      omega
    · rintro j1 j2 ⟨h1, h2⟩
      rw [h1] at h2
      cases h2
  | succ k ih =>
    rw [List.range_succ, List.foldl_append]
    simp only [List.foldl_cons, List.foldl_nil]
    exact adoption_step t k _ (by omega) (ih (by omega))

theorem normalize_eq (t : InodeTable) :
    normalize t = fun j => if j < 56 then normalize_inode (t j) else t j :=
  funext (normalize_apply t)

theorem orphan_block_image_enough :
    orphan_blocks (normalize (loaded orphan_block_image).inodes)
      ≤ free_slots (normalize (loaded orphan_block_image).inodes) := by
  rw [(loaded_fields orphan_block_image).1, normalize_eq]
  decide

/-- C12.  Orphan adoption is complete and unique when slots suffice.  If after
normalization the slots holding no live inode are at least as many as the data
blocks with no live owner, then after `fix_data_bitmap` every such block `i + 8`
is the direct block of a live inode in a slot `j` that was free, with link count
1, delete time 0, inode-bitmap bit 1 and data-bitmap bit 1; no other live inode
points at the block; and a later orphan block is owned by a later slot. -/
theorem orphan_adoption_complete (s : State) (i : Nat)
    (hi : i < TOTAL_BLOCKS - FIRST_DATA_BLOCK)
    (horphan : ¬ owned (normalize s.inodes) (i + FIRST_DATA_BLOCK))
    (henough : orphan_blocks (normalize s.inodes) ≤ free_slots (normalize s.inodes)) :
    ∃ j, j < TOTAL_INODES ∧ live (normalize s.inodes j) = false ∧
      live ((fix_data_bitmap s).inodes j) = true ∧
      ((fix_data_bitmap s).inodes j).direct_block = i + FIRST_DATA_BLOCK ∧
      ((fix_data_bitmap s).inodes j).links_count = 1 ∧
      ((fix_data_bitmap s).inodes j).dtime = 0 ∧
      is_bitmap_set (fix_data_bitmap s).inode_bitmap j = 1 ∧
      is_bitmap_set (fix_data_bitmap s).data_bitmap i = 1 ∧
      (∀ j2, j2 < TOTAL_INODES → live ((fix_data_bitmap s).inodes j2) = true →
        ((fix_data_bitmap s).inodes j2).direct_block = i + FIRST_DATA_BLOCK → j2 = j) ∧
      (∀ i2 j2, i < i2 → i2 < TOTAL_BLOCKS - FIRST_DATA_BLOCK →
        j2 < TOTAL_INODES → live ((fix_data_bitmap s).inodes j2) = true →
        ((fix_data_bitmap s).inodes j2).direct_block = i2 + FIRST_DATA_BLOCK →
        ¬ owned (normalize s.inodes) (i2 + FIRST_DATA_BLOCK) → j < j2) := by
  obtain ⟨e1, e2, e3⟩ := fix_data_bitmap_eq s
  rw [e1, e2, e3]
  have hinv : AdoptionInv (normalize s.inodes) (TOTAL_BLOCKS - FIRST_DATA_BLOCK) (fix_scan s) := by
    unfold fix_scan
    exact adoption_loop _ _ _ henough _ (le_refl _)
  obtain ⟨hev, _, _, hdone, hmono⟩ := hinv
  obtain ⟨j, hj, hjd, hrec, hb1, hb2⟩ := hdone i hi horphan
  have hjl : live ((fix_scan s).inodes j) = true := by rw [hrec]; rfl
  have hjdb : ((fix_scan s).inodes j).direct_block = i + FIRST_DATA_BLOCK := by rw [hrec]
  have hadopted : ∀ i2 j2, j2 < TOTAL_INODES → live ((fix_scan s).inodes j2) = true →
      ((fix_scan s).inodes j2).direct_block = i2 + FIRST_DATA_BLOCK →
      ¬ owned (normalize s.inodes) (i2 + FIRST_DATA_BLOCK) →
      adopted_slot (normalize s.inodes) (fix_scan s).inodes j2 := by
    intro i2 j2 hj2 hl2 hd2 ho2
    refine ⟨?_, hl2⟩
    by_contra hlive
    have hlive2 : live (normalize s.inodes j2) = true := by simpa using hlive
    have e := kept_of_evolves_live _ _ hev j2 hlive2
    exact ho2 ⟨j2, hj2, hlive2, by rw [← e]; exact hd2⟩
  refine ⟨j, hj, hjd, hjl, hjdb, by rw [hrec], by rw [hrec], hb1, hb2, ?_, ?_⟩
  · intro j2 hj2 hl2 hd2
    have ha2 := hadopted i j2 hj2 hl2 hd2 horphan
    rcases Nat.lt_trichotomy j2 j with hlt | heq | hgt
    · have := hmono j2 j ha2 ⟨hjd, hjl⟩ hlt
      omega
    · exact heq
    · have := hmono j j2 ⟨hjd, hjl⟩ ha2 hgt
      omega
  · intro i2 j2 hlt hi2 hj2 hl2 hd2 ho2
    have ha2 := hadopted i2 j2 hj2 hl2 hd2 ho2
    rcases Nat.lt_trichotomy j2 j with hlt2 | heq | hgt
    · have := hmono j2 j ha2 ⟨hjd, hjl⟩ hlt2
      omega
    · rw [heq] at hd2
      omega
    · exact hgt

theorem orphan_block_loaded_unowned :
    ¬ owned (normalize (loaded orphan_block_image).inodes) (0 + FIRST_DATA_BLOCK) := by
  rw [(loaded_fields orphan_block_image).1]
  exact orphan_block_unowned

theorem orphan_adoption_complete_witness :
    0 < TOTAL_BLOCKS - FIRST_DATA_BLOCK ∧
    ¬ owned (normalize (loaded orphan_block_image).inodes) (0 + FIRST_DATA_BLOCK) ∧
    orphan_blocks (normalize (loaded orphan_block_image).inodes)
      ≤ free_slots (normalize (loaded orphan_block_image).inodes) ∧
    ∃ j, j < TOTAL_INODES ∧ live (normalize (loaded orphan_block_image).inodes j) = false ∧
      live ((fix_data_bitmap (loaded orphan_block_image)).inodes j) = true ∧
      ((fix_data_bitmap (loaded orphan_block_image)).inodes j).direct_block
        = 0 + FIRST_DATA_BLOCK ∧
      ((fix_data_bitmap (loaded orphan_block_image)).inodes j).links_count = 1 ∧
      ((fix_data_bitmap (loaded orphan_block_image)).inodes j).dtime = 0 ∧
      is_bitmap_set (fix_data_bitmap (loaded orphan_block_image)).inode_bitmap j = 1 ∧
      is_bitmap_set (fix_data_bitmap (loaded orphan_block_image)).data_bitmap 0 = 1 ∧
      (∀ j2, j2 < TOTAL_INODES →
        live ((fix_data_bitmap (loaded orphan_block_image)).inodes j2) = true →
        ((fix_data_bitmap (loaded orphan_block_image)).inodes j2).direct_block
          = 0 + FIRST_DATA_BLOCK → j2 = j) ∧
      (∀ i2 j2, 0 < i2 → i2 < TOTAL_BLOCKS - FIRST_DATA_BLOCK →
        j2 < TOTAL_INODES →
        live ((fix_data_bitmap (loaded orphan_block_image)).inodes j2) = true →
        ((fix_data_bitmap (loaded orphan_block_image)).inodes j2).direct_block
          = i2 + FIRST_DATA_BLOCK →
        ¬ owned (normalize (loaded orphan_block_image).inodes) (i2 + FIRST_DATA_BLOCK) →
        j < j2) :=
  ⟨by decide, orphan_block_loaded_unowned, orphan_block_image_enough,
    orphan_adoption_complete (loaded orphan_block_image) 0 (by decide)
      orphan_block_loaded_unowned orphan_block_image_enough⟩

/-! ## Bytes of records -/

theorem sizeof_inode_t_eq : sizeof_inode_t = 212 := by decide

theorem inode_size_eq : INODE_SIZE = 256 := rfl

theorem byte_of_lt (v b : Nat) : byte_of v b < 256 := Nat.mod_lt _ (by decide)

theorem le32_byte_of (v : Nat) :
    le32 (byte_of v 0) (byte_of v 1) (byte_of v 2) (byte_of v 3) = v % 2 ^ 32 := by
  unfold le32 byte_of
  norm_num
  omega

theorem le32_lt (b0 b1 b2 b3 : Nat) (h0 : b0 < 256) (h1 : b1 < 256) (h2 : b2 < 256)
    (h3 : b3 < 256) : le32 b0 b1 b2 b3 < 2 ^ 32 := by
  unfold le32
  norm_num
  omega

theorem byte_of_le32 (b0 b1 b2 b3 : Nat) (h0 : b0 < 256) (h1 : b1 < 256) (h2 : b2 < 256)
    (h3 : b3 < 256) :
    byte_of (le32 b0 b1 b2 b3) 0 = b0 ∧ byte_of (le32 b0 b1 b2 b3) 1 = b1 ∧
      byte_of (le32 b0 b1 b2 b3) 2 = b2 ∧ byte_of (le32 b0 b1 b2 b3) 3 = b3 := by
  unfold le32 byte_of
  norm_num
  omega

theorem inode_byte_lt (x : inode_t) (o : Nat) : inode_byte x o < 256 := by
  unfold inode_byte
  split_ifs
  · exact byte_of_lt _ _
  · exact Nat.mod_lt _ (by decide)

theorem table_bytes_lt (t : InodeTable) (p : Nat) : table_bytes t p < 256 := inode_byte_lt _ _

theorem array_bytes_lt (t : InodeTable) (p : Nat) : array_bytes t p < 256 := inode_byte_lt _ _

theorem memory_bytes_lt (t : InodeTable) (ib : Bitmap) (p : Nat) : memory_bytes t ib p < 256 := by
  unfold memory_bytes
  split_ifs
  · exact array_bytes_lt _ _
  · exact Nat.mod_lt _ (by decide)

theorem field_of_bytes (n : Nat) (B : Nat → Nat) (base f : Nat) (hf : f < 14) :
    inode_field (inode_of_bytes n B base) f = read_u32 B (base + 4 * f) := by
  interval_cases f <;> rfl

theorem byte_of_read_u32 (B : Nat → Nat) (hB : ∀ q, B q < 256) (p b : Nat) (hb : b < 4) :
    byte_of (read_u32 B p) b = B (p + b) := by
  obtain ⟨e0, e1, e2, e3⟩ := byte_of_le32 (B p) (B (p + 1)) (B (p + 2)) (B (p + 3))
    (hB _) (hB _) (hB _) (hB _)
  unfold read_u32
  interval_cases b
  · exact e0
  · exact e1
  · exact e2
  · exact e3

theorem reserved_of_bytes (n : Nat) (B : Nat → Nat) (base r : Nat) (hr : r < n) :
    (inode_of_bytes n B base).reserved.getD r 0 = B (base + 56 + r) := by
  simp [inode_of_bytes, List.getD_eq_getElem?_getD, List.getElem?_map, List.getElem?_range, hr]

/-- Reading back a byte of a record that was assembled from bytes. -/
theorem inode_byte_of_bytes (n : Nat) (B : Nat → Nat) (hB : ∀ q, B q < 256) (base o : Nat)
    (ho : o < 56 + n) : inode_byte (inode_of_bytes n B base) o = B (base + o) := by
  unfold inode_byte
  split_ifs with h
  · rw [field_of_bytes _ _ _ _ (by omega), byte_of_read_u32 B hB _ _ (Nat.mod_lt _ (by decide))]
    congr 1
    omega
  · rw [reserved_of_bytes _ _ _ _ (by omega), Nat.mod_eq_of_lt (hB _)]
    congr 1
    omega

theorem read_u32_inode_byte (x : inode_t) (f : Nat) (hf : f < 14) :
    read_u32 (inode_byte x) (4 * f) = inode_field x f % 2 ^ 32 := by
  unfold read_u32 inode_byte
  have h0 : (4 * f) / 4 = f := by omega
  have h1 : (4 * f + 1) / 4 = f := by omega
  have h2 : (4 * f + 2) / 4 = f := by omega
  have h3 : (4 * f + 3) / 4 = f := by omega
  have m0 : (4 * f) % 4 = 0 := by omega
  have m1 : (4 * f + 1) % 4 = 1 := by omega
  have m2 : (4 * f + 2) % 4 = 2 := by omega
  have m3 : (4 * f + 3) % 4 = 3 := by omega
  rw [if_pos (by omega), if_pos (by omega), if_pos (by omega), if_pos (by omega),
    h0, h1, h2, h3, m0, m1, m2, m3]
  exact le32_byte_of _

theorem read_u32_congr (B C : Nat → Nat) (p q : Nat) (h : ∀ i, i < 4 → B (p + i) = C (q + i)) :
    read_u32 B p = read_u32 C q := by
  unfold read_u32
  have h0 := h 0 (by decide)
  rw [Nat.add_zero, Nat.add_zero] at h0
  rw [h0, h 1 (by decide), h 2 (by decide), h 3 (by decide)]

theorem inode_ext (x y : inode_t) (hf : ∀ f, f < 14 → inode_field x f = inode_field y f)
    (hr : x.reserved = y.reserved) : x = y := by
  have h0 := hf 0 (by decide)
  have h1 := hf 1 (by decide)
  have h2 := hf 2 (by decide)
  have h3 := hf 3 (by decide)
  have h4 := hf 4 (by decide)
  have h5 := hf 5 (by decide)
  have h6 := hf 6 (by decide)
  have h7 := hf 7 (by decide)
  have h8 := hf 8 (by decide)
  have h9 := hf 9 (by decide)
  have h10 := hf 10 (by decide)
  have h11 := hf 11 (by decide)
  have h12 := hf 12 (by decide)
  have h13 := hf 13 (by decide)
  cases x
  cases y
  simp only [inode_field] at h0 h1 h2 h3 h4 h5 h6 h7 h8 h9 h10 h11 h12 h13
  simp only at hr
  simp only [inode_t.mk.injEq]
  exact ⟨h0, h1, h2, h3, h4, h5, h6, h7, h8, h9, h10, h11, h12, h13, hr⟩

/-- A well-formed record is recovered from its bytes. -/
theorem inode_of_bytes_of_record (n : Nat) (B : Nat → Nat) (base : Nat) (x : inode_t)
    (h : ∀ o, o < 56 + n → B (base + o) = inode_byte x o) (hx : WellFormed n x) :
    inode_of_bytes n B base = x := by
  obtain ⟨hf, hl, hb⟩ := hx
  apply inode_ext
  · intro f hf14
    rw [field_of_bytes _ _ _ _ hf14]
    have e : read_u32 B (base + 4 * f) = read_u32 (inode_byte x) (4 * f) := by
      apply read_u32_congr
      intro i hi
      have := h (4 * f + i) (by omega)
      rw [Nat.add_assoc]
      exact this
    rw [e, read_u32_inode_byte _ _ hf14, Nat.mod_eq_of_lt (hf f)]
  · apply List.ext_getElem
    · simp [inode_of_bytes, hl]
    · intro r h1 h2
      have hr : r < n := by rw [← hl]; exact h2
      simp only [inode_of_bytes, List.getElem_map, List.getElem_range]
      rw [Nat.add_assoc, h (56 + r) (by omega)]
      unfold inode_byte
      rw [if_neg (by omega)]
      have e : 56 + r - 56 = r := by omega
      rw [e, List.getD_eq_getElem _ _ h2]
      exact Nat.mod_eq_of_lt (hb _ (List.getElem_mem h2))

theorem wellFormed_of_bytes (n : Nat) (B : Nat → Nat) (hB : ∀ q, B q < 256) (base : Nat) :
    WellFormed n (inode_of_bytes n B base) := by
  refine ⟨?_, ?_, ?_⟩
  · intro f
    by_cases hf : f < 14
    · rw [field_of_bytes _ _ _ _ hf]
      exact le32_lt _ _ _ _ (hB _) (hB _) (hB _) (hB _)
    · have e : inode_field (inode_of_bytes n B base) f = 0 := by
        unfold inode_field
        split <;> omega
      rw [e]
      decide
  · simp [inode_of_bytes]
  · intro b hb
    simp only [inode_of_bytes, List.mem_map] at hb
    obtain ⟨r, _, rfl⟩ := hb
    exact hB _

/-! ## The passes between load and store -/

theorem check_from_slot (t : InodeTable) (ib db : Bitmap) (j : Nat) :
    KeptOrAdopted (normalize_slot j (t j)) ((check_from t ib db).inodes j) := by
  have h := check_loop_evolves_at (normalize t) ib db 0 j
  rw [normalize_apply] at h
  unfold check_from normalize_slot
  rcases h with h | ⟨_, h⟩
  · exact Or.inl h
  · exact Or.inr h

theorem fix_from_slot (t : InodeTable) (ib db : Bitmap) (j : Nat) :
    KeptOrAdopted (normalize_slot j ((check_from t ib db).inodes j))
      ((fix_from t ib db).inodes j) := by
  have h := fix_loop_evolves_at (normalize (check_from t ib db).inodes)
    (check_from t ib db).inode_bitmap (check_from t ib db).data_bitmap 0 j
  rw [normalize_apply] at h
  unfold fix_from normalize_slot
  rcases h with h | ⟨_, h⟩
  · exact Or.inl h
  · exact Or.inr h

theorem final_from_slot (t : InodeTable) (ib db : Bitmap) (j : Nat) :
    final_from t ib db j =
      if j < TOTAL_INODES then bad_block_inode ((fix_from t ib db).inodes j)
      else (fix_from t ib db).inodes j := by
  unfold final_from
  rw [bad_blocks_apply]

theorem check_from_bitmaps (t : InodeTable) (ib db : Bitmap) :
    (check_from t ib db).inode_bitmap = ib ∧ (check_from t ib db).data_bitmap = db := by
  unfold check_from
  exact check_loop_bitmaps_at _ _ _ _

/-- On a stable table the passes between load and store change nothing. -/
theorem final_from_of_stable (t : InodeTable) (ib db : Bitmap) (h : Stable t) :
    (fix_from t ib db).inode_bitmap = ib ∧ (fix_from t ib db).data_bitmap = db ∧
      final_from t ib db = t := by
  obtain ⟨hn, hq, hs⟩ := h
  have hc : (check_from t ib db).inodes = t := by
    unfold check_from
    rw [normalize_of_normal _ hn]
    exact check_loop_quiet_at _ _ _ _ hq
  obtain ⟨hb1, hb2⟩ := check_from_bitmaps t ib db
  have hf : (fix_from t ib db).inodes = t ∧ (fix_from t ib db).inode_bitmap = ib ∧
      (fix_from t ib db).data_bitmap = db := by
    unfold fix_from
    rw [hc, normalize_of_normal _ hn, hb1, hb2]
    exact fix_loop_quiet_at _ _ _ _ hq
  refine ⟨hf.2.1, hf.2.2, ?_⟩
  unfold final_from
  rw [hf.1, bad_blocks_of_small _ hs]

/-- The table left in memory by the passes is stable. -/
theorem final_from_stable (t : InodeTable) (ib db : Bitmap) : Stable (final_from t ib db) := by
  have hev : Evolves (normalize (check_from t ib db).inodes) (fix_from t ib db).inodes := by
    unfold fix_from
    exact fix_loop_evolves_at _ _ _ _
  have hq : Quiet (fix_from t ib db).inodes := by
    unfold fix_from
    exact fix_loop_result_quiet_at _ _ _
  unfold final_from
  refine ⟨?_, quiet_bad_blocks _ hq, ?_⟩
  · intro j hj
    rw [bad_blocks_apply, if_pos (by rw [total_inodes_eq]; omega)]
    apply normal_bad_block_inode
    rcases hev j with h | ⟨_, h⟩
    · rw [h, normalize_apply, if_pos hj]
      exact normal_normalize_inode _
    · exact normal_of_adopted _ _ h
  · intro j hj
    rw [bad_blocks_apply, if_pos hj]
    exact bad_block_inode_small _

/-- The passes change no field of a slot but `links_count`, `dtime` and
`direct_block`. -/
theorem sameFrame_final_from (t : InodeTable) (ib db : Bitmap) (j : Nat) :
    SameFrame (t j) (final_from t ib db j) := by
  have h1 := sameFrame_normalize_slot j (t j)
  have h2 := sameFrame_keptOrAdopted _ _ (check_from_slot t ib db j)
  have h3 := sameFrame_normalize_slot j ((check_from t ib db).inodes j)
  have h4 := sameFrame_keptOrAdopted _ _ (fix_from_slot t ib db j)
  have h := sameFrame_trans _ _ _ (sameFrame_trans _ _ _ (sameFrame_trans _ _ _ h1 h2) h3) h4
  rw [final_from_slot]
  split_ifs
  · exact sameFrame_trans _ _ _ h (sameFrame_bad_block_inode _)
  · exact h

/-- A live slot that normalization does not reach, or whose pointer is a data
block, leaves the passes as it entered them. -/
theorem final_from_keeps_live (t : InodeTable) (ib db : Bitmap) (j : Nat)
    (hl : live (t j) = true)
    (h : 56 ≤ j ∨ (FIRST_DATA_BLOCK ≤ (t j).direct_block ∧ (t j).direct_block < TOTAL_BLOCKS))
    (hs : to_int32 (t j).direct_block < (TOTAL_BLOCKS : Int)) :
    (check_from t ib db).inodes j = t j ∧ (fix_from t ib db).inodes j = t j ∧
      final_from t ib db j = t j := by
  have h2 := check_from_slot t ib db j
  rw [normalize_slot_of_valid _ _ h] at h2
  have e2 := keptOrAdopted_of_live _ _ hl h2
  have h4 := fix_from_slot t ib db j
  rw [e2, normalize_slot_of_valid _ _ h] at h4
  have e4 := keptOrAdopted_of_live _ _ hl h4
  refine ⟨e2, e4, ?_⟩
  rw [final_from_slot, e4]
  split_ifs
  · exact bad_block_inode_of_small _ hs
  · rfl

theorem keptOrAdopted_outside (j : Nat) (hj : TOTAL_INODES ≤ j) (t u : InodeTable)
    (h : Evolves t u) : u j = t j := by
  rcases h j with h | ⟨h, _⟩
  · exact h
  · omega

/-- Beyond the array nothing is written. -/
theorem final_from_outside (t : InodeTable) (ib db : Bitmap) (j : Nat) (hj : TOTAL_INODES ≤ j) :
    final_from t ib db j = t j := by
  have hj56 : ¬ j < 56 := by rw [total_inodes_eq] at hj; omega
  have h1 : (check_from t ib db).inodes j = t j := by
    have h := check_loop_evolves_at (normalize t) ib db 0
    have := keptOrAdopted_outside j hj _ _ h
    rw [normalize_apply, if_neg hj56] at this
    unfold check_from
    exact this
  have h2 : (fix_from t ib db).inodes j = t j := by
    have h := fix_loop_evolves_at (normalize (check_from t ib db).inodes)
      (check_from t ib db).inode_bitmap (check_from t ib db).data_bitmap 0
    have := keptOrAdopted_outside j hj _ _ h
    rw [normalize_apply, if_neg hj56, h1] at this
    unfold fix_from
    exact this
  rw [final_from_slot, if_neg (by omega), h2]

/-! ### Well-formed records stay well-formed -/

theorem inode_field_outside (x : inode_t) (f : Nat) (hf : ¬ f < 14) : inode_field x f = 0 := by
  unfold inode_field
  split <;> omega

theorem wellFormed_of_fields (n : Nat) (x y : inode_t) (hx : WellFormed n x) (hf : SameFrame x y)
    (h1 : y.links_count < 2 ^ 32) (h2 : y.dtime < 2 ^ 32) (h3 : y.direct_block < 2 ^ 32) :
    WellFormed n y := by
  obtain ⟨a1, a2, a3, a4, a5, a6, a7, a8, a9, a10, a11, a12⟩ := hf
  obtain ⟨hx1, hx2, hx3⟩ := hx
  refine ⟨?_, by rw [a12]; exact hx2, by rw [a12]; exact hx3⟩
  intro f
  have hxf := hx1 f
  by_cases hf : f < 14
  · interval_cases f <;> simp only [inode_field] at hxf ⊢ <;> first
      | exact h1 | exact h2 | exact h3
      | (simp only [a1, a2, a3, a4, a5, a6, a7, a8, a9, a10, a11]; exact hxf)
  · rw [inode_field_outside _ _ hf]
    decide

theorem wellFormed_normalize_slot (n j : Nat) (x : inode_t) (hx : WellFormed n x) :
    WellFormed n (normalize_slot j x) := by
  have h8 := hx.1 8
  have h7 := hx.1 7
  have h10 := hx.1 10
  simp only [inode_field] at h8 h7 h10
  apply wellFormed_of_fields n x _ hx (sameFrame_normalize_slot j x)
  · unfold normalize_slot normalize_inode
    split_ifs
    · show 0 < 2 ^ 32; decide
    · exact h8
    · exact h8
  · unfold normalize_slot normalize_inode
    split_ifs
    · show 1 < 2 ^ 32; decide
    · exact h7
    · exact h7
  · rw [pointer_normalize_slot]
    exact h10

theorem wellFormed_keptOrAdopted (n : Nat) (x y : inode_t) (hx : WellFormed n x)
    (h : KeptOrAdopted x y) : WellFormed n y := by
  rcases h with h | ⟨_, b, _, hb, h⟩
  · rw [h]; exact hx
  · apply wellFormed_of_fields n x _ hx (sameFrame_keptOrAdopted _ _ (Or.inr ⟨by assumption, b, by assumption, hb, h⟩))
    · rw [h]; show 1 < 2 ^ 32; decide
    · rw [h]; show 0 < 2 ^ 32; decide
    · rw [h]
      simp only
      unfold TOTAL_BLOCKS at hb
      omega

theorem wellFormed_bad_block_inode (n : Nat) (x : inode_t) (hx : WellFormed n x) :
    WellFormed n (bad_block_inode x) := by
  have h8 := hx.1 8
  have h7 := hx.1 7
  have h10 := hx.1 10
  simp only [inode_field] at h8 h7 h10
  apply wellFormed_of_fields n x _ hx (sameFrame_bad_block_inode x)
  · unfold bad_block_inode
    split_ifs <;> exact h8
  · unfold bad_block_inode
    split_ifs <;> exact h7
  · unfold bad_block_inode
    split_ifs
    · show 0 < 2 ^ 32; decide
    · exact h10

/-- The passes keep every slot the content of its bytes. -/
theorem wellFormed_final_from (n : Nat) (t : InodeTable) (ib db : Bitmap) (j : Nat)
    (h : WellFormed n (t j)) : WellFormed n (final_from t ib db j) := by
  have h1 := wellFormed_normalize_slot n j _ h
  have h2 := wellFormed_keptOrAdopted n _ _ h1 (check_from_slot t ib db j)
  have h3 := wellFormed_normalize_slot n j _ h2
  have h4 := wellFormed_keptOrAdopted n _ _ h3 (fix_from_slot t ib db j)
  rw [final_from_slot]
  split_ifs
  · exact wellFormed_bad_block_inode n _ h4
  · exact h4

/-! ### Bytes of the inode bitmap -/

theorem set_bitmap_one_lt (bm : Bitmap) (k i : Nat) (h : bm i < 256) :
    set_bitmap bm k 1 i < 256 := by
  unfold set_bitmap
  rw [if_pos (by decide)]
  unfold store
  split_ifs with hi
  · have h1 : 1 <<< (k % 8) < 2 ^ 8 := by
      rw [Nat.one_shiftLeft]
      exact Nat.pow_lt_pow_right (by decide) (Nat.mod_lt _ (by decide))
    rw [hi] at h
    exact Nat.or_lt_two_pow h h1
  · exact h

theorem set_bitmap_beyond (bm : Bitmap) (k v i : Nat) (hk : k < TOTAL_INODES) (hi : 10 ≤ i) :
    set_bitmap bm k v i = bm i := by
  have hne : i ≠ k / 8 := by rw [total_inodes_eq] at hk; omega
  unfold set_bitmap
  split_ifs <;> exact store_other _ _ _ _ hne

theorem fix_block_bytes (s : Scan) (i : Nat) :
    (∀ k, 10 ≤ k → (fix_block s i).inode_bitmap k = s.inode_bitmap k) ∧
    (∀ k, s.inode_bitmap k < 256 → (fix_block s i).inode_bitmap k < 256) := by
  rcases fix_block_cases s i with ⟨_, h⟩ | ⟨_, hc, h⟩ | ⟨_, _, h⟩
  · rw [h]; exact ⟨fun _ _ => rfl, fun _ hk => hk⟩
  · rw [h]
    exact ⟨fun k hk => set_bitmap_beyond s.inode_bitmap _ 1 k hc hk,
      fun k hb => set_bitmap_one_lt s.inode_bitmap _ k hb⟩
  · rw [h]; exact ⟨fun _ _ => rfl, fun _ hk => hk⟩

theorem fix_loop_bytes (l : List Nat) (s : Scan) :
    (∀ k, 10 ≤ k → (l.foldl fix_block s).inode_bitmap k = s.inode_bitmap k) ∧
    (∀ k, s.inode_bitmap k < 256 → (l.foldl fix_block s).inode_bitmap k < 256) := by
  apply foldl_invariant
    (fun r => (∀ k, 10 ≤ k → r.inode_bitmap k = s.inode_bitmap k) ∧
      (∀ k, s.inode_bitmap k < 256 → r.inode_bitmap k < 256)) fix_block l
  · intro r i _ hr
    obtain ⟨h1, h2⟩ := fix_block_bytes r i
    exact ⟨fun k hk => (h1 k hk).trans (hr.1 k hk), fun k hb => h2 k (hr.2 k hb)⟩
  · exact ⟨fun _ _ => rfl, fun _ hb => hb⟩

theorem fix_loop_bytes_at (t : InodeTable) (ib db : Bitmap) (c : Nat) :
    (∀ k, 10 ≤ k → ((List.range (TOTAL_BLOCKS - FIRST_DATA_BLOCK)).foldl fix_block
      { inodes := t, inode_bitmap := ib, data_bitmap := db, inode_index := c }).inode_bitmap k
        = ib k) ∧
    (∀ k, ib k < 256 → ((List.range (TOTAL_BLOCKS - FIRST_DATA_BLOCK)).foldl fix_block
      { inodes := t, inode_bitmap := ib, data_bitmap := db, inode_index := c }).inode_bitmap k
        < 256) :=
  fix_loop_bytes _ { inodes := t, inode_bitmap := ib, data_bitmap := db, inode_index := c }

/-- The block loop of `fix_data_bitmap` writes only the first ten bytes of the
inode bitmap and keeps every byte a byte. -/
theorem fix_from_bytes (t : InodeTable) (ib db : Bitmap) :
    (∀ k, 10 ≤ k → (fix_from t ib db).inode_bitmap k = ib k) ∧
    (∀ k, ib k < 256 → (fix_from t ib db).inode_bitmap k < 256) := by
  obtain ⟨hb, _⟩ := check_from_bitmaps t ib db
  have h := fix_loop_bytes_at (normalize (check_from t ib db).inodes)
    (check_from t ib db).inode_bitmap (check_from t ib db).data_bitmap 0
  rw [hb] at h
  unfold fix_from
  rw [hb]
  exact h

/-- The inode bitmap after the block loop of `fix_data_bitmap`, bit by bit. -/
theorem fix_from_bits (t : InodeTable) (ib db : Bitmap) (k : Nat) :
    is_bitmap_set (fix_from t ib db).inode_bitmap k =
      if k < TOTAL_INODES ∧ live (normalize (check_from t ib db).inodes k) = false ∧
        live ((fix_from t ib db).inodes k) = true then 1
      else is_bitmap_set ib k := by
  obtain ⟨hb, _⟩ := check_from_bitmaps t ib db
  have h := (fix_loop_bitmapInv (normalize (check_from t ib db).inodes)
    (check_from t ib db).inode_bitmap (check_from t ib db).data_bitmap 0).2 k
  rw [hb] at h
  unfold fix_from
  rw [hb]
  exact h

/-- The passes clear no bit of the data bitmap. -/
theorem fix_from_keeps_data_bits (t : InodeTable) (ib db : Bitmap) (k : Nat)
    (h : is_bitmap_set db k = 1) : is_bitmap_set (fix_from t ib db).data_bitmap k = 1 := by
  obtain ⟨_, hb⟩ := check_from_bitmaps t ib db
  have := (fix_loop_keeps_bits_at (normalize (check_from t ib db).inodes)
    (check_from t ib db).inode_bitmap (check_from t ib db).data_bitmap 0).2 k
  rw [hb] at this
  unfold fix_from
  rw [hb]
  exact this h

/-! ## The run, from load to store -/

theorem memory_inodes_eq (img : Disk) (k : Nat) :
    memory_inodes img k =
      if k < TOTAL_INODES then
        inode_of_bytes (sizeof_inode_t - 56) (table_bytes img.inodes) (k * sizeof_inode_t)
      else zero_inode := rfl

theorem memory_bitmap_eq (img : Disk) (i : Nat) :
    memory_bitmap img i =
      if i < read_inodes_bytes - TOTAL_INODES * sizeof_inode_t then
        table_bytes img.inodes (TOTAL_INODES * sizeof_inode_t + i)
      else img.inode_bitmap i := rfl

/-- The globals when `main` enters `check_data_bitmap`. -/
theorem main_upto_four (img : Disk) :
    main_upto 4 img =
      { sb := fix_superblock img.sb, inodes := memory_inodes img,
        inode_bitmap := memory_bitmap img, data_bitmap := img.data_bitmap,
        block_usage_count := fun _ => 0, fp := { img with sb := fix_superblock img.sb } } := by
  simp only [main_upto, main_steps, List.take_succ_cons, List.take_zero, List.foldl_cons,
    List.foldl_nil, memory_inodes, memory_bitmap, read_inodes, read_bitmaps,
    validate_superblock, write_superblock, read_superblock, fopen]

theorem main_upto_steps (img : Disk) :
    main_upto 5 img = check_data_bitmap (main_upto 4 img) ∧
    main_upto 9 img = check_and_fix_bad_blocks (check_and_fix_duplicate_blocks
      (fix_data_bitmap (check_and_fix_inode_bitmap (main_upto 5 img)))) ∧
    main img = write_inodes (write_bitmaps (main_upto 9 img)) := by
  simp only [main, main_upto, main_steps, List.length_cons, List.length_nil, List.take_succ_cons,
    List.take_zero, List.foldl_cons, List.foldl_nil, Nat.reduceAdd, and_self]

/-- The globals when `check_data_bitmap` returns to `main`. -/
theorem main_upto_five (img : Disk) :
    main_upto 5 img =
      { sb := fix_superblock img.sb, inodes := (check_result img).inodes,
        inode_bitmap := (check_result img).inode_bitmap,
        data_bitmap := (check_result img).data_bitmap,
        block_usage_count := fun _ => 0, fp := { img with sb := fix_superblock img.sb } } := by
  rw [(main_upto_steps img).1, main_upto_four]
  simp only [check_data_bitmap, scan_finish, scan_start, check_result, check_from]

/-- The globals when `main` reaches `write_bitmaps`. -/
theorem main_upto_nine (img : Disk) :
    main_upto 9 img =
      { sb := fix_superblock img.sb, inodes := final_inodes img,
        inode_bitmap := (fix_result img).inode_bitmap,
        data_bitmap := (fix_result img).data_bitmap,
        block_usage_count := fun _ => 0,
        fp := { img with
          sb := fix_superblock img.sb
          inode_bitmap :=
            (List.range INODE_COUNT).foldl (inode_bitmap_step img.inodes) img.inode_bitmap } } := by
  rw [(main_upto_steps img).2.1, main_upto_five]
  have hc : ∀ i, (fix_data_bitmap (check_and_fix_inode_bitmap
      { sb := fix_superblock img.sb, inodes := (check_result img).inodes,
        inode_bitmap := (check_result img).inode_bitmap,
        data_bitmap := (check_result img).data_bitmap,
        block_usage_count := fun _ => 0,
        fp := { img with sb := fix_superblock img.sb } })).block_usage_count i ≤ 1 := by
    intro i
    simp only [fix_data_bitmap, scan_finish, check_and_fix_inode_bitmap]
    decide
  rw [duplicate_blocks_idle _ hc]
  simp only [check_and_fix_bad_blocks, fix_data_bitmap, scan_finish, scan_start,
    check_and_fix_inode_bitmap, fix_result, fix_from, final_inodes, final_from, check_result]

/-- The image left by the two final writes. -/
theorem write_back (s : State) :
    (write_inodes (write_bitmaps s)).fp =
      { sb := s.fp.sb
        inode_bitmap := s.inode_bitmap
        data_bitmap := s.data_bitmap
        inodes := fun j =>
          if j < TOTAL_INODES then
            inode_of_bytes (INODE_SIZE - 56) (memory_bytes s.inodes s.inode_bitmap) (j * INODE_SIZE)
          else s.fp.inodes j } := rfl

/-- The image written by a run, pass by pass. -/
theorem run_eq (img : Disk) :
    run img =
      { sb := fix_superblock img.sb
        inode_bitmap := (fix_result img).inode_bitmap
        data_bitmap := (fix_result img).data_bitmap
        inodes := fun j =>
          if j < TOTAL_INODES then
            inode_of_bytes (INODE_SIZE - 56)
              (memory_bytes (final_inodes img) (fix_result img).inode_bitmap) (j * INODE_SIZE)
          else img.inodes j } := by
  rw [run, (main_upto_steps img).2.2, main_upto_nine]
  rw [write_back]

/-! ## Store and load again -/

theorem read_inodes_bytes_eq : read_inodes_bytes = 20480 := rfl

theorem wellFormed_memory_inodes (img : Disk) (k : Nat) (hk : k < TOTAL_INODES) :
    WellFormed (sizeof_inode_t - 56) (memory_inodes img k) := by
  rw [memory_inodes_eq, if_pos hk]
  exact wellFormed_of_bytes _ _ (table_bytes_lt _) _

theorem wellFormed_final_inodes (img : Disk) (k : Nat) (hk : k < TOTAL_INODES) :
    WellFormed (sizeof_inode_t - 56) (final_inodes img k) :=
  wellFormed_final_from _ _ _ _ _ (wellFormed_memory_inodes img k hk)

theorem memory_bitmap_lt (img : Disk) (i : Nat)
    (hi : i < read_inodes_bytes - TOTAL_INODES * sizeof_inode_t) : memory_bitmap img i < 256 := by
  rw [memory_bitmap_eq, if_pos hi]
  exact table_bytes_lt _ _

theorem fix_result_bytes (img : Disk) :
    (∀ k, 10 ≤ k → (fix_result img).inode_bitmap k = memory_bitmap img k) ∧
    (∀ k, memory_bitmap img k < 256 → (fix_result img).inode_bitmap k < 256) := by
  unfold fix_result
  exact fix_from_bytes _ _ _

/-- The table written by a run holds, byte for byte, the memory from the start
of `inodes[]` on. -/
theorem table_bytes_run (img : Disk) (p : Nat) (hp : p < read_inodes_bytes) :
    table_bytes (run img).inodes p
      = memory_bytes (final_inodes img) (fix_result img).inode_bitmap p := by
  rw [read_inodes_bytes_eq] at hp
  rw [run_eq]
  unfold table_bytes
  simp only
  rw [inode_size_eq, if_pos (by rw [total_inodes_eq]; omega),
    inode_byte_of_bytes _ _ (memory_bytes_lt _ _) _ _ (by omega)]
  congr 1
  omega

/-- A second load finds in `inodes[]` what the first run left there. -/
theorem memory_inodes_run (img : Disk) : memory_inodes (run img) = final_inodes img := by
  funext k
  rw [memory_inodes_eq]
  split_ifs with hk
  · have hk80 : k < 80 := hk
    apply inode_of_bytes_of_record _ _ _ _ _ (wellFormed_final_inodes img k hk)
    intro o ho
    rw [sizeof_inode_t_eq] at ho ⊢
    rw [table_bytes_run _ _ (by rw [read_inodes_bytes_eq]; omega)]
    unfold memory_bytes
    rw [if_pos (by rw [total_inodes_eq, sizeof_inode_t_eq]; omega)]
    unfold array_bytes
    rw [sizeof_inode_t_eq]
    have e1 : (k * 212 + o) / 212 = k := by omega
    have e2 : (k * 212 + o) % 212 = o := by omega
    rw [e1, e2]
  · have h := final_from_outside (memory_inodes img) (memory_bitmap img) img.data_bitmap k
      (by omega)
    rw [memory_inodes_eq, if_neg hk] at h
    exact h.symm

/-- A second load finds in `inode_bitmap[]` what the first run left there. -/
theorem memory_bitmap_run (img : Disk) :
    memory_bitmap (run img) = (fix_result img).inode_bitmap := by
  funext i
  rw [memory_bitmap_eq]
  split_ifs with hi
  · have hlt := (fix_result_bytes img).2 i (memory_bitmap_lt img i hi)
    rw [read_inodes_bytes_eq, total_inodes_eq, sizeof_inode_t_eq] at hi
    rw [table_bytes_run _ _ (by rw [read_inodes_bytes_eq, total_inodes_eq, sizeof_inode_t_eq]; omega)]
    unfold memory_bytes
    rw [total_inodes_eq, sizeof_inode_t_eq, if_neg (by omega)]
    have e : 80 * 212 + i - 80 * 212 = i := by omega
    rw [e]
    exact Nat.mod_eq_of_lt hlt
  · rw [run_eq]

theorem run_fields (img : Disk) :
    (run img).sb = fix_superblock img.sb ∧
    (run img).inode_bitmap = (fix_result img).inode_bitmap ∧
    (run img).data_bitmap = (fix_result img).data_bitmap := by
  rw [run_eq]
  simp only [and_self]

theorem run_record (img : Disk) (j : Nat) :
    (run img).inodes j =
      if j < TOTAL_INODES then
        inode_of_bytes (INODE_SIZE - 56)
          (memory_bytes (final_inodes img) (fix_result img).inode_bitmap) (j * INODE_SIZE)
      else img.inodes j := by
  rw [run_eq]

/-- In a second run the passes between load and store change nothing. -/
theorem second_run (img : Disk) :
    (fix_result (run img)).inode_bitmap = (fix_result img).inode_bitmap ∧
    (fix_result (run img)).data_bitmap = (fix_result img).data_bitmap ∧
    final_inodes (run img) = final_inodes img := by
  have hs : Stable (final_inodes img) := final_from_stable _ _ _
  have h := final_from_of_stable (final_inodes img) (fix_result img).inode_bitmap
    (fix_result img).data_bitmap hs
  unfold fix_result final_inodes at h ⊢
  rw [memory_inodes_run, memory_bitmap_run, (run_fields img).2.2]
  unfold fix_result final_inodes
  exact h

/-- C6.  The run is idempotent on the image: a second run on the image written by
the first one writes back the same superblock, inode bitmap, data bitmap and
inode table.  The second load puts back into `inodes[]` and `inode_bitmap[]` the
bytes the first run stored from there, and on that table, which is stable, the
passes change nothing. -/
theorem run_idempotent (img : Disk) : run (run img) = run img := by
  obtain ⟨h1, h2, h3⟩ := second_run img
  obtain ⟨e1, e2, e3⟩ := run_fields img
  have hi : (run (run img)).inodes = (run img).inodes := by
    funext j
    rw [run_record (run img), h1, h3, run_record img]
    split_ifs
    · rfl
    · rfl
  have hsb : (run (run img)).sb = (run img).sb := by
    rw [(run_fields (run img)).1, e1, fix_superblock_idem]
  have hib : (run (run img)).inode_bitmap = (run img).inode_bitmap := by
    rw [(run_fields (run img)).2.1, h1, e2]
  have hdb : (run (run img)).data_bitmap = (run img).data_bitmap := by
    rw [(run_fields (run img)).2.2, h2, e3]
  cases hr : run (run img)
  cases hr2 : run img
  rw [hr, hr2] at hi hsb hib hdb
  simp only at hi hsb hib hdb
  rw [hi, hsb, hib, hdb]

/-! ## Which bytes of the table a run can change -/

theorem sameFrame_field (x y : inode_t) (h : SameFrame x y) (f : Nat)
    (hf : f ≠ 7 ∧ f ≠ 8 ∧ f ≠ 10) : inode_field y f = inode_field x f := by
  obtain ⟨a1, a2, a3, a4, a5, a6, a7, a8, a9, a10, a11, _⟩ := h
  by_cases h14 : f < 14
  · interval_cases f <;> simp only [inode_field] <;> first
      | assumption | (exfalso; omega)
  · rw [inode_field_outside _ _ h14, inode_field_outside _ _ h14]

theorem sameFrame_byte (x y : inode_t) (h : SameFrame x y) (o : Nat)
    (ho : o / 4 ≠ 7 ∧ o / 4 ≠ 8 ∧ o / 4 ≠ 10) : inode_byte y o = inode_byte x o := by
  unfold inode_byte
  rw [sameFrame_field x y h _ ho, h.2.2.2.2.2.2.2.2.2.2.2]

theorem memory_inodes_byte (img : Disk) (k o : Nat) (hk : k < TOTAL_INODES)
    (ho : o < sizeof_inode_t) :
    inode_byte (memory_inodes img k) o = table_bytes img.inodes (k * sizeof_inode_t + o) := by
  rw [memory_inodes_eq, if_pos hk]
  rw [sizeof_inode_t_eq] at ho
  exact inode_byte_of_bytes _ _ (table_bytes_lt _) _ _ (by rw [sizeof_inode_t_eq]; omega)

/-- A byte of the array outside the `dtime`, `links_count` and `direct_block`
members of its slot is stored as it was loaded. -/
theorem memory_bytes_frame (img : Disk) (ib : Bitmap) (p : Nat)
    (hp : p < TOTAL_INODES * sizeof_inode_t)
    (hf : p % sizeof_inode_t / 4 ≠ 7 ∧ p % sizeof_inode_t / 4 ≠ 8 ∧ p % sizeof_inode_t / 4 ≠ 10) :
    memory_bytes (final_inodes img) ib p = table_bytes img.inodes p := by
  have hk : p / sizeof_inode_t < TOTAL_INODES := by
    rw [total_inodes_eq, sizeof_inode_t_eq] at *
    omega
  have ho : p % sizeof_inode_t < sizeof_inode_t := by
    rw [sizeof_inode_t_eq]
    omega
  unfold memory_bytes array_bytes
  rw [if_pos hp]
  have hs := sameFrame_final_from (memory_inodes img) (memory_bitmap img) img.data_bitmap
    (p / sizeof_inode_t)
  unfold final_inodes
  rw [sameFrame_byte _ _ hs _ hf, memory_inodes_byte _ _ _ hk ho, Nat.div_add_mod']

/-- A byte of `inode_bitmap[]` beyond the first ten is stored as it was loaded. -/
theorem memory_bytes_tail (img : Disk) (t : InodeTable) (p : Nat)
    (hp1 : TOTAL_INODES * sizeof_inode_t + 10 ≤ p) (hp2 : p < read_inodes_bytes) :
    memory_bytes t (fix_result img).inode_bitmap p = table_bytes img.inodes p := by
  rw [total_inodes_eq, sizeof_inode_t_eq] at hp1
  rw [read_inodes_bytes_eq] at hp2
  unfold memory_bytes
  rw [total_inodes_eq, sizeof_inode_t_eq, if_neg (by omega),
    (fix_result_bytes img).1 _ (by omega), memory_bitmap_eq,
    if_pos (by rw [read_inodes_bytes_eq, total_inodes_eq, sizeof_inode_t_eq]; omega),
    total_inodes_eq, sizeof_inode_t_eq]
  have e : 80 * 212 + (p - 80 * 212) = p := by omega
  rw [e]
  exact Nat.mod_eq_of_lt (table_bytes_lt _ _)

/-- A 4-byte member of a slot, as stored. -/
theorem read_u32_memory (t : InodeTable) (ib : Bitmap) (k f : Nat) (hk : k < TOTAL_INODES)
    (hf : f < 14) :
    read_u32 (memory_bytes t ib) (k * sizeof_inode_t + 4 * f) = inode_field (t k) f % 2 ^ 32 := by
  rw [← read_u32_inode_byte _ _ hf]
  apply read_u32_congr
  intro i hi
  rw [total_inodes_eq] at hk
  unfold memory_bytes array_bytes
  rw [sizeof_inode_t_eq, total_inodes_eq, if_pos (by omega)]
  have e1 : (k * 212 + 4 * f + i) / 212 = k := by omega
  have e2 : (k * 212 + 4 * f + i) % 212 = 4 * f + i := by omega
  rw [e1, e2]

/-- A 4-byte field of a record of the table. -/
theorem read_u32_table (t : InodeTable) (j g : Nat) (hg : g < 14) :
    read_u32 (table_bytes t) (j * INODE_SIZE + 4 * g) = inode_field (t j) g % 2 ^ 32 := by
  rw [← read_u32_inode_byte _ _ hg]
  apply read_u32_congr
  intro i hi
  unfold table_bytes
  rw [inode_size_eq]
  have e1 : (j * 256 + 4 * g + i) / 256 = j := by omega
  have e2 : (j * 256 + 4 * g + i) % 256 = 4 * g + i := by omega
  rw [e1, e2]

/-- A field of a record written by a run, as 4 bytes of memory. -/
theorem run_field (img : Disk) (j g : Nat) (hj : j < TOTAL_INODES) (hg : g < 14) :
    inode_field ((run img).inodes j) g =
      read_u32 (memory_bytes (final_inodes img) (fix_result img).inode_bitmap)
        (j * INODE_SIZE + 4 * g) := by
  rw [run_record, if_pos hj, field_of_bytes _ _ _ _ hg]

/-- A field of a written record whose four bytes the passes cannot reach is the
field of the record that was there before. -/
theorem run_field_frame (img : Disk) (j g : Nat) (hj : j < TOTAL_INODES) (hg : g < 14)
    (h : ∀ i, i < 4 →
      (j * 256 + 4 * g + i < 16960 ∧ (j * 256 + 4 * g + i) % 212 / 4 ≠ 7 ∧
        (j * 256 + 4 * g + i) % 212 / 4 ≠ 8 ∧ (j * 256 + 4 * g + i) % 212 / 4 ≠ 10) ∨
      16970 ≤ j * 256 + 4 * g + i) :
    inode_field ((run img).inodes j) g = inode_field (img.inodes j) g % 2 ^ 32 := by
  rw [run_field _ _ _ hj hg, ← read_u32_table _ _ _ hg]
  apply read_u32_congr
  intro i hi
  rw [inode_size_eq]
  rw [total_inodes_eq] at hj
  rcases h i hi with ⟨h1, h2⟩ | h1
  · exact memory_bytes_frame _ _ _ (by rw [total_inodes_eq, sizeof_inode_t_eq]; omega)
      (by rw [sizeof_inode_t_eq]; exact h2)
  · exact memory_bytes_tail _ _ _ (by rw [total_inodes_eq, sizeof_inode_t_eq]; omega)
      (by rw [read_inodes_bytes_eq]; omega)

/-- A field of a written record whose four bytes are member `f` of slot `k` is
that member as the passes left it. -/
theorem run_field_slot (img : Disk) (j g k f : Nat) (hj : j < TOTAL_INODES) (hg : g < 14)
    (hk : k < TOTAL_INODES) (hf : f < 14) (he : j * 256 + 4 * g = k * 212 + 4 * f) :
    inode_field ((run img).inodes j) g = inode_field (final_inodes img k) f % 2 ^ 32 := by
  rw [run_field _ _ _ hj hg, ← read_u32_memory _ (fix_result img).inode_bitmap _ _ hk hf,
    inode_size_eq, sizeof_inode_t_eq, he]

/-! ## Block loops on particular tables -/

/-- With no block marked allocated, the block loop of `check_data_bitmap` writes
no inode. -/
theorem check_loop_unmarked (t : InodeTable) (ib db : Bitmap) (c : Nat)
    (h : ∀ i, is_bitmap_set db i = 0) (l : List Nat) :
    (l.foldl check_block
      { inodes := t, inode_bitmap := ib, data_bitmap := db, inode_index := c }).inodes = t := by
  have := foldl_invariant (fun r : Scan => r.inodes = t ∧ r.data_bitmap = db) check_block l
    (by
      intro r i _ hr
      rcases check_block_cases r i with ⟨_, e⟩ | ⟨_, _, hb, _⟩ | ⟨_, _, _, e⟩ | ⟨_, _, e⟩
      · rw [e]; exact hr
      · rw [hr.2] at hb
        exact absurd (h i) hb
      · rw [e]; exact hr
      · rw [e]; exact hr)
    { inodes := t, inode_bitmap := ib, data_bitmap := db, inode_index := c } ⟨rfl, rfl⟩
  exact this.1

/-- On a table without a live inode, the first `n` steps of the block loop of
`fix_data_bitmap` hand block `j + 8` to slot `j`, for every `j < n`. -/
theorem fix_loop_fresh (t : InodeTable) (ib db : Bitmap)
    (hdead : ∀ j, j < TOTAL_INODES → live (t j) = false) (n : Nat) (hn : n ≤ 56) :
    ((List.range n).foldl fix_block
      { inodes := t, inode_bitmap := ib, data_bitmap := db, inode_index := 0 }).inode_index = n ∧
    ∀ j, ((List.range n).foldl fix_block
      { inodes := t, inode_bitmap := ib, data_bitmap := db, inode_index := 0 }).inodes j =
        if j < n then
          { t j with links_count := 1, dtime := 0, direct_block := j + FIRST_DATA_BLOCK }
        else t j := by
  induction n with
  | zero =>
    refine ⟨rfl, ?_⟩
    intro j
    rw [if_neg (by omega)]
    rfl
  | succ n ih =>
    obtain ⟨hc, hi⟩ := ih (by omega)
    rw [List.range_succ, List.foldl_append, List.foldl_cons, List.foldl_nil]
    generalize (List.range n).foldl fix_block
      { inodes := t, inode_bitmap := ib, data_bitmap := db, inode_index := 0 } = r at hc hi
    have hslot : live (r.inodes n) = false := by
      rw [hi n, if_neg (by omega)]
      exact hdead n (by rw [total_inodes_eq]; omega)
    have hskip : skip_live r.inodes r.inode_index = n := by
      rw [hc]
      exact skip_live_of_dead _ _ hslot
    have hno : ¬ owned r.inodes (n + FIRST_DATA_BLOCK) := by
      rintro ⟨j, hj, hl, hb⟩
      rw [hi j] at hl hb
      split_ifs at hl hb with hjn
      · simp only at hb
        omega
      · rw [hdead j hj] at hl
        cases hl
    rcases fix_block_cases r n with ⟨ho, _⟩ | ⟨_, _, e⟩ | ⟨_, hx, _⟩
    · exact absurd ho hno
    · rw [e, hskip]
      refine ⟨rfl, ?_⟩
      intro j
      simp only
      unfold adopt
      by_cases hjn : j = n
      · subst hjn
        rw [store_same, if_pos (by omega), hi j, if_neg (by omega)]
      · rw [store_other _ _ _ _ hjn, hi j]
        by_cases hlt : j < n
        · rw [if_pos hlt, if_pos (by omega)]
        · rw [if_neg hlt, if_neg (by omega)]
    · rw [hskip, total_inodes_eq] at hx
      omega

/-- The inode bitmap written by a run, bit by bit: the bitmap found in memory
after `read_inodes`, plus the bits of the slots adopted by `fix_data_bitmap`. -/
theorem run_bit (img : Disk) (k : Nat) :
    is_bitmap_set (run img).inode_bitmap k =
      if k < TOTAL_INODES ∧ live (normalize (check_result img).inodes k) = false ∧
        live ((fix_result img).inodes k) = true then 1
      else is_bitmap_set (memory_bitmap img) k := by
  rw [(run_fields img).2.1]
  unfold fix_result check_result
  exact fix_from_bits _ _ _ k

/-- With no block marked allocated and no live inode after normalization, the
passes hand block `j + 8` to slot `j`, for every `j < 56`. -/
theorem fix_from_fresh (t : InodeTable) (ib db : Bitmap) (hdb : ∀ i, is_bitmap_set db i = 0)
    (hdead : ∀ j, j < TOTAL_INODES → live (normalize t j) = false) (j : Nat) :
    normalize (check_from t ib db).inodes = normalize t ∧
    (fix_from t ib db).inodes j =
      if j < 56 then
        { normalize t j with links_count := 1, dtime := 0, direct_block := j + FIRST_DATA_BLOCK }
      else normalize t j := by
  have hc : (check_from t ib db).inodes = normalize t := by
    unfold check_from
    exact check_loop_unmarked _ _ _ _ hdb _
  have e : TOTAL_BLOCKS - FIRST_DATA_BLOCK = 56 := rfl
  refine ⟨by rw [hc, normalize_idem], ?_⟩
  unfold fix_from
  rw [hc, normalize_idem, e]
  exact (fix_loop_fresh (normalize t) _ _ hdead 56 (le_refl _)).2 j

theorem inode_field_mtime (x : inode_t) : inode_field x 6 = x.mtime := rfl

theorem inode_field_dtime (x : inode_t) : inode_field x 7 = x.dtime := rfl

theorem inode_field_links_count (x : inode_t) : inode_field x 8 = x.links_count := rfl

theorem inode_field_direct_block (x : inode_t) : inode_field x 10 = x.direct_block := rfl

theorem zero_table_dead (j : Nat) : live (normalize (fun _ => zero_inode) j) = false := by
  rw [normalize_apply]
  split_ifs <;> rfl

/-- The slots after the block loops, in a run that finds neither a live inode
nor an allocated block. -/
theorem fresh_fix_result (img : Disk) (hM : memory_inodes img = fun _ => zero_inode)
    (hdb : ∀ i, is_bitmap_set img.data_bitmap i = 0) (j : Nat) :
    normalize (check_result img).inodes = normalize (fun _ => zero_inode) ∧
    (fix_result img).inodes j =
      if j < 56 then
        { normalize (fun _ => zero_inode) j with
          links_count := 1, dtime := 0, direct_block := j + FIRST_DATA_BLOCK }
      else normalize (fun _ => zero_inode) j := by
  have h := fix_from_fresh (fun _ => zero_inode) (memory_bitmap img) img.data_bitmap hdb
    (fun j _ => zero_table_dead j) j
  unfold fix_result check_result
  rw [hM]
  exact h

theorem fresh_final_inodes (img : Disk) (hM : memory_inodes img = fun _ => zero_inode)
    (hdb : ∀ i, is_bitmap_set img.data_bitmap i = 0) (j : Nat) (hj : j < 56) :
    final_inodes img j =
      { normalize (fun _ => zero_inode) j with
        links_count := 1, dtime := 0, direct_block := j + FIRST_DATA_BLOCK } := by
  have h := (fresh_fix_result img hM hdb j).2
  rw [if_pos hj] at h
  unfold fix_result at h
  unfold final_inodes
  rw [final_from_slot, if_pos (by rw [total_inodes_eq]; omega), h]
  apply bad_block_inode_of_block
  simp only
  unfold FIRST_DATA_BLOCK TOTAL_BLOCKS
  omega

theorem fresh_bit (img : Disk) (hM : memory_inodes img = fun _ => zero_inode)
    (hdb : ∀ i, is_bitmap_set img.data_bitmap i = 0) (k : Nat) (hk : k < 56) :
    is_bitmap_set (run img).inode_bitmap k = 1 := by
  obtain ⟨h1, h2⟩ := fresh_fix_result img hM hdb k
  rw [if_pos hk] at h2
  rw [run_bit, h1, h2, if_pos]
  exact ⟨by rw [total_inodes_eq]; omega, zero_table_dead k, rfl⟩

theorem fresh_bit_beyond (img : Disk) (hM : memory_inodes img = fun _ => zero_inode)
    (hdb : ∀ i, is_bitmap_set img.data_bitmap i = 0) (k : Nat) (hk : 56 ≤ k) :
    is_bitmap_set (run img).inode_bitmap k = is_bitmap_set (memory_bitmap img) k := by
  have h2 := (fresh_fix_result img hM hdb k).2
  rw [if_neg (by omega)] at h2
  rw [run_bit, h2, if_neg]
  rintro ⟨_, _, h⟩
  rw [zero_table_dead] at h
  cases h

theorem memory_bytes_slot (t : InodeTable) (ib : Bitmap) (k o : Nat) (hk : k < TOTAL_INODES)
    (ho : o < sizeof_inode_t) (p : Nat) (hp : p = k * sizeof_inode_t + o) :
    memory_bytes t ib p = inode_byte (t k) o := by
  subst hp
  rw [total_inodes_eq] at hk
  rw [sizeof_inode_t_eq] at ho ⊢
  unfold memory_bytes array_bytes
  rw [sizeof_inode_t_eq, total_inodes_eq, if_pos (by omega)]
  have e1 : (k * 212 + o) / 212 = k := by omega
  have e2 : (k * 212 + o) % 212 = o := by omega
  rw [e1, e2]

/-! ## The blank image -/

theorem inode_field_zero (f : Nat) : inode_field zero_inode f = 0 := by
  unfold inode_field
  split <;> rfl

theorem inode_byte_zero (o : Nat) : inode_byte zero_inode o = 0 := by
  unfold inode_byte
  split_ifs
  · rw [inode_field_zero]
    simp [byte_of]
  · simp only [zero_inode, List.getD_eq_getElem?_getD, List.getElem?_replicate]
    split_ifs <;> rfl

theorem wellFormed_zero_inode : WellFormed (sizeof_inode_t - 56) zero_inode := by
  refine ⟨?_, by rw [sizeof_inode_t_eq]; exact List.length_replicate _ _, ?_⟩
  · intro f
    rw [inode_field_zero]
    decide
  · intro b hb
    have := List.eq_of_mem_replicate hb
    omega

theorem blank_table_bytes (p : Nat) : table_bytes blank_image.inodes p = 0 :=
  inode_byte_zero _

theorem blank_memory_inodes : memory_inodes blank_image = fun _ => zero_inode := by
  funext k
  rw [memory_inodes_eq]
  split_ifs
  · apply inode_of_bytes_of_record _ _ _ _ _ wellFormed_zero_inode
    intro o _
    rw [blank_table_bytes, inode_byte_zero]
  · rfl

theorem blank_memory_bitmap : memory_bitmap blank_image = fun _ => 0 := by
  funext i
  rw [memory_bitmap_eq]
  split_ifs with hi
  · exact blank_table_bytes _
  · rw [read_inodes_bytes_eq, total_inodes_eq, sizeof_inode_t_eq] at hi
    simp only [blank_image]
    rw [if_neg (by omega), if_neg (by omega)]

theorem is_bitmap_set_zero (k : Nat) : is_bitmap_set (fun _ => 0) k = 0 := by
  simp [is_bitmap_set]

theorem blank_data_bits (i : Nat) : is_bitmap_set blank_image.data_bitmap i = 0 :=
  is_bitmap_set_zero i

/-- C1 (defect in the code).  On `blank_image` inode 5 has link count 0 and
inode-bitmap bit 5 is 1.  After the run bit 5 is still 1, and bit 1 is 1 although
persisted inode 1 is not live: `fix_data_bitmap` adopts block 9 into slot 1 of
`inodes[]` and sets bit 1, but slot 1 starts at byte 212 of the table, so its
`links_count` is stored in the reserved bytes of record 0 and record 1 keeps link
count 0. -/
theorem adopted_bit_without_live_inode :
    (blank_image.inodes 5).links_count = 0 ∧
    is_bitmap_set blank_image.inode_bitmap 5 = 1 ∧
    is_bitmap_set (run blank_image).inode_bitmap 5 = 1 ∧
    is_bitmap_set (run blank_image).inode_bitmap 1 = 1 ∧
    ((run blank_image).inodes 1).links_count = 0 ∧
    live ((run blank_image).inodes 1) = false := by
  have h := run_field_frame blank_image 1 8 (by decide) (by decide) (by intro i hi; omega)
  have e : inode_field (blank_image.inodes 1) 8 % 2 ^ 32 = 0 := by decide
  rw [e, inode_field_links_count] at h
  refine ⟨rfl, by decide, fresh_bit _ blank_memory_inodes blank_data_bits 5 (by decide),
    fresh_bit _ blank_memory_inodes blank_data_bits 1 (by decide), h, ?_⟩
  unfold live
  rw [h]
  rfl

/-- C3 (defect in the code).  On `far_pointer_image` inode 10 references block
9999, and the record written for inode 10 by the run still references block
9999: the passes work on the slots of `inodes[]`, which are 212 bytes apart, and
the pointer of record 10 (byte 2600 of the table) lies in the reserved bytes of
slot 12, which no pass writes. -/
theorem far_pointer_survives_run :
    (far_pointer_image.inodes 10).direct_block = 9999 ∧
    ((run far_pointer_image).inodes 10).direct_block = 9999 ∧
    ¬ (((run far_pointer_image).inodes 10).direct_block = 0 ∨
      (8 ≤ ((run far_pointer_image).inodes 10).direct_block ∧
        ((run far_pointer_image).inodes 10).direct_block ≤ 63)) := by
  have h := run_field_frame far_pointer_image 10 10 (by decide) (by decide)
    (by intro i hi; omega)
  have e : inode_field (far_pointer_image.inodes 10) 10 % 2 ^ 32 = 9999 := by decide
  rw [e, inode_field_direct_block] at h
  refine ⟨rfl, h, ?_⟩
  rw [h]
  decide

/-- C10 (defect in the code).  On `blank_image` record 5 has `mtime` 0 before the
run and `mtime` 1 after it, and byte 244 of the table, a reserved byte of record
0, changes from 0 to 1: the passes write `links_count` of slots 6 and 1 of
`inodes[]`, and these slots, 212 bytes apart, keep that member at bytes 1304 and
244 of the table, inside records 5 and 0. -/
theorem run_changes_other_fields :
    (blank_image.inodes 5).mtime = 0 ∧
    ((run blank_image).inodes 5).mtime = 1 ∧
    table_bytes blank_image.inodes 244 = 0 ∧
    table_bytes (run blank_image).inodes 244 = 1 := by
  have h := run_field_slot blank_image 5 6 6 8 (by decide) (by decide) (by decide) (by decide)
    (by decide)
  have e : inode_field { normalize (fun _ => zero_inode) 6 with
      links_count := 1, dtime := 0, direct_block := 6 + FIRST_DATA_BLOCK } 8 % 2 ^ 32 = 1 := rfl
  rw [fresh_final_inodes _ blank_memory_inodes blank_data_bits 6 (by decide), e,
    inode_field_mtime] at h
  refine ⟨rfl, h, blank_table_bytes 244, ?_⟩
  have e1 := fresh_final_inodes _ blank_memory_inodes blank_data_bits 1 (by decide)
  have e2 : inode_byte { normalize (fun _ => zero_inode) 1 with
      links_count := 1, dtime := 0, direct_block := 1 + FIRST_DATA_BLOCK } 32 = 1 := rfl
  rw [table_bytes_run _ _ (by decide),
    memory_bytes_slot _ _ 1 32 (by decide) (by decide) 244 (by decide), e1, e2]

/-- C19 (defect in the code).  On `blank_image` inode-bitmap bit 79 is 1 before
the run and 0 in the bitmap the run writes: `read_inodes` copies 20480 bytes to
`inodes[]`, which holds 16960, and the remaining 3520 bytes of the table
overwrite the start of `inode_bitmap[]` that `read_bitmaps` had loaded. -/
theorem loaded_bit_cleared_by_run :
    is_bitmap_set blank_image.inode_bitmap 79 = 1 ∧
    is_bitmap_set (memory_bitmap blank_image) 79 = 0 ∧
    is_bitmap_set (run blank_image).inode_bitmap 79 = 0 := by
  have h := fresh_bit_beyond _ blank_memory_inodes blank_data_bits 79 (by decide)
  have e : is_bitmap_set (memory_bitmap blank_image) 79 = 0 := by
    rw [blank_memory_bitmap]
    exact is_bitmap_set_zero 79
  rw [e] at h
  exact ⟨by decide, e, h⟩

/-! ## What the passes can store in `dtime` and `links_count` -/

theorem touched_refl (x : inode_t) : Touched x x := ⟨Or.inl rfl, Or.inl rfl⟩

theorem touched_trans (x y z : inode_t) (h1 : Touched x y) (h2 : Touched y z) : Touched x z := by
  obtain ⟨a1, a2⟩ := h1
  obtain ⟨b1, b2⟩ := h2
  constructor
  · rcases b1 with b | b
    · rw [b]; exact a1
    · exact Or.inr b
  · rcases b2 with b | b
    · rw [b]; exact a2
    · exact Or.inr b

theorem touched_normalize_slot (j : Nat) (x : inode_t) : Touched x (normalize_slot j x) := by
  unfold normalize_slot normalize_inode
  split_ifs
  · exact ⟨Or.inr (le_refl _), Or.inr (Nat.zero_le _)⟩
  · exact touched_refl _
  · exact touched_refl _

theorem touched_keptOrAdopted (x y : inode_t) (h : KeptOrAdopted x y) : Touched x y := by
  rcases h with h | ⟨_, b, _, _, h⟩
  · rw [h]; exact touched_refl _
  · rw [h]; exact ⟨Or.inr (Nat.zero_le _), Or.inr (le_refl _)⟩

theorem touched_bad_block_inode (x : inode_t) : Touched x (bad_block_inode x) := by
  unfold bad_block_inode
  split_ifs <;> exact touched_refl _

theorem touched_final_from (t : InodeTable) (ib db : Bitmap) (j : Nat) :
    Touched (t j) (final_from t ib db j) := by
  have h1 := touched_normalize_slot j (t j)
  have h2 := touched_keptOrAdopted _ _ (check_from_slot t ib db j)
  have h3 := touched_normalize_slot j ((check_from t ib db).inodes j)
  have h4 := touched_keptOrAdopted _ _ (fix_from_slot t ib db j)
  have h := touched_trans _ _ _ (touched_trans _ _ _ (touched_trans _ _ _ h1 h2) h3) h4
  rw [final_from_slot]
  split_ifs
  · exact touched_trans _ _ _ h (touched_bad_block_inode _)
  · exact h

/-! ## An adoption in the first step of `check_data_bitmap` -/

theorem adopted_record (x : inode_t) (b j : Nat)
    (hb : FIRST_DATA_BLOCK ≤ b ∧ b < TOTAL_BLOCKS) :
    live { x with links_count := 1, dtime := 0, direct_block := b } = true ∧
    normalize_slot j { x with links_count := 1, dtime := 0, direct_block := b }
      = { x with links_count := 1, dtime := 0, direct_block := b } ∧
    bad_block_inode { x with links_count := 1, dtime := 0, direct_block := b }
      = { x with links_count := 1, dtime := 0, direct_block := b } :=
  ⟨rfl, normalize_slot_of_valid _ _ (Or.inr hb), bad_block_inode_of_block _ hb.2⟩

theorem check_block_first (t : InodeTable) (ib db : Bitmap)
    (hno : ¬ owned t (0 + FIRST_DATA_BLOCK)) (hdead : live (t 0) = false)
    (hbit : is_bitmap_set db 0 ≠ 0) :
    check_block { inodes := t, inode_bitmap := ib, data_bitmap := db, inode_index := 0 } 0 =
      { inodes := adopt t 0 (0 + FIRST_DATA_BLOCK), inode_bitmap := ib, data_bitmap := db,
        inode_index := 0 + 1 } := by
  have hskip : skip_live t 0 = 0 := skip_live_of_dead _ _ hdead
  rcases check_block_cases
    { inodes := t, inode_bitmap := ib, data_bitmap := db, inode_index := 0 } 0
    with ⟨ho, _⟩ | ⟨_, _, _, he⟩ | ⟨_, _, hb, _⟩ | ⟨_, hx, _⟩
  · exact absurd ho hno
  · rw [he]
    simp only [hskip]
  · exact absurd hb hbit
  · exfalso
    apply hx
    simp only [hskip]
    decide

/-- If block 8 is marked allocated, no live inode owns it after normalization and
slot 0 is free, `check_data_bitmap` hands block 8 to slot 0, the later passes
leave slot 0 alone, and bit 0 of the inode bitmap is never written. -/
theorem first_adoption (t : InodeTable) (ib db : Bitmap)
    (hno : ¬ owned (normalize t) (0 + FIRST_DATA_BLOCK))
    (hdead : live (normalize t 0) = false) (hbit : is_bitmap_set db 0 ≠ 0) :
    (check_from t ib db).inodes 0 =
      { normalize t 0 with links_count := 1, dtime := 0, direct_block := 0 + FIRST_DATA_BLOCK } ∧
    final_from t ib db 0 =
      { normalize t 0 with links_count := 1, dtime := 0, direct_block := 0 + FIRST_DATA_BLOCK } ∧
    is_bitmap_set (fix_from t ib db).inode_bitmap 0 = is_bitmap_set ib 0 := by
  have hr : List.range (TOTAL_BLOCKS - FIRST_DATA_BLOCK) = 0 :: (List.range 55).map Nat.succ :=
    List.range_succ_eq_map 55
  have hl : ∀ i ∈ (List.range 55).map Nat.succ, i < TOTAL_BLOCKS - FIRST_DATA_BLOCK := by
    intro i hi
    rw [List.mem_map] at hi
    obtain ⟨a, ha, rfl⟩ := hi
    have := List.mem_range.mp ha
    unfold TOTAL_BLOCKS FIRST_DATA_BLOCK
    omega
  have hb8 : FIRST_DATA_BLOCK ≤ 0 + FIRST_DATA_BLOCK ∧ 0 + FIRST_DATA_BLOCK < TOTAL_BLOCKS := by
    decide
  obtain ⟨a1, a2, a3⟩ := adopted_record (normalize t 0) (0 + FIRST_DATA_BLOCK) 0 hb8
  have ha : adopt (normalize t) 0 (0 + FIRST_DATA_BLOCK) 0 =
      { normalize t 0 with
        links_count := 1, dtime := 0, direct_block := 0 + FIRST_DATA_BLOCK } := by
    unfold adopt
    rw [store_same]
  have hc : (check_from t ib db).inodes 0 =
      { normalize t 0 with
        links_count := 1, dtime := 0, direct_block := 0 + FIRST_DATA_BLOCK } := by
    unfold check_from
    rw [hr, List.foldl_cons, check_block_first _ _ _ hno hdead hbit]
    have hev := check_loop_evolves _ hl
      { inodes := adopt (normalize t) 0 (0 + FIRST_DATA_BLOCK), inode_bitmap := ib,
        data_bitmap := db, inode_index := 0 + 1 }
    have hk := kept_of_evolves_live _ _ hev 0 (by simp only; rw [ha]; exact a1)
    simp only at hk
    rw [hk, ha]
  have h4 := fix_from_slot t ib db 0
  rw [hc, a2] at h4
  have e4 := keptOrAdopted_of_live _ _ a1 h4
  refine ⟨hc, ?_, ?_⟩
  · rw [final_from_slot, if_pos (by decide), e4]
    exact a3
  · rw [fix_from_bits, if_neg]
    rintro ⟨_, h, _⟩
    rw [normalize_apply, if_pos (by decide), hc] at h
    unfold normalize_slot at a2
    rw [if_pos (by decide)] at a2
    rw [a2, a1] at h
    cases h

/-- State handed to `check_data_bitmap` by `main`, and state it returns. -/
theorem check_data_bitmap_in_main (img : Disk) :
    (check_data_bitmap (main_upto 4 img)).inodes = (check_result img).inodes ∧
    (check_data_bitmap (main_upto 4 img)).inode_bitmap = memory_bitmap img ∧
    (check_data_bitmap (main_upto 4 img)).data_bitmap = img.data_bitmap ∧
    (main_upto 4 img).inodes = memory_inodes img ∧
    (main_upto 4 img).inode_bitmap = memory_bitmap img ∧
    (main_upto 4 img).data_bitmap = img.data_bitmap := by
  have hb : (check_result img).inode_bitmap = memory_bitmap img ∧
      (check_result img).data_bitmap = img.data_bitmap := by
    unfold check_result
    exact check_from_bitmaps _ _ _
  rw [← (main_upto_steps img).1, main_upto_five, main_upto_four]
  simp only [hb.1, hb.2, and_self]

theorem run_keeps_data_bit (img : Disk) (k : Nat) (h : is_bitmap_set img.data_bitmap k = 1) :
    is_bitmap_set (run img).data_bitmap k = 1 := by
  rw [(run_fields img).2.2]
  unfold fix_result
  exact fix_from_keeps_data_bits _ _ _ _ h

/-- A field of a written record whose four bytes are member `f` of a slot that
was loaded live, with a pointer the passes accept, is that member as loaded. -/
theorem run_field_kept (img : Disk) (j g k f : Nat) (hj : j < TOTAL_INODES) (hg : g < 14)
    (hk : k < TOTAL_INODES) (hf : f < 14) (he : j * 256 + 4 * g = k * 212 + 4 * f)
    (hl : live (memory_inodes img k) = true)
    (hv : 56 ≤ k ∨ (FIRST_DATA_BLOCK ≤ (memory_inodes img k).direct_block ∧
      (memory_inodes img k).direct_block < TOTAL_BLOCKS))
    (hs : to_int32 (memory_inodes img k).direct_block < (TOTAL_BLOCKS : Int)) :
    inode_field ((run img).inodes j) g = inode_field (memory_inodes img k) f % 2 ^ 32 := by
  have h := (final_from_keeps_live (memory_inodes img) (memory_bitmap img) img.data_bitmap k
    hl hv hs).2.2
  rw [run_field_slot img j g k f hj hg hk hf he]
  unfold final_inodes
  rw [h]

theorem live_of_fields (x : inode_t) (h1 : x.links_count = 1) (h2 : x.dtime = 0) :
    live x = true := by
  unfold live
  rw [h1, h2]
  rfl

/-- A field of a written record whose four bytes are the `dtime` of slot `k` is
the `dtime` that was loaded into slot `k`, or at most 1. -/
theorem run_field_dtime (img : Disk) (j g k : Nat) (hj : j < TOTAL_INODES) (hg : g < 14)
    (hk : k < TOTAL_INODES) (he : j * 256 + 4 * g = k * 212 + 4 * 7) :
    inode_field ((run img).inodes j) g = (memory_inodes img k).dtime % 2 ^ 32 ∨
      inode_field ((run img).inodes j) g ≤ 1 := by
  have h := (touched_final_from (memory_inodes img) (memory_bitmap img) img.data_bitmap k).1
  rw [run_field_slot img j g k 7 hj hg hk (by decide) he, inode_field_dtime]
  unfold final_inodes
  rcases h with h | h
  · rw [h]; exact Or.inl rfl
  · right
    exact le_trans (Nat.mod_le _ _) h

/-- A field of a written record whose four bytes are the `links_count` of slot
`k` is the `links_count` that was loaded into slot `k`, or at most 1. -/
theorem run_field_links_count (img : Disk) (j g k : Nat) (hj : j < TOTAL_INODES) (hg : g < 14)
    (hk : k < TOTAL_INODES) (he : j * 256 + 4 * g = k * 212 + 4 * 8) :
    inode_field ((run img).inodes j) g = (memory_inodes img k).links_count % 2 ^ 32 ∨
      inode_field ((run img).inodes j) g ≤ 1 := by
  have h := (touched_final_from (memory_inodes img) (memory_bitmap img) img.data_bitmap k).2
  rw [run_field_slot img j g k 8 hj hg hk (by decide) he, inode_field_links_count]
  unfold final_inodes
  rcases h with h | h
  · rw [h]; exact Or.inl rfl
  · right
    exact le_trans (Nat.mod_le _ _) h

/-- The pointer of every record but 0, 19, 48 and 53 lies outside the members
the passes write. -/
theorem pointer_bytes_frame : ∀ j, j < 80 → ∀ i, i < 4 →
    (j = 0 ∨ j = 19 ∨ j = 48 ∨ j = 53) ∨
    (j * 256 + 4 * 10 + i < 16960 ∧ (j * 256 + 4 * 10 + i) % 212 / 4 ≠ 7 ∧
      (j * 256 + 4 * 10 + i) % 212 / 4 ≠ 8 ∧ (j * 256 + 4 * 10 + i) % 212 / 4 ≠ 10) ∨
    16970 ≤ j * 256 + 4 * 10 + i := by
  decide

theorem run_pointer_frame (img : Disk) (j : Nat) (hj : j < TOTAL_INODES) (h0 : j ≠ 0)
    (h19 : j ≠ 19) (h48 : j ≠ 48) (h53 : j ≠ 53) :
    ((run img).inodes j).direct_block = (img.inodes j).direct_block % 2 ^ 32 := by
  have hc : ∀ i, i < 4 →
      (j * 256 + 4 * 10 + i < 16960 ∧ (j * 256 + 4 * 10 + i) % 212 / 4 ≠ 7 ∧
        (j * 256 + 4 * 10 + i) % 212 / 4 ≠ 8 ∧ (j * 256 + 4 * 10 + i) % 212 / 4 ≠ 10) ∨
      16970 ≤ j * 256 + 4 * 10 + i := by
    intro i hi
    rcases pointer_bytes_frame j hj i hi with h | h
    · omega
    · exact h
  have h := run_field_frame img j 10 hj (by decide) hc
  rw [inode_field_direct_block, inode_field_direct_block] at h
  exact h

/-! ## The orphan block image in memory -/

set_option maxRecDepth 100000 in
theorem orphan_memory_slots : ∀ j, j < 80 →
    ¬ (live (normalize_slot j (memory_inodes orphan_block_image j)) = true ∧
      (normalize_slot j (memory_inodes orphan_block_image j)).direct_block = 8) := by
  decide

theorem orphan_memory_unowned :
    ¬ owned (normalize (memory_inodes orphan_block_image)) (0 + FIRST_DATA_BLOCK) := by
  rintro ⟨j, hj, hl, hb⟩
  rw [normalize_apply] at hl hb
  exact orphan_memory_slots j hj ⟨hl, hb⟩

theorem orphan_memory_slot_zero :
    live (normalize (memory_inodes orphan_block_image) 0) = false := by
  rw [normalize_apply]
  decide

theorem orphan_data_bit : is_bitmap_set orphan_block_image.data_bitmap 0 ≠ 0 := by decide

theorem orphan_pointer (j : Nat) (hj : j < 80) (h : (orphan_block_image.inodes j).direct_block % 2 ^ 32 = 8) :
    j = 0 := by
  by_cases hjr : 1 ≤ j ∧ j ≤ 55
  · have e : orphan_block_image.inodes j = file_inode (j + 8) := by
      simp only [orphan_block_image, hjr, and_self, if_true]
    rw [e] at h
    have h2 : (j + 8) % 2 ^ 32 = 8 := h
    omega
  · have e : orphan_block_image.inodes j = zero_inode := by
      simp only [orphan_block_image, hjr, if_false]
    rw [e] at h
    have h2 : zero_inode.direct_block % 2 ^ 32 = 0 := rfl
    omega

/-! ## The whole run on particular images -/

theorem read_inodes_fp (s : State) : (read_inodes s).fp = s.fp := rfl

theorem check_result_eq (img : Disk) :
    check_result img = check_from (memory_inodes img) (memory_bitmap img) img.data_bitmap := rfl

theorem fix_result_eq (img : Disk) :
    fix_result img = fix_from (memory_inodes img) (memory_bitmap img) img.data_bitmap := rfl

theorem final_inodes_eq (img : Disk) :
    final_inodes img = final_from (memory_inodes img) (memory_bitmap img) img.data_bitmap := rfl

theorem adopted_fields (x : inode_t) (b : Nat) :
    inode_field { x with links_count := 1, dtime := 0, direct_block := b } 7 % 2 ^ 32 = 0 ∧
    inode_field { x with links_count := 1, dtime := 0, direct_block := b } 8 % 2 ^ 32 = 1 ∧
    inode_field { x with links_count := 1, dtime := 0, direct_block := b } 10 % 2 ^ 32
      = b % 2 ^ 32 ∧
    ({ x with links_count := 1, dtime := 0, direct_block := b } : inode_t).direct_block = b :=
  ⟨rfl, rfl, rfl, rfl⟩

/-- C2 (defect in the code).  On `shared_block_image` inodes 0 and 1 both have
link count 1 and direct block 20.  After the run both are still live, both still
have direct block 20 and the data-bitmap bit of block 20 is still 1:
`block_usage_count` is never filled in, so `check_and_fix_duplicate_blocks` finds
no count above one. -/
theorem shared_block_survives_run :
    live ((run shared_block_image).inodes 0) = true ∧
    ((run shared_block_image).inodes 0).direct_block = 20 ∧
    live ((run shared_block_image).inodes 1) = true ∧
    ((run shared_block_image).inodes 1).direct_block = 20 ∧
    is_bitmap_set (run shared_block_image).data_bitmap (20 - FIRST_DATA_BLOCK) = 1 := by
  have hl : live (memory_inodes shared_block_image 0) = true := by decide
  have hv : 56 ≤ 0 ∨ (FIRST_DATA_BLOCK ≤ (memory_inodes shared_block_image 0).direct_block ∧
      (memory_inodes shared_block_image 0).direct_block < TOTAL_BLOCKS) := Or.inr (by decide)
  have hs : to_int32 (memory_inodes shared_block_image 0).direct_block < (TOTAL_BLOCKS : Int) := by
    decide
  have a7 := run_field_kept shared_block_image 0 7 0 7 (by decide) (by decide) (by decide)
    (by decide) (by decide) hl hv hs
  have a8 := run_field_kept shared_block_image 0 8 0 8 (by decide) (by decide) (by decide)
    (by decide) (by decide) hl hv hs
  have a10 := run_field_kept shared_block_image 0 10 0 10 (by decide) (by decide) (by decide)
    (by decide) (by decide) hl hv hs
  have b7 := run_field_frame shared_block_image 1 7 (by decide) (by decide)
    (by intro i hi; omega)
  have b8 := run_field_frame shared_block_image 1 8 (by decide) (by decide)
    (by intro i hi; omega)
  have b10 := run_field_frame shared_block_image 1 10 (by decide) (by decide)
    (by intro i hi; omega)
  have e7 : inode_field (memory_inodes shared_block_image 0) 7 % 2 ^ 32 = 0 := by decide
  have e8 : inode_field (memory_inodes shared_block_image 0) 8 % 2 ^ 32 = 1 := by decide
  have e10 : inode_field (memory_inodes shared_block_image 0) 10 % 2 ^ 32 = 20 := by decide
  have f7 : inode_field (shared_block_image.inodes 1) 7 % 2 ^ 32 = 0 := by decide
  have f8 : inode_field (shared_block_image.inodes 1) 8 % 2 ^ 32 = 1 := by decide
  have f10 : inode_field (shared_block_image.inodes 1) 10 % 2 ^ 32 = 20 := by decide
  rw [e7, inode_field_dtime] at a7
  rw [e8, inode_field_links_count] at a8
  rw [e10, inode_field_direct_block] at a10
  rw [f7, inode_field_dtime] at b7
  rw [f8, inode_field_links_count] at b8
  rw [f10, inode_field_direct_block] at b10
  exact ⟨live_of_fields _ a8 a7, a10, live_of_fields _ b8 b7, b10,
    run_keeps_data_bit shared_block_image _ (by decide)⟩

/-- C4 (defect in the code).  On `orphan_block_image` block 8 is marked allocated,
no live inode references it and slot 0 is free.  After the run slot 0 is live and
has block 8 as its direct block, and it is the only slot pointing at block 8, but
its inode-bitmap bit is 0: the adoption is made by `check_data_bitmap`, which
writes the inode and not the bitmap, and `fix_data_bitmap` then finds the block
owned. -/
theorem adopted_slot_bit_not_set :
    is_bitmap_set orphan_block_image.data_bitmap 0 = 1 ∧
    ¬ owned orphan_block_image.inodes 8 ∧
    live (orphan_block_image.inodes 0) = false ∧
    live ((run orphan_block_image).inodes 0) = true ∧
    ((run orphan_block_image).inodes 0).direct_block = 8 ∧
    is_bitmap_set (run orphan_block_image).inode_bitmap 0 = 0 ∧
    (∀ j, j < TOTAL_INODES → ((run orphan_block_image).inodes j).direct_block = 8 → j = 0) := by
  obtain ⟨_, hfin, hbit⟩ := first_adoption (memory_inodes orphan_block_image)
    (memory_bitmap orphan_block_image) orphan_block_image.data_bitmap orphan_memory_unowned
    orphan_memory_slot_zero orphan_data_bit
  have a7 := run_field_slot orphan_block_image 0 7 0 7 (by decide) (by decide) (by decide)
    (by decide) (by decide)
  have a8 := run_field_slot orphan_block_image 0 8 0 8 (by decide) (by decide) (by decide)
    (by decide) (by decide)
  have a10 := run_field_slot orphan_block_image 0 10 0 10 (by decide) (by decide) (by decide)
    (by decide) (by decide)
  obtain ⟨f7, f8, f10, _⟩ := adopted_fields (normalize (memory_inodes orphan_block_image) 0)
    (0 + FIRST_DATA_BLOCK)
  have e8 : (0 + FIRST_DATA_BLOCK) % 2 ^ 32 = 8 := by decide
  rw [final_inodes_eq, hfin] at a7 a8 a10
  rw [f7, inode_field_dtime] at a7
  rw [f8, inode_field_links_count] at a8
  rw [f10, e8, inode_field_direct_block] at a10
  have hb0 : is_bitmap_set (run orphan_block_image).inode_bitmap 0 = 0 := by
    rw [(run_fields orphan_block_image).2.1, fix_result_eq, hbit]
    decide
  refine ⟨by decide, ?_, by decide, live_of_fields _ a8 a7, a10, hb0, ?_⟩
  · rintro ⟨j, hj, hl, hb⟩
    by_cases hjr : 1 ≤ j ∧ j ≤ 55
    · have e : orphan_block_image.inodes j = file_inode (j + 8) := by
        simp only [orphan_block_image, hjr, and_self, if_true]
      rw [e] at hb
      have : j + 8 = 8 := hb
      omega
    · have e : orphan_block_image.inodes j = zero_inode := by
        simp only [orphan_block_image, hjr, if_false]
      rw [e] at hl
      revert hl
      decide
  · intro j hj hb
    by_contra h0
    by_cases h19 : j = 19
    · subst h19
      have h := run_field_dtime orphan_block_image 19 10 23 (by decide) (by decide) (by decide)
        (by decide)
      have e : (memory_inodes orphan_block_image 23).dtime % 2 ^ 32 = 27 := by decide
      rw [inode_field_direct_block, hb, e] at h
      omega
    by_cases h48 : j = 48
    · subst h48
      have h := run_field_links_count orphan_block_image 48 10 58 (by decide) (by decide)
        (by decide) (by decide)
      have e : (memory_inodes orphan_block_image 58).links_count % 2 ^ 32 = 56 := by decide
      rw [inode_field_direct_block, hb, e] at h
      omega
    by_cases h53 : j = 53
    · subst h53
      have h := run_field_kept orphan_block_image 53 10 64 10 (by decide) (by decide)
        (by decide) (by decide) (by decide) (by decide) (Or.inl (by decide)) (by decide)
      have e : inode_field (memory_inodes orphan_block_image 64) 10 % 2 ^ 32 = 61 := by decide
      rw [inode_field_direct_block, hb, e] at h
      omega
    have h := run_pointer_frame orphan_block_image j hj h0 h19 h48 h53
    rw [hb] at h
    exact h0 (orphan_pointer j hj h.symm)

/-- C5 as stated fails: a superblock whose `inode_count` is 5 keeps 5 through
`validate_superblock` and through the run; it does not become 80. -/
theorem small_inode_count_kept :
    (validate_superblock (read_superblock (fopen few_inodes_image))).sb.inode_count = 5 ∧
    (validate_superblock (read_superblock (fopen few_inodes_image))).fp.sb.inode_count = 5 ∧
    (run few_inodes_image).sb.inode_count = 5 := by
  rw [(run_fields few_inodes_image).1]
  decide

/-- C5, amended.  For every initial superblock, after `validate_superblock` the
eight geometry fields hold the compiled constants, in memory and on disk, and
`inode_count` is the old count capped at 80 (it is 80 only when the old count was
at least 80); the superblock written by the run is the same record.  A
magic of `0x0000` becomes `0xD34D`. -/
theorem validate_superblock_fields (s : State) (img : Disk) :
    (validate_superblock s).sb.magic = 0xD34D ∧
    (validate_superblock s).sb.block_size = 4096 ∧
    (validate_superblock s).sb.total_blocks = 64 ∧
    (validate_superblock s).sb.inode_bitmap_block = 1 ∧
    (validate_superblock s).sb.data_bitmap_block = 2 ∧
    (validate_superblock s).sb.inode_table_start = 3 ∧
    (validate_superblock s).sb.data_block_start = 8 ∧
    (validate_superblock s).sb.inode_size = 256 ∧
    (validate_superblock s).sb.inode_count = min s.sb.inode_count 80 ∧
    (validate_superblock s).sb.reserved = s.sb.reserved ∧
    (validate_superblock s).fp.sb = (validate_superblock s).sb ∧
    (run img).sb = (validate_superblock (read_superblock (fopen img))).sb := by
  have hrun : (run img).sb = (validate_superblock (read_superblock (fopen img))).sb := by
    rw [(run_fields img).1]
    simp only [validate_superblock, write_superblock, read_superblock, fopen]
  refine ⟨?_, ?_, ?_, ?_, ?_, ?_, ?_, ?_, ?_, ?_, ?_, hrun⟩ <;>
    simp only [validate_superblock, write_superblock, fix_superblock_eq]
  all_goals first
    | rfl
    | (rw [total_inodes_eq]; split_ifs <;> omega)

/-- C8 (defect in the code).  In the run on `orphan_block_image`,
`check_data_bitmap` receives a table whose slot 0 is not live and returns one in
which slot 0 is live with direct block 8: the adoption in the allocated-block
branch is still active.  The two bitmaps are returned as received. -/
theorem check_data_bitmap_writes_inode :
    live ((main_upto 4 orphan_block_image).inodes 0) = false ∧
    live ((check_data_bitmap (main_upto 4 orphan_block_image)).inodes 0) = true ∧
    ((check_data_bitmap (main_upto 4 orphan_block_image)).inodes 0).direct_block = 8 ∧
    (check_data_bitmap (main_upto 4 orphan_block_image)).inodes 0
      ≠ (main_upto 4 orphan_block_image).inodes 0 ∧
    (check_data_bitmap (main_upto 4 orphan_block_image)).inode_bitmap
      = (main_upto 4 orphan_block_image).inode_bitmap ∧
    (check_data_bitmap (main_upto 4 orphan_block_image)).data_bitmap
      = (main_upto 4 orphan_block_image).data_bitmap := by
  obtain ⟨h1, h2, h3, h4, h5, h6⟩ := check_data_bitmap_in_main orphan_block_image
  obtain ⟨hc, _, _⟩ := first_adoption (memory_inodes orphan_block_image)
    (memory_bitmap orphan_block_image) orphan_block_image.data_bitmap orphan_memory_unowned
    orphan_memory_slot_zero orphan_data_bit
  obtain ⟨a1, _, _⟩ := adopted_record (normalize (memory_inodes orphan_block_image) 0)
    (0 + FIRST_DATA_BLOCK) 0 (by decide)
  obtain ⟨_, _, _, f10⟩ := adopted_fields (normalize (memory_inodes orphan_block_image) 0)
    (0 + FIRST_DATA_BLOCK)
  have e8 : 0 + FIRST_DATA_BLOCK = 8 := by decide
  rw [e8] at f10
  have hd : live (memory_inodes orphan_block_image 0) = false := by decide
  rw [h1, h2, h3, h4, h5, h6, check_result_eq, hc]
  refine ⟨hd, a1, f10, ?_, rfl, rfl⟩
  intro h
  have hlive := congrArg live h
  rw [a1, hd] at hlive
  cases hlive

/-- C9 as stated fails: on `zero_magic_image` the superblock on disk already
differs from the pre-run one after the second call of `main`
(`validate_superblock`), long before the final persist steps. -/
theorem superblock_written_early :
    (main_upto 2 zero_magic_image).fp.sb.magic = 0xD34D ∧ zero_magic_image.sb.magic = 0 ∧
    (main_upto 2 zero_magic_image).fp.sb ≠ zero_magic_image.sb := by
  simp only [main_upto, main_steps, List.take_succ_cons, List.take_zero, List.foldl_cons,
    List.foldl_nil, validate_superblock, write_superblock, read_superblock, fopen]
  decide

/-- C9, amended.  After each of the first nine calls of `main` (all that precede
`write_bitmaps` and `write_inodes`) the data bitmap and the inode table on disk are
those of the pre-run image.  The superblock on disk is the pre-run one until
`validate_superblock` has run and the validated one from then on; the inode bitmap
on disk is the pre-run one until `check_and_fix_inode_bitmap` has run and the
bitmap reconciled against the on-disk inodes from then on. -/
theorem image_before_persist (img : Disk) (n : Nat) (hn : n ≤ 9) :
    (main_upto n img).fp.data_bitmap = img.data_bitmap ∧
    (main_upto n img).fp.inodes = img.inodes ∧
    (main_upto n img).fp.sb = (if n < 2 then img.sb else fix_superblock img.sb) ∧
    (main_upto n img).fp.inode_bitmap =
      (if n < 6 then img.inode_bitmap
       else (List.range INODE_COUNT).foldl (inode_bitmap_step img.inodes) img.inode_bitmap) := by
  interval_cases n <;>
    simp only [main_upto, main_steps, List.take_succ_cons, List.take_zero, List.foldl_cons,
      List.foldl_nil, check_and_fix_bad_blocks_fp, check_and_fix_duplicate_blocks_fp,
      fix_data_bitmap_fp, check_data_bitmap_fp, check_and_fix_inode_bitmap, read_inodes_fp,
      read_bitmaps, validate_superblock, write_superblock, read_superblock, fopen] <;>
    simp

theorem image_before_persist_witness :
    9 ≤ 9 ∧
    ((main_upto 9 zero_magic_image).fp.data_bitmap = zero_magic_image.data_bitmap ∧
    (main_upto 9 zero_magic_image).fp.inodes = zero_magic_image.inodes ∧
    (main_upto 9 zero_magic_image).fp.sb
      = (if 9 < 2 then zero_magic_image.sb else fix_superblock zero_magic_image.sb) ∧
    (main_upto 9 zero_magic_image).fp.inode_bitmap =
      (if 9 < 6 then zero_magic_image.inode_bitmap
       else (List.range INODE_COUNT).foldl (inode_bitmap_step zero_magic_image.inodes)
        zero_magic_image.inode_bitmap)) :=
  ⟨by decide, image_before_persist zero_magic_image 9 (by decide)⟩

end Vsfs
